import Mathlib

/-!
# bazelrc parser: a shallow embedding of `bazelrc/parser.go`, `bazelrc/contents.go`
and `bazelrc/command_line.go`

Go strings are modelled as lists of characters (`Str`), Go maps as partial functions,
pointer arguments that a function mutates as values that the function returns next to its
error, and the external collaborators (the shlex tokenizer, the file system, the `%q`
formatting verb) as the fields of an environment `Env`.

The recursion of the file parser (loop iterations, continuation lines, imports) is
bounded by a fuel argument; `none` is the answer of a run that needs more fuel.
-/

set_option autoImplicit false

namespace Bazelrc

/-! ## Strings -/

/-- A Go string, as the list of its bytes, each written as a character (the parser
compares bytes with ASCII characters only, so ASCII text is the list of its characters). -/
abbrev Str := List Char

/-- Go `strings.HasPrefix(s, pre)`. -/
def hasPrefix (s pre : Str) : Bool := pre.isPrefixOf s

/-- Go `strings.Contains(s, sub)`. -/
def strContains : Str → Str → Bool
  | [], sub => sub.isEmpty
  | c :: cs, sub => sub.isPrefixOf (c :: cs) || strContains cs sub

/-- Go `strings.SplitN(s, "=", 2)` on a string that contains `=`: the text before the first
`=` (`parts[0]`) and the text after it (`parts[1]`). -/
def splitAtFirstEq : Str → Str × Str
  | [] => ([], [])
  | c :: cs => if c = '=' then ([], cs) else (c :: (splitAtFirstEq cs).1, (splitAtFirstEq cs).2)

/-- Go `strings.Split(s, "\n")`. -/
def splitLines : Str → List Str
  | [] => [[]]
  | c :: cs =>
    if c = '\n' then [] :: splitLines cs
    else
      match splitLines cs with
      | [] => [[c]]
      | l :: ls => (c :: l) :: ls

/-- Worker of `replaceAll`: the first argument counts the characters of a match that are
still to be skipped. -/
def replaceAllAux (old new : Str) : Nat → Str → Str
  | _, [] => []
  | k + 1, _ :: cs => replaceAllAux old new k cs
  | 0, c :: cs =>
    if old.isPrefixOf (c :: cs) then new ++ replaceAllAux old new (old.length - 1) cs
    else c :: replaceAllAux old new 0 cs

/-- Go `strings.ReplaceAll(s, old, new)` for a non-empty `old`: the non-overlapping
occurrences of `old`, found from the left, are replaced by `new`. -/
def replaceAll (s old new : Str) : Str := replaceAllAux old new 0 s

/-- Go `%d` / `%v` of an integer. -/
def fmtInt (i : Int) : Str := (Int.repr i).toList

/-- The placeholder of the workspace directory in import paths. -/
def workspacePlaceholder : Str := ['%', 'w', 'o', 'r', 'k', 's', 'p', 'a', 'c', 'e', '%']

/-- The continuation marker, a single backslash. -/
def continuationMarker : Str := ['\\']

/-- The token `import`. -/
def importToken : Str := ['i', 'm', 'p', 'o', 'r', 't']

/-- The token `try-import`. -/
def tryImportToken : Str := ['t', 'r', 'y', '-', 'i', 'm', 'p', 'o', 'r', 't']

/-- The literal `true`. -/
def trueStr : Str := ['t', 'r', 'u', 'e']

/-- The literal `false`. -/
def falseStr : Str := ['f', 'a', 'l', 's', 'e']

/-- The text by which `parseFileInternal` recognises an import-cycle error. -/
def importCycleErrorMessage : Str := "bazelrc file contains import cycle".toList

/-! ## Data model -/

/-- How a call can fail: with a Go `error` value (of which only the message is kept), or
with a run-time panic such as an index out of range. -/
inductive Failure where
  | error (msg : Str)
  | panic
  deriving DecidableEq, Repr

/-- The type `FlagData` of `datatables.go`: `BooleanFlags` is a `map[string]bool`,
`FlagAbbreviations` a `map[string]string`. -/
structure FlagData where
  BooleanFlags : Str → Option Bool
  FlagAbbreviations : Str → Option Str

/-- The Go expression `m[k]` on a `map[string]bool`: the zero value `false` for a missing
key. -/
def lookupBool (m : Str → Option Bool) (k : Str) : Bool := (m k).getD false

/-- The type `BazelFlagValues` of `contents.go`, a `map[string][]string`. -/
abbrev BazelFlagValues := Str → Option (List Str)

/-- The empty map, `make(map[string][]string)`. -/
def emptyFlagValues : BazelFlagValues := fun _ => none

/-- The Go statement `m[k] = append(m[k], v)`. -/
def appendValue (m : BazelFlagValues) (k v : Str) : BazelFlagValues :=
  fun k' => if k' = k then some ((m k).getD [] ++ [v]) else m k'

/-- The type `BazelrcContents` of `contents.go`. -/
structure BazelrcContents where
  entries : Str → Option BazelFlagValues

/-- The function `newBazelrcContents` of `contents.go`. -/
def newBazelrcContents : BazelrcContents := ⟨fun _ => none⟩

/-- The Go statement `c.entries[command] = m`. -/
def BazelrcContents.set (c : BazelrcContents) (command : Str) (m : BazelFlagValues) :
    BazelrcContents :=
  ⟨fun k => if k = command then some m else c.entries k⟩

/-- The value list `c.entries[command][flagname]`, `none` when either key is missing. -/
def BazelrcContents.values (c : BazelrcContents) (command flagname : Str) :
    Option (List Str) :=
  (c.entries command).bind (fun m => m flagname)

/-- `BazelFlagValues.FlagValue` of `contents.go`: the last value stored under the flag,
`nil` for a missing key; indexing the last element of an empty list panics. -/
def BazelFlagValues.FlagValue (c : BazelFlagValues) (flagname : Str) :
    Except Failure (Option Str) :=
  match c flagname with
  | none => .ok none
  | some values =>
    match values.getLast? with
    | none => .error .panic
    | some lastValue => .ok (some lastValue)

/-- `BazelrcContents.FlagValue` of `contents.go`. -/
def BazelrcContents.FlagValue (c : BazelrcContents) (command flagname : Str) :
    Except Failure (Option Str) :=
  match c.entries command with
  | none => .ok none
  | some commandSpecificFlags => commandSpecificFlags.FlagValue flagname

/-- The external collaborators of the parser. `shlexSplit` is `shlex.Split` (a token list
or the message of its error); `osOpen` is `os.Open` followed by `io.ReadAll` (the message
of the open error, or else what reading the opened file gives: the message of a read error
or the file's text); `quote` is the `%q` verb of `fmt`. -/
structure Env where
  shlexSplit : Str → Except Str (List Str)
  osOpen : Str → Except Str (Except Str Str)
  quote : Str → Str

/-- The type `BazelRcParser` of `parser.go`. -/
structure BazelRcParser where
  workspaceDirectory : Str
  knownFlagData : FlagData

/-- The function `NewBazelRcParser` of `parser.go`. -/
def NewBazelRcParser (workspaceDirectory : Str) (knownFlagData : FlagData) : BazelRcParser :=
  ⟨workspaceDirectory, knownFlagData⟩

/-- What `parseToken` reads and writes through its pointer arguments: `entries` is
`entriesForCommand`, `targets` is `*targetAccumulator`, `pending` is
`*flagNameExpectingValueWithLeadingDashes` (`none` for `nil`). -/
structure TokenState where
  entries : BazelFlagValues
  targets : List Str
  pending : Option Str

/-- The variables of `parseLineWithoutCommandPrefix`: the token state, the line index
`*zeroBaseLineNumber`, and `rest`, the lines of the file after that index
(`lines[*zeroBaseLineNumber+1:]`). -/
structure LineVars where
  tok : TokenState
  zeroBaseLineNumber : Nat
  rest : List Str

/-- The variables of the loop of `parseFileInternal`. -/
structure FileVars where
  out : BazelrcContents
  pending : Option Str

/-- The type `CommandLineArgsAfterCommand` of `command_line.go`. -/
structure CommandLineArgsAfterCommand where
  Targets : List Str
  BazelFlags : BazelFlagValues
  ExecutableArgs : List Str

/-! ## `parser.go` -/

/-- The function `makeError` of `parser.go`. Indexing the last element of an empty call
stack panics. -/
def makeError (importCallStack : List Str) (zeroBasedLineNumber : Int) (errorMessage : Str)
    (handlingImport : Bool) : Failure :=
  let importReason : Str :=
    if (importCallStack.length : Int) - 1 > 1 then
      " - File ".toList ++ importCallStack.headD [] ++ " imports file ".toList ++
        (" which imports file ".toList).intercalate importCallStack.tail
    else []
  if handlingImport then .error (errorMessage ++ importReason)
  else
    let lineDescription : Str :=
      if zeroBasedLineNumber ≥ 0 then " on line ".toList ++ fmtInt (zeroBasedLineNumber + 1)
      else []
    match importCallStack.getLast? with
    | none => .panic
    | some last =>
      .error ("failed to process ".toList ++ last ++ lineDescription ++ ", ".toList ++
        errorMessage ++ importReason)

/-- The function `tokenizeLine` of `parser.go`. -/
def tokenizeLine (env : Env) (line : Str) (importCallStack : List Str)
    (zeroBaseLineNumber : Int) : Except Failure (List Str) :=
  match env.shlexSplit line with
  | .error err =>
    .error (makeError importCallStack zeroBaseLineNumber
      ("unable to split line: ".toList ++ err) false)
  | .ok tokens => .ok tokens

/-- The function `stripLeadingDashes` of `parser.go`. -/
def stripLeadingDashes (flag : Str) : Str :=
  if hasPrefix flag ['-', '-'] then flag.drop 2
  else if hasPrefix flag ['-'] then flag.drop 1
  else flag

/-- The method `isKnownBooleanFlag` of `parser.go`. -/
def isKnownBooleanFlag (p : BazelRcParser) (flagName : Str) : Bool :=
  match p.knownFlagData.BooleanFlags flagName with
  | some knownBoolean => knownBoolean
  | none =>
    if !hasPrefix flagName ['n', 'o'] then false
    else lookupBool p.knownFlagData.BooleanFlags (flagName.drop 2)

/-- The method `parseAsAbbreviatedFlag` of `parser.go`: its three string results, or the
message of its error. -/
def parseAsAbbreviatedFlag (env : Env) (p : BazelRcParser) (token : Str) :
    Except Str (Str × Str × Str) :=
  if token.length < 2 then .error (env.quote token ++ " isn't a valid flag".toList)
  else
    let possibleAbbreviation := (token.drop 1).take 1
    match p.knownFlagData.FlagAbbreviations possibleAbbreviation with
    | none =>
      .error ("flag ".toList ++ possibleAbbreviation ++ " wasn't a known abbreviation".toList)
    | some fullFlagName =>
      let fullFlagNameWithLeadingDashes : Str := '-' :: '-' :: fullFlagName
      if lookupBool p.knownFlagData.BooleanFlags fullFlagName then
        if token.length = 2 then .ok (fullFlagName, trueStr, [])
        else if token.length = 3 && (token.drop 2).take 1 == ['-'] then
          .ok (fullFlagName, falseStr, [])
        else
          .error ("token ".toList ++ env.quote token ++
            " wasn't a valid abbreviated flag".toList)
      else if token.length = 2 then .ok ([], [], fullFlagNameWithLeadingDashes)
      else
        .error ("flag ".toList ++ env.quote token ++
          " wasn't a valid abbreviated flag".toList)

/-- The method `handleBooleanFlag` of `parser.go`: the map after the call, and the error
of the call. -/
def handleBooleanFlag (p : BazelRcParser) (flag : Str) (flagNamesToValues : BazelFlagValues)
    (importCallStack : List Str) (oneBaseLineNumber : Int) :
    BazelFlagValues × Option Failure :=
  let assumedValue : Str := if hasPrefix flag ['-', '-', 'n', 'o'] then falseStr else trueStr
  let flagName : Str :=
    if hasPrefix flag ['-', '-', 'n', 'o'] then flag.drop 4 else stripLeadingDashes flag
  if !lookupBool p.knownFlagData.BooleanFlags flagName then
    (flagNamesToValues,
      some (makeError importCallStack oneBaseLineNumber
        ("value-requiring flag ".toList ++ flagName ++ " didn't have value".toList) false))
  else (appendValue flagNamesToValues flagName assumedValue, none)

/-- Lines 204 to 253 of `parseToken`: what it does with a token once no flag is pending. -/
def parseTokenNoPending (env : Env) (p : BazelRcParser) (token : Str)
    (isLastTokenInLine : Bool) (st : TokenState) (importCallStack : List Str)
    (zeroBaseLineNumber : Int) : TokenState × Except Failure (Bool × Bool) :=
  if !hasPrefix token ['-'] then
    ({ st with targets := st.targets ++ [token] }, .ok (false, false))
  else if token == ['-', '-'] then
    ({ st with targets := st.targets ++ [token] }, .ok (false, true))
  else if !hasPrefix token ['-', '-'] then
    match parseAsAbbreviatedFlag env p token with
    | .error err => (st, .error (.error err))
    | .ok (fullFlagName, value, fullFlagNameWithLeadingDashes) =>
      if fullFlagNameWithLeadingDashes != [] then
        ({ st with pending := some fullFlagNameWithLeadingDashes }, .ok (false, false))
      else
        ({ st with entries := appendValue st.entries fullFlagName value }, .ok (false, false))
  else if strContains token ['='] then
    let parts := splitAtFirstEq token
    let flagName := stripLeadingDashes parts.1
    ({ st with entries := appendValue st.entries flagName parts.2 }, .ok (false, false))
  else if isLastTokenInLine then
    match handleBooleanFlag p token st.entries importCallStack zeroBaseLineNumber with
    | (entries, some err) => ({ st with entries := entries }, .error err)
    | (entries, none) => ({ st with entries := entries }, .ok (false, false))
  else ({ st with pending := some token }, .ok (false, false))

/-- The method `parseToken` of `parser.go`. The result is the state after the call and
either the error or the two booleans (continue on the next line, rest of the line is
targets). -/
def parseToken (env : Env) (p : BazelRcParser) (token : Str) (isLastTokenInLine : Bool)
    (st : TokenState) (importCallStack : List Str) (zeroBaseLineNumber : Int) :
    TokenState × Except Failure (Bool × Bool) :=
  if isLastTokenInLine && token == continuationMarker then (st, .ok (true, false))
  else
    match st.pending with
    | some flagWithLeadingDashes =>
      let flagNameExpectingValueWithoutLeadingDashes := stripLeadingDashes flagWithLeadingDashes
      if isKnownBooleanFlag p flagNameExpectingValueWithoutLeadingDashes
          && token != trueStr && token != falseStr then
        match handleBooleanFlag p flagWithLeadingDashes st.entries importCallStack
            zeroBaseLineNumber with
        | (entries, some err) => ({ st with entries := entries }, .error err)
        | (entries, none) =>
          parseTokenNoPending env p token isLastTokenInLine
            { st with entries := entries, pending := none } importCallStack zeroBaseLineNumber
      else
        ({ st with
            entries := appendValue st.entries flagNameExpectingValueWithoutLeadingDashes token,
            pending := none },
          .ok (false, false))
    | none =>
      parseTokenNoPending env p token isLastTokenInLine st importCallStack zeroBaseLineNumber

/-- The method `parseTokenizedArgsOnSingleLineAfterCommand` of `parser.go`: the state after
the call, and the error or the continuation flag. -/
def parseTokenizedArgsOnSingleLineAfterCommand (env : Env) (p : BazelRcParser)
    (importCallStack : List Str) (zeroBaseLineNumber : Int) :
    List Str → TokenState → TokenState × Except Failure Bool
  | [], st => (st, .ok false)
  | token :: tokens, st =>
    match parseToken env p token tokens.isEmpty st importCallStack zeroBaseLineNumber with
    | (st1, .error err) => (st1, .error err)
    | (st1, .ok (parseNextLineAsContinuation, parseRestOfLineAsTargets)) =>
      if parseNextLineAsContinuation then (st1, .ok true)
      else if parseRestOfLineAsTargets then
        ({ st1 with targets := st1.targets ++ tokens }, .ok false)
      else
        parseTokenizedArgsOnSingleLineAfterCommand env p importCallStack zeroBaseLineNumber
          tokens st1

/-- The loop of `parseLineWithoutCommandPrefix` over the tokens of one line; `recurse` is
the recursive call of the method on the next line. `rest` being the lines after the current
index, it is empty exactly when `*zeroBaseLineNumber + 1 == len(lines)`. -/
def lineLoop (env : Env) (p : BazelRcParser) (importCallStack : List Str)
    (recurse : List Str → LineVars → Option (LineVars × Option Failure)) :
    List Str → LineVars → Option (LineVars × Option Failure)
  | [], v => some (v, none)
  | token :: tokens, v =>
    match parseToken env p token tokens.isEmpty v.tok importCallStack
        v.zeroBaseLineNumber with
    | (tok1, .error err) => some ({ v with tok := tok1 }, some err)
    | (tok1, .ok (parseNextLineAsContinuation, parseRestOfLineAsTargets)) =>
      if parseNextLineAsContinuation then
        match v.rest with
        | [] =>
          some ({ v with tok := tok1, zeroBaseLineNumber := v.zeroBaseLineNumber + 1 }, none)
        | line :: rest =>
          match tokenizeLine env line importCallStack
              ((v.zeroBaseLineNumber + 1 : Nat) : Int) with
          | .error err =>
            some ({ tok := tok1, zeroBaseLineNumber := v.zeroBaseLineNumber + 1,
                    rest := rest }, some err)
          | .ok nextTokens =>
            match recurse nextTokens
                { tok := tok1, zeroBaseLineNumber := v.zeroBaseLineNumber + 1,
                  rest := rest } with
            | none => none
            | some (v2, some err) => some (v2, some err)
            | some (v2, none) =>
              if parseRestOfLineAsTargets then
                some ({ v2 with tok := { v2.tok with targets := v2.tok.targets ++ tokens } },
                  none)
              else lineLoop env p importCallStack recurse tokens v2
      else if parseRestOfLineAsTargets then
        some ({ v with tok := { tok1 with targets := tok1.targets ++ tokens } }, none)
      else lineLoop env p importCallStack recurse tokens { v with tok := tok1 }

/-- The method `parseLineWithoutCommandPrefix` of `parser.go`; the fuel bounds the depth of
its recursion over continuation lines. -/
def parseLineWithoutCommandPrefix (env : Env) (p : BazelRcParser) (importCallStack : List Str) :
    Nat → List Str → LineVars → Option (LineVars × Option Failure)
  | 0, _, _ => none
  | fuel + 1, tokens, v =>
    lineLoop env p importCallStack
      (parseLineWithoutCommandPrefix env p importCallStack fuel) tokens v

mutual

/-- The method `parseFileInternal` of `parser.go`. `file` is what `io.ReadAll` gives on the
reader. The result is the contents `out` after the call and the error of the call. -/
def parseFileInternal (env : Env) (p : BazelRcParser) :
    Nat → BazelrcContents → Except Str Str → List Str → Option (BazelrcContents × Option Failure)
  | 0, _, _, _ => none
  | fuel + 1, out, file, importCallStack =>
    match file with
    | .error err =>
      some (out, some (makeError importCallStack (-1) ("failed to read file: ".toList ++ err)
        false))
    | .ok byteValue =>
      match fileLoop env p fuel importCallStack (splitLines byteValue) 0 ⟨out, none⟩ with
      | none => none
      | some (vars, err) => some (vars.out, err)

/-- The `for` loop of `parseFileInternal`: `lines` are the lines from index
`zeroBaseLineNumber` on. The result is the loop's variables at its exit and the error. -/
def fileLoop (env : Env) (p : BazelRcParser) :
    Nat → List Str → List Str → Nat → FileVars → Option (FileVars × Option Failure)
  | 0, _, _, _, _ => none
  | _ + 1, _, [], _, vars => some (vars, none)
  | fuel + 1, importCallStack, line :: rest, zeroBaseLineNumber, vars =>
    if hasPrefix line ['#'] || line == [] then
      fileLoop env p fuel importCallStack rest (zeroBaseLineNumber + 1) vars
    else
      match tokenizeLine env line importCallStack (zeroBaseLineNumber : Int) with
      | .error err => some (vars, some err)
      | .ok [] => fileLoop env p fuel importCallStack rest (zeroBaseLineNumber + 1) vars
      | .ok (commandName :: arguments) =>
        if commandName == importToken || commandName == tryImportToken then
          match arguments with
          | [pathToken] =>
            let pathFinal := replaceAll pathToken workspacePlaceholder p.workspaceDirectory
            let importCallStackCopy := importCallStack ++ [pathFinal]
            if importCallStack.contains pathFinal then
              some (vars, some (makeError importCallStackCopy zeroBaseLineNumber
                importCycleErrorMessage false))
            else
              match env.osOpen pathFinal with
              | .error err =>
                if commandName == importToken then
                  some (vars, some (makeError importCallStackCopy zeroBaseLineNumber
                    ("unable to open file: ".toList ++ err) false))
                else fileLoop env p fuel importCallStack rest (zeroBaseLineNumber + 1) vars
              | .ok file =>
                match parseFileInternal env p fuel vars.out file importCallStackCopy with
                | none => none
                | some (out, some (.error msg)) =>
                  if strContains msg importCycleErrorMessage then
                    some ({ vars with out := out }, some (.error msg))
                  else
                    some ({ vars with out := out },
                      some (makeError importCallStackCopy zeroBaseLineNumber
                        ("unable to parse import file due to error: ".toList ++ msg) true))
                | some (out, some .panic) => some ({ vars with out := out }, some .panic)
                | some (out, none) =>
                  fileLoop env p fuel importCallStack rest (zeroBaseLineNumber + 1)
                    { vars with out := out }
          | _ =>
            some (vars, some (makeError importCallStack zeroBaseLineNumber
              ("expected exactly 1 argument after ".toList ++ commandName ++
                ", but got ".toList ++ fmtInt arguments.length) false))
        else
          match arguments with
          | [] => fileLoop env p fuel importCallStack rest (zeroBaseLineNumber + 1) vars
          | _ :: _ =>
            let entriesForCommand := (vars.out.entries commandName).getD emptyFlagValues
            match parseLineWithoutCommandPrefix env p importCallStack fuel arguments
                { tok := ⟨entriesForCommand, [], vars.pending⟩,
                  zeroBaseLineNumber := zeroBaseLineNumber, rest := rest } with
            | none => none
            | some (v, some err) =>
              some (⟨vars.out.set commandName v.tok.entries, v.tok.pending⟩, some err)
            | some (v, none) =>
              fileLoop env p fuel importCallStack v.rest (v.zeroBaseLineNumber + 1)
                ⟨vars.out.set commandName v.tok.entries, v.tok.pending⟩

end

/-- The method `Parsefile` of `parser.go`: the contents and the error it returns. -/
def Parsefile (env : Env) (p : BazelRcParser) (fuel : Nat) (file : Except Str Str)
    (filePath : Str) : Option (BazelrcContents × Option Failure) :=
  parseFileInternal env p fuel newBazelrcContents file [filePath]

/-! ## `command_line.go` -/

/-- The loop at the end of `ParseCommandLineArgsAfterCommand`: the accumulator is cut at
its first `--` entry into the targets before it and the arguments after it. -/
def splitAtSeparator : List Str → List Str × List Str
  | [] => ([], [])
  | v :: rest =>
    if v == ['-', '-'] then ([], rest)
    else (v :: (splitAtSeparator rest).1, (splitAtSeparator rest).2)

/-- The function `ParseCommandLineArgsAfterCommand` of `command_line.go`. -/
def ParseCommandLineArgsAfterCommand (env : Env) (knownFlagData : FlagData)
    (tokens : List Str) : Except Failure CommandLineArgsAfterCommand :=
  let parser := NewBazelRcParser [] knownFlagData
  match parseTokenizedArgsOnSingleLineAfterCommand env parser [] (-1) tokens
      ⟨emptyFlagValues, [], none⟩ with
  | (_, .error .panic) => .error .panic
  | (_, .error (.error msg)) =>
    .error (.error ("failed to parse bazel command line: ".toList ++ msg))
  | (st, .ok continuation) =>
    if continuation then
      .error (.error "didn't understand continuation \\ at end of command".toList)
    else
      match st.pending with
      | some flag =>
        .error (.error
          ("internal error: ended parsing Bazel command line while expecting value for flag ".toList
            ++ env.quote flag))
      | none =>
        let split := splitAtSeparator st.targets
        .ok { Targets := split.1, BazelFlags := st.entries, ExecutableArgs := split.2 }

/-! ## Sample inputs -/

/-- The flag token `--name=value`. -/
def flagEq (name value : Str) : Str := '-' :: '-' :: (name ++ '=' :: value)

/-- A tokenizer for lines of plain words: words are separated by spaces and a backslash
takes the next character literally, as `shlex.Split` does outside quotes. The second
argument is the word being read, reversed; the third tells that the previous character was
an unconsumed backslash. -/
def plainWords : Str → Option Str → Bool → Except Str (List Str)
  | [], none, false => .ok []
  | [], some w, false => .ok [w.reverse]
  | [], _, true => .error "EOF found after escape character".toList
  | c :: cs, cur, true => plainWords cs (some (c :: cur.getD [])) false
  | c :: cs, cur, false =>
    if c = '\\' then plainWords cs cur true
    else if c = ' ' then
      match cur with
      | none => plainWords cs none false
      | some w =>
        match plainWords cs none false with
        | .ok ws => .ok (w.reverse :: ws)
        | .error e => .error e
    else plainWords cs (some (c :: cur.getD [])) false

/-- The flag schema of the parser's unit tests. -/
def sampleFlags : FlagData where
  BooleanFlags := fun k =>
    if k = "bool_flag".toList then some true
    else if k = "other_bool_flag".toList then some true
    else none
  FlagAbbreviations := fun k =>
    if k = ['b'] then some "bool_flag".toList
    else if k = ['j'] then some "jobs".toList
    else if k = ['o'] then some "other_bool_flag".toList
    else none

/-- An environment over a finite table of readable files. -/
def sampleEnv (files : List (Str × Str)) : Env where
  shlexSplit := fun line => plainWords line none false
  osOpen := fun path =>
    match files.lookup path with
    | some text => .ok (.ok text)
    | none => .error ("open ".toList ++ path ++ ": no such file or directory".toList)
  quote := fun s => '"' :: (s ++ ['"'])

/-- The parser of the unit tests, with workspace directory `/ws`. -/
def sampleParser : BazelRcParser := NewBazelRcParser "/ws".toList sampleFlags

/-- What a run shows at one sub-command and flag: the stored values and the error. -/
def observe (r : Option (BazelrcContents × Option Failure)) (command flagname : Str) :
    Option (Option (List Str) × Option Failure) :=
  r.map (fun x => (x.1.values command flagname, x.2))

/-- A schema with a boolean flag whose own name begins with `no`. -/
def nodepFlags : FlagData where
  BooleanFlags := fun k =>
    if k = "nodep_deps".toList then some true
    else if k = "keep_going".toList then some true
    else none
  FlagAbbreviations := fun k =>
    if k = ['n'] then some "nodep_deps".toList
    else if k = ['k'] then some "keep_going".toList
    else none

/-- A schema whose abbreviation `x` stands for the name `nofoo`, which is not marked boolean,
while `foo` is. -/
def negatedNameFlags : FlagData where
  BooleanFlags := fun k => if k = "foo".toList then some true else none
  FlagAbbreviations := fun k => if k = ['x'] then some "nofoo".toList else none

/-! ## Notions used in the statements and their proofs -/

/-- The flag name that `handleBooleanFlag` looks up for a flag token. -/
def booleanFlagName (flag : Str) : Str :=
  if hasPrefix flag ['-', '-', 'n', 'o'] then flag.drop 4 else stripLeadingDashes flag

/-- The value that `handleBooleanFlag` assumes for a flag token. -/
def booleanAssumedValue (flag : Str) : Str :=
  if hasPrefix flag ['-', '-', 'n', 'o'] then falseStr else trueStr

/-- The run of `parseToken` over tokens none of which is last on its line: the state after
them, and the error that stopped the run if any. -/
def prefixRun (env : Env) (p : BazelRcParser) (stack : List Str) (n : Int) :
    List Str → TokenState → TokenState × Option Failure
  | [], st => (st, none)
  | t :: ts, st =>
    match parseToken env p t false st stack n with
    | (st1, .error err) => (st1, some err)
    | (st1, .ok _) => prefixRun env p stack n ts st1

/-- Whether the last of the given lines tokenizes to a list that ends with the continuation
marker. -/
def endsOpen (env : Env) (lines : List Str) : Bool :=
  match lines.getLast? with
  | none => false
  | some line =>
    match env.shlexSplit line with
    | .ok tokens => tokens.getLast? == some continuationMarker
    | .error _ => false

/-- Whether a line with the given tokens, followed by the given lines, ends with the
continuation marker on its last line. -/
def lineEndsOpen (env : Env) (tokens : List Str) (rest : List Str) : Bool :=
  match rest with
  | [] => tokens.getLast? == some continuationMarker
  | _ :: _ => endsOpen env rest

/-- What it means for a function `recurse'` to reproduce the successful runs of `recurse`
when the lines `tail` are appended to the file and errors are attributed elsewhere; a run
that is not left open by a continuation marker advances the line number by the number of
lines it reads. -/
def Transports (env : Env) (tail : List Str)
    (recurse recurse' : List Str → LineVars → Option (LineVars × Option Failure)) : Prop :=
  ∀ (toks : List Str) (v w : LineVars) (n' : Nat),
    (tail = [] ∨ lineEndsOpen env toks v.rest = false) →
    recurse toks v = some (w, none) →
    (∃ pre, v.rest = pre ++ w.rest) ∧
    ∃ m, recurse' toks ⟨v.tok, n', v.rest ++ tail⟩ = some (⟨w.tok, m, w.rest ++ tail⟩, none) ∧
      (lineEndsOpen env toks v.rest = false → m + w.rest.length = n' + v.rest.length)

/-- A successful run of the file loop over `lines` is reproduced, on a smaller call stack,
at another line number, with more fuel and with the lines `tail` appended, up to the point
where `tail` begins; `j` is the fuel spent until then, and `m` the line number reached, which
is the number of lines read when the run is not left open by a continuation marker. -/
def FileTransports (env : Env) (p : BazelRcParser) (tail : List Str) (f : Nat) : Prop :=
  ∀ (S S' : List Str) (lines : List Str) (n n' : Nat) (v v1 : FileVars),
    (∀ x ∈ S', x ∈ S) → (tail = [] ∨ endsOpen env lines = false) →
    fileLoop env p f S lines n v = some (v1, none) →
    ∀ f', f ≤ f' → ∃ j m, j < f ∧
      fileLoop env p f' S' (lines ++ tail) n' v = fileLoop env p (f' - j) S' tail m v1 ∧
      (endsOpen env lines = false → m = n' + lines.length)

/-- A successful run of `parseFileInternal` is reproduced on a smaller call stack and with
more fuel. -/
def ImportTransports (env : Env) (p : BazelRcParser) (f : Nat) : Prop :=
  ∀ (S S' : List Str) (out : BazelrcContents) (file : Except Str Str) (out1 : BazelrcContents),
    (∀ x ∈ S', x ∈ S) → parseFileInternal env p f out file S = some (out1, none) →
    ∀ f', f ≤ f' → parseFileInternal env p f' out file S' = some (out1, none)

/-- The run of `parseFileInternal` on the text `content`, with call stack `S` and from the
contents `out`, reaches an `import` or `try-import` line that resolves to `target`: the
line stands at index `k` of the text (its 1-based number is `k + 1`), the lines before it
parse successfully, to the contents `out'`, and their last line does not end in a
continuation marker. -/
def ReachesImport (env : Env) (p : BazelRcParser) (S : List Str) (out : BazelrcContents)
    (content target : Str) (out' : BazelrcContents) (k : Nat) : Prop :=
  ∃ (pre : List Str) (line : Str) (rest : List Str) (d pathToken : Str) (f : Nat)
    (pend : Option Str),
    splitLines content = pre ++ line :: rest ∧ endsOpen env pre = false ∧
    fileLoop env p f S pre 0 ⟨out, none⟩ = some (⟨out', pend⟩, none) ∧
    hasPrefix line ['#'] = false ∧ line ≠ [] ∧
    env.shlexSplit line = .ok [d, pathToken] ∧ (d = importToken ∨ d = tryImportToken) ∧
    replaceAll pathToken workspacePlaceholder p.workspaceDirectory = target ∧
    pre.length = k

/-- A chain of imports: the text `content`, parsed with call stack `S`, reaches an import of
the first path of `chain`, whose file reaches an import of the next path, and so on; the
file of the last path (the text itself when `chain` is empty) reaches an import of `target`.
`out'` is the contents when that last import line is reached, and `k` the index of that
line in its file. -/
def ImportChain (env : Env) (p : BazelRcParser) :
    List Str → BazelrcContents → Str → List Str → Str → BazelrcContents → Nat → Prop
  | S, out, content, [], target, out', k => ReachesImport env p S out content target out' k
  | S, out, content, a :: chain, target, out', k =>
    ∃ (out1 : BazelrcContents) (contentA : Str) (k1 : Nat),
      ReachesImport env p S out content a out1 k1 ∧ env.osOpen a = .ok (.ok contentA) ∧
      ImportChain env p (S ++ [a]) out1 contentA chain target out' k

/-- What a call of `ParseCommandLineArgsAfterCommand` shows: the failure, or the targets, the
values of one flag and the executable arguments. -/
def observeArgs (r : Except Failure CommandLineArgsAfterCommand) (flagname : Str) :
    Except Failure (List Str × Option (List Str) × List Str) :=
  match r with
  | .error f => .error f
  | .ok x => .ok (x.Targets, x.BazelFlags flagname, x.ExecutableArgs)

/-- Whether the single-line driver, run over tokens none of which is last, classifies none of
them as the separator `--` (a `--` that a pending flag takes as its value is not classified
so); the run ends at the first token that fails. -/
def meetsNoSeparator (env : Env) (p : BazelRcParser) (S : List Str) (n : Int) :
    List Str → TokenState → Bool
  | [], _ => true
  | t :: ts, st =>
    match parseToken env p t false st S n with
    | (_, .error _) => true
    | (st1, .ok (_, restAsTargets)) => !restAsTargets && meetsNoSeparator env p S n ts st1

/-- Whether a token is one of the single-dash tokens that the schema lets through: `-c` for
a key `c` of the abbreviation table, or `-c-` for a key `c` whose flag is registered as
boolean. -/
def acceptedAbbreviation (p : BazelRcParser) (t : Str) : Bool :=
  match t with
  | ['-', c] => (p.knownFlagData.FlagAbbreviations [c]).isSome
  | ['-', c, '-'] =>
    match p.knownFlagData.FlagAbbreviations [c] with
    | some full => lookupBool p.knownFlagData.BooleanFlags full
    | none => false
  | _ => false

/-- The map `m1` is the map `m` after some statements `m[k] = append(m[k], v)`, for the keys
and values of `steps` in turn. -/
def appendAll (m : BazelFlagValues) (steps : List (Str × Str)) : BazelFlagValues :=
  steps.foldl (fun acc kv => appendValue acc kv.1 kv.2) m

/-- The map `m1` comes from the map `m` by appending values and in no other way. -/
def Appended (m m1 : BazelFlagValues) : Prop := ∃ steps, m1 = appendAll m steps

/-- The contents `c1` come from the contents `c` by appending values: every sub-command of
`c` is a sub-command of `c1`, and the map of each sub-command (the empty map when it has
none) comes from what it was by appending values. -/
def ContentsAppended (c c1 : BazelrcContents) : Prop :=
  ∀ cmd, (c.entries cmd ≠ none → c1.entries cmd ≠ none) ∧
    Appended ((c.entries cmd).getD emptyFlagValues) ((c1.entries cmd).getD emptyFlagValues)

/-- What it means for the recursive call of the line driver to append values only. -/
def AppendingRuns (recurse : List Str → LineVars → Option (LineVars × Option Failure)) :
    Prop :=
  ∀ (toks : List Str) (v w : LineVars) (e : Option Failure),
    recurse toks v = some (w, e) → Appended v.tok.entries w.tok.entries

/-- The number of lines of what a reader gives, none for a reader that fails. -/
def lineCount (file : Except Str Str) : Nat :=
  match file with
  | .ok content => (splitLines content).length
  | .error _ => 0

/-- The greatest number of lines among a root file and the files at the listed paths. -/
def maxLines (env : Env) (paths : List Str) (file : Except Str Str) : Nat :=
  paths.foldr
    (fun P acc =>
      max (match env.osOpen P with
        | .ok f => lineCount f
        | .error _ => 0) acc)
    (lineCount file)

/-- The number of listed paths that are not on the import call stack. -/
def unvisited (paths stack : List Str) : Nat :=
  (paths.filter (fun P => !stack.contains P)).length

/-- An amount of fuel that is enough for `Parsefile` on the root file `file` with label `R`
when every file that opens is at one of the listed paths: one share of fuel, the greatest
number of lines of a file and two, for the root file and for each path that is not the root
label. -/
def fuelBound (env : Env) (paths : List Str) (file : Except Str Str) (R : Str) : Nat :=
  (unvisited paths [R] + 1) * (maxLines env paths file + 2)

/-! ## The import call stacks of the calls of `parseFileInternal` -/

mutual

/-- The method `parseFileInternal` of `parser.go`, instrumented: besides the contents and the
error, the call returns the import call stacks that the calls of `parseFileInternal` made
during it received, its own first, in the order in which the calls are entered. -/
def parseFileInternalTraced (env : Env) (p : BazelRcParser) :
    Nat → BazelrcContents → Except Str Str → List Str →
      Option ((BazelrcContents × Option Failure) × List (List Str))
  | 0, _, _, _ => none
  | fuel + 1, out, file, importCallStack =>
    match file with
    | .error err =>
      some ((out, some (makeError importCallStack (-1)
        ("failed to read file: ".toList ++ err) false)), [importCallStack])
    | .ok byteValue =>
      match fileLoopTraced env p fuel importCallStack (splitLines byteValue) 0 ⟨out, none⟩ with
      | none => none
      | some ((vars, err), calls) => some ((vars.out, err), importCallStack :: calls)

/-- The `for` loop of `parseFileInternal`, instrumented: besides the loop's variables at its
exit and the error, it returns the import call stacks that the calls of `parseFileInternal`
made during the loop received. -/
def fileLoopTraced (env : Env) (p : BazelRcParser) :
    Nat → List Str → List Str → Nat → FileVars →
      Option ((FileVars × Option Failure) × List (List Str))
  | 0, _, _, _, _ => none
  | _ + 1, _, [], _, vars => some ((vars, none), [])
  | fuel + 1, importCallStack, line :: rest, zeroBaseLineNumber, vars =>
    if hasPrefix line ['#'] || line == [] then
      fileLoopTraced env p fuel importCallStack rest (zeroBaseLineNumber + 1) vars
    else
      match tokenizeLine env line importCallStack (zeroBaseLineNumber : Int) with
      | .error err => some ((vars, some err), [])
      | .ok [] => fileLoopTraced env p fuel importCallStack rest (zeroBaseLineNumber + 1) vars
      | .ok (commandName :: arguments) =>
        if commandName == importToken || commandName == tryImportToken then
          match arguments with
          | [pathToken] =>
            let pathFinal := replaceAll pathToken workspacePlaceholder p.workspaceDirectory
            let importCallStackCopy := importCallStack ++ [pathFinal]
            if importCallStack.contains pathFinal then
              some ((vars, some (makeError importCallStackCopy zeroBaseLineNumber
                importCycleErrorMessage false)), [])
            else
              match env.osOpen pathFinal with
              | .error err =>
                if commandName == importToken then
                  some ((vars, some (makeError importCallStackCopy zeroBaseLineNumber
                    ("unable to open file: ".toList ++ err) false)), [])
                else
                  fileLoopTraced env p fuel importCallStack rest (zeroBaseLineNumber + 1) vars
              | .ok file =>
                match parseFileInternalTraced env p fuel vars.out file importCallStackCopy with
                | none => none
                | some ((out, some (.error msg)), calls) =>
                  if strContains msg importCycleErrorMessage then
                    some (({ vars with out := out }, some (.error msg)), calls)
                  else
                    some (({ vars with out := out },
                      some (makeError importCallStackCopy zeroBaseLineNumber
                        ("unable to parse import file due to error: ".toList ++ msg) true)),
                      calls)
                | some ((out, some .panic), calls) =>
                  some (({ vars with out := out }, some .panic), calls)
                | some ((out, none), calls) =>
                  match fileLoopTraced env p fuel importCallStack rest (zeroBaseLineNumber + 1)
                      { vars with out := out } with
                  | none => none
                  | some (x, later) => some (x, calls ++ later)
          | _ =>
            some ((vars, some (makeError importCallStack zeroBaseLineNumber
              ("expected exactly 1 argument after ".toList ++ commandName ++
                ", but got ".toList ++ fmtInt arguments.length) false)), [])
        else
          match arguments with
          | [] => fileLoopTraced env p fuel importCallStack rest (zeroBaseLineNumber + 1) vars
          | _ :: _ =>
            let entriesForCommand := (vars.out.entries commandName).getD emptyFlagValues
            match parseLineWithoutCommandPrefix env p importCallStack fuel arguments
                { tok := ⟨entriesForCommand, [], vars.pending⟩,
                  zeroBaseLineNumber := zeroBaseLineNumber, rest := rest } with
            | none => none
            | some (v, some err) =>
              some ((⟨vars.out.set commandName v.tok.entries, v.tok.pending⟩, some err), [])
            | some (v, none) =>
              fileLoopTraced env p fuel importCallStack v.rest (v.zeroBaseLineNumber + 1)
                ⟨vars.out.set commandName v.tok.entries, v.tok.pending⟩

end

/-- The method `Parsefile` of `parser.go`, instrumented as `parseFileInternalTraced` is. -/
def ParsefileTraced (env : Env) (p : BazelRcParser) (fuel : Nat) (file : Except Str Str)
    (filePath : Str) : Option ((BazelrcContents × Option Failure) × List (List Str)) :=
  parseFileInternalTraced env p fuel newBazelrcContents file [filePath]
/-! ## Strings: basic facts -/

theorem splitLines_of_not_mem (s : Str) (h : '\n' ∉ s) : splitLines s = [s] := by
  induction s with
  | nil => rfl
  | cons c cs ih =>
    have hc : c ≠ '\n' := fun e => h (by simp [e])
    have hcs : '\n' ∉ cs := fun e => h (by simp [e])
    simp [splitLines, hc, ih hcs]

theorem strContains_eq_true_of_mem (c : Char) (s : Str) (h : c ∈ s) :
    strContains s [c] = true := by
  induction s with
  | nil => simp at h
  | cons d ds ih =>
    rcases List.mem_cons.1 h with e | e
    · subst e; simp [strContains, List.isPrefixOf]
    · simp [strContains, ih e]

theorem splitAtFirstEq_append (a b : Str) (h : '=' ∉ a) :
    splitAtFirstEq (a ++ '=' :: b) = (a, b) := by
  induction a with
  | nil => simp [splitAtFirstEq]
  | cons c cs ih =>
    have hc : c ≠ '=' := fun e => h (by simp [e])
    have hcs : '=' ∉ cs := fun e => h (by simp [e])
    simp [splitAtFirstEq, hc, ih hcs]

theorem parseToken_flagEq (env : Env) (p : BazelRcParser) (name value : Str) (isLast : Bool)
    (st : TokenState) (stack : List Str) (n : Int) (hp : st.pending = none)
    (hname : '=' ∉ name) :
    parseToken env p (flagEq name value) isLast st stack n =
      ({ st with entries := appendValue st.entries name value }, .ok (false, false)) := by
  have hsplit : splitAtFirstEq ('-' :: '-' :: (name ++ '=' :: value)) = ('-' :: '-' :: name, value) := by
    have := splitAtFirstEq_append ('-' :: '-' :: name) value (by simp [hname])
    simpa using this
  have hc : strContains ('-' :: '-' :: (name ++ '=' :: value)) ['='] = true :=
    strContains_eq_true_of_mem _ _ (by simp)
  simp [parseToken, parseTokenNoPending, flagEq, hp, continuationMarker, hasPrefix, hsplit, hc,
    stripLeadingDashes]

/-! ## The drivers, step by step -/

theorem fileLoop_nil (env : Env) (p : BazelRcParser) (fuel : Nat) (stack : List Str) (n : Nat)
    (vars : FileVars) : fileLoop env p (fuel + 1) stack [] n vars = some (vars, none) := by
  simp [fileLoop]

theorem fileLoop_command (env : Env) (p : BazelRcParser) (fuel : Nat) (stack : List Str)
    (line : Str) (rest : List Str) (n : Nat) (vars : FileVars) (cmd arg : Str) (args : List Str)
    (hc : hasPrefix line ['#'] = false) (hne : line ≠ [])
    (htok : env.shlexSplit line = .ok (cmd :: arg :: args))
    (hi : cmd ≠ importToken) (ht : cmd ≠ tryImportToken) :
    fileLoop env p (fuel + 1) stack (line :: rest) n vars =
      match parseLineWithoutCommandPrefix env p stack fuel (arg :: args)
          ⟨⟨(vars.out.entries cmd).getD emptyFlagValues, [], vars.pending⟩, n, rest⟩ with
      | none => none
      | some (v, some err) =>
        some (⟨vars.out.set cmd v.tok.entries, v.tok.pending⟩, some err)
      | some (v, none) =>
        fileLoop env p fuel stack v.rest (v.zeroBaseLineNumber + 1)
          ⟨vars.out.set cmd v.tok.entries, v.tok.pending⟩ := by
  simp [fileLoop, hc, hne, tokenizeLine, htok, hi, ht]

theorem lineLoop_cons_plain (env : Env) (p : BazelRcParser) (stack : List Str)
    (recurse : List Str → LineVars → Option (LineVars × Option Failure))
    (t : Str) (ts : List Str) (v : LineVars) (st : TokenState)
    (h : parseToken env p t ts.isEmpty v.tok stack v.zeroBaseLineNumber =
      (st, .ok (false, false))) :
    lineLoop env p stack recurse (t :: ts) v = lineLoop env p stack recurse ts { v with tok := st } := by
  simp [lineLoop, h]

theorem parsefile_one_line (env : Env) (p : BazelRcParser) (k : Nat) (line path cmd arg : Str)
    (args : List Str) (v : LineVars) (err : Option Failure)
    (hnl : '\n' ∉ line) (hc : hasPrefix line ['#'] = false) (hne : line ≠ [])
    (htok : env.shlexSplit line = .ok (cmd :: arg :: args))
    (hi : cmd ≠ importToken) (ht : cmd ≠ tryImportToken)
    (hrun : parseLineWithoutCommandPrefix env p [path] (k + 1) (arg :: args)
      ⟨⟨emptyFlagValues, [], none⟩, 0, []⟩ = some (v, err))
    (hrest : v.rest = []) :
    Parsefile env p (k + 3) (.ok line) path =
      some (newBazelrcContents.set cmd v.tok.entries, err) := by
  have h0 : (newBazelrcContents.entries cmd).getD emptyFlagValues = emptyFlagValues := rfl
  simp only [Parsefile, parseFileInternal, splitLines_of_not_mem _ hnl]
  rw [fileLoop_command env p (k + 1) [path] line [] 0 _ cmd arg args hc hne htok hi ht]
  simp only [h0, hrun]
  cases err with
  | some e => rfl
  | none => simp [hrest, fileLoop_nil]

theorem lineLoop_flagEq_list (env : Env) (p : BazelRcParser) (stack : List Str)
    (recurse : List Str → LineVars → Option (LineVars × Option Failure)) (a : Str)
    (ha : '=' ∉ a) (vs : List Str) (v : LineVars) (hp : v.tok.pending = none) :
    lineLoop env p stack recurse (vs.map (flagEq a)) v =
      some ({ v with tok := { v.tok with
        entries := vs.foldl (fun m x => appendValue m a x) v.tok.entries } }, none) := by
  induction vs generalizing v with
  | nil => simp [lineLoop]
  | cons x xs ih =>
    simp only [List.map_cons]
    rw [lineLoop_cons_plain _ _ _ _ _ _ _ _ (parseToken_flagEq env p a x _ _ _ _ hp ha)]
    have h := ih { v with tok := { v.tok with entries := appendValue v.tok.entries a x } } hp
    simpa using h

theorem foldl_appendValue_same (a : Str) (vs : List Str) (m : BazelFlagValues) (x : Str) :
    (vs.foldl (fun m x => appendValue m a x) (appendValue m a x)) a =
      some ((m a).getD [] ++ x :: vs) := by
  induction vs generalizing m x with
  | nil => simp [appendValue]
  | cons y ys ih =>
    simp only [List.foldl_cons]
    rw [ih]
    simp [appendValue]

theorem strContains_eq_false_of_not_mem (c : Char) (s : Str) (h : c ∉ s) :
    strContains s [c] = false := by
  induction s with
  | nil => simp [strContains]
  | cons d ds ih =>
    have hd : c ≠ d := fun e => h (by simp [e])
    have hds : c ∉ ds := fun e => h (by simp [e])
    simp [strContains, ih hds, List.isPrefixOf, hd]

/-! ## `parseToken`, one token shape at a time -/

theorem parseToken_bare_last (env : Env) (p : BazelRcParser) (name : Str) (st : TokenState)
    (stack : List Str) (n : Int) (hp : st.pending = none) (hne : name ≠ [])
    (hname : '=' ∉ name) :
    parseToken env p ('-' :: '-' :: name) true st stack n =
      match handleBooleanFlag p ('-' :: '-' :: name) st.entries stack n with
      | (entries, some err) => ({ st with entries := entries }, .error err)
      | (entries, none) => ({ st with entries := entries }, .ok (false, false)) := by
  have hc : strContains ('-' :: '-' :: name) ['='] = false :=
    strContains_eq_false_of_not_mem _ _ (by simp [hname])
  simp [parseToken, parseTokenNoPending, hp, continuationMarker, hasPrefix, hc, hne]

theorem parseToken_bare_not_last (env : Env) (p : BazelRcParser) (name : Str)
    (st : TokenState) (stack : List Str) (n : Int) (hp : st.pending = none) (hne : name ≠ [])
    (hname : '=' ∉ name) :
    parseToken env p ('-' :: '-' :: name) false st stack n =
      ({ st with pending := some ('-' :: '-' :: name) }, .ok (false, false)) := by
  have hc : strContains ('-' :: '-' :: name) ['='] = false :=
    strContains_eq_false_of_not_mem _ _ (by simp [hname])
  simp [parseToken, parseTokenNoPending, hp, hasPrefix, hc, hne]

theorem handleBooleanFlag_negated (p : BazelRcParser) (name : Str) (m : BazelFlagValues)
    (stack : List Str) (n : Int) (hb : lookupBool p.knownFlagData.BooleanFlags name = true) :
    handleBooleanFlag p ('-' :: '-' :: 'n' :: 'o' :: name) m stack n =
      (appendValue m name falseStr, none) := by
  simp [handleBooleanFlag, hasPrefix, hb]

theorem handleBooleanFlag_plain (p : BazelRcParser) (name : Str) (m : BazelFlagValues)
    (stack : List Str) (n : Int) (hno : hasPrefix name ['n', 'o'] = false)
    (hb : lookupBool p.knownFlagData.BooleanFlags name = true) :
    handleBooleanFlag p ('-' :: '-' :: name) m stack n = (appendValue m name trueStr, none) := by
  have hno2 : ¬ (['n', 'o'] <+: name) := by
    intro h
    rw [hasPrefix, List.isPrefixOf_iff_prefix.2 h] at hno
    exact Bool.noConfusion hno
  simp [handleBooleanFlag, stripLeadingDashes, hasPrefix, hb, hno2]

theorem parseToken_pending_value (env : Env) (p : BazelRcParser) (flag token : Str)
    (isLast : Bool) (st : TokenState) (stack : List Str) (n : Int)
    (hp : st.pending = some flag)
    (hnb : isKnownBooleanFlag p (stripLeadingDashes flag) = false)
    (hv : ¬ (isLast = true ∧ token = continuationMarker)) :
    parseToken env p token isLast st stack n =
      ({ st with entries := appendValue st.entries (stripLeadingDashes flag) token,
                 pending := none }, .ok (false, false)) := by
  have h1 : (isLast && token == continuationMarker) = false := by
    cases isLast <;> simp_all
  simp [parseToken, h1, hp, hnb]

theorem parseToken_abbrev_true (env : Env) (p : BazelRcParser) (c : Char) (name : Str)
    (isLast : Bool) (st : TokenState) (stack : List Str) (n : Int)
    (hp : st.pending = none) (hc : c ≠ '-')
    (hab : p.knownFlagData.FlagAbbreviations [c] = some name)
    (hb : lookupBool p.knownFlagData.BooleanFlags name = true) :
    parseToken env p ['-', c] isLast st stack n =
      ({ st with entries := appendValue st.entries name trueStr }, .ok (false, false)) := by
  simp [parseToken, parseTokenNoPending, hp, continuationMarker, hasPrefix, hc, hc.symm,
    List.isPrefixOf, parseAsAbbreviatedFlag, hab, hb]

theorem parseToken_abbrev_false (env : Env) (p : BazelRcParser) (c : Char) (name : Str)
    (isLast : Bool) (st : TokenState) (stack : List Str) (n : Int)
    (hp : st.pending = none) (hc : c ≠ '-')
    (hab : p.knownFlagData.FlagAbbreviations [c] = some name)
    (hb : lookupBool p.knownFlagData.BooleanFlags name = true) :
    parseToken env p ['-', c, '-'] isLast st stack n =
      ({ st with entries := appendValue st.entries name falseStr }, .ok (false, false)) := by
  simp [parseToken, parseTokenNoPending, hp, continuationMarker, hasPrefix, hc, hc.symm,
    List.isPrefixOf, parseAsAbbreviatedFlag, hab, hb]

theorem parseToken_abbrev_pending (env : Env) (p : BazelRcParser) (c : Char) (name : Str)
    (isLast : Bool) (st : TokenState) (stack : List Str) (n : Int)
    (hp : st.pending = none) (hc : c ≠ '-')
    (hab : p.knownFlagData.FlagAbbreviations [c] = some name)
    (hb : lookupBool p.knownFlagData.BooleanFlags name = false) :
    parseToken env p ['-', c] isLast st stack n =
      ({ st with pending := some ('-' :: '-' :: name) }, .ok (false, false)) := by
  simp [parseToken, parseTokenNoPending, hp, continuationMarker, hasPrefix, hc, hc.symm,
    List.isPrefixOf, parseAsAbbreviatedFlag, hab, hb]

theorem lookupBool_of_not_known (p : BazelRcParser) (name : Str)
    (h : isKnownBooleanFlag p name = false) :
    lookupBool p.knownFlagData.BooleanFlags name = false := by
  unfold isKnownBooleanFlag at h
  unfold lookupBool
  cases hb : p.knownFlagData.BooleanFlags name with
  | none => rfl
  | some b => simpa [hb] using h

/-! ## The result of `parseToken` does not depend on where errors are attributed -/

theorem handleBooleanFlag_of_boolean (p : BazelRcParser) (flag : Str) (m : BazelFlagValues)
    (stack : List Str) (n : Int)
    (h : lookupBool p.knownFlagData.BooleanFlags (booleanFlagName flag) = true) :
    handleBooleanFlag p flag m stack n =
      (appendValue m (booleanFlagName flag) (booleanAssumedValue flag), none) := by
  simp only [booleanFlagName] at h
  simp [handleBooleanFlag, booleanFlagName, booleanAssumedValue, h]

theorem handleBooleanFlag_of_not_boolean (p : BazelRcParser) (flag : Str)
    (m : BazelFlagValues) (stack : List Str) (n : Int)
    (h : lookupBool p.knownFlagData.BooleanFlags (booleanFlagName flag) = false) :
    handleBooleanFlag p flag m stack n =
      (m, some (makeError stack n
        ("value-requiring flag ".toList ++ booleanFlagName flag ++
          " didn't have value".toList) false)) := by
  simp only [booleanFlagName] at h
  simp [handleBooleanFlag, booleanFlagName, h]

theorem parseTokenNoPending_indep (env : Env) (p : BazelRcParser) (t : Str) (b : Bool)
    (st : TokenState) (stack stack' : List Str) (n n' : Int) :
    (parseTokenNoPending env p t b st stack n).1 =
        (parseTokenNoPending env p t b st stack' n').1 ∧
    (parseTokenNoPending env p t b st stack n).2.toOption =
        (parseTokenNoPending env p t b st stack' n').2.toOption := by
  unfold parseTokenNoPending
  split
  · exact ⟨rfl, rfl⟩
  split
  · exact ⟨rfl, rfl⟩
  split
  · exact ⟨rfl, rfl⟩
  split
  · exact ⟨rfl, rfl⟩
  split
  · cases hb : lookupBool p.knownFlagData.BooleanFlags (booleanFlagName t) with
    | true =>
      rw [handleBooleanFlag_of_boolean p t _ _ _ hb, handleBooleanFlag_of_boolean p t _ _ _ hb]
      exact ⟨rfl, rfl⟩
    | false =>
      rw [handleBooleanFlag_of_not_boolean p t _ _ _ hb,
        handleBooleanFlag_of_not_boolean p t _ _ _ hb]
      exact ⟨rfl, rfl⟩
  · exact ⟨rfl, rfl⟩

theorem parseToken_indep (env : Env) (p : BazelRcParser) (t : Str) (b : Bool)
    (st : TokenState) (stack stack' : List Str) (n n' : Int) :
    (parseToken env p t b st stack n).1 = (parseToken env p t b st stack' n').1 ∧
    (parseToken env p t b st stack n).2.toOption =
        (parseToken env p t b st stack' n').2.toOption := by
  by_cases hm : (b && t == continuationMarker) = true
  · simp [parseToken, hm]
  cases hpend : st.pending with
  | none =>
    simpa [parseToken, hm, hpend] using parseTokenNoPending_indep env p t b st stack stack' n n'
  | some flag =>
    by_cases hk : (isKnownBooleanFlag p (stripLeadingDashes flag) && t != trueStr
        && t != falseStr) = true
    · cases hb : lookupBool p.knownFlagData.BooleanFlags (booleanFlagName flag) with
      | true =>
        simp only [parseToken, hm, hpend, hk, handleBooleanFlag_of_boolean p flag _ _ _ hb]
        simpa using parseTokenNoPending_indep env p t b _ stack stack' n n'
      | false =>
        simp only [parseToken, hm, hpend, hk, handleBooleanFlag_of_not_boolean p flag _ _ _ hb]
        simp [Except.toOption]
    · simp [parseToken, hm, hpend, hk]

/-- What `parseToken` can signal: a continuation only on a last token that is the marker
(the state is then unchanged), and the rest-as-targets signal only on the separator `--`;
never both. -/
theorem parseTokenNoPending_signal (env : Env) (p : BazelRcParser) (t : Str) (b : Bool)
    (st st' : TokenState) (stack : List Str) (n : Int) (c r : Bool)
    (h : parseTokenNoPending env p t b st stack n = (st', .ok (c, r))) :
    c = false ∧ (r = true → t = ['-', '-']) := by
  unfold parseTokenNoPending at h
  split at h
  · simp at h; simp [h]
  split at h
  · rename_i ht
    simp at h
    simp [h]
    simpa using ht
  split at h
  · split at h
    · simp at h
    · split at h <;> simp at h <;> simp [h]
  split at h
  · simp at h; simp [h]
  split at h
  · split at h
    · simp at h
    · simp at h; simp [h]
  · simp at h; simp [h]

theorem parseToken_signal (env : Env) (p : BazelRcParser) (t : Str) (b : Bool)
    (st st' : TokenState) (stack : List Str) (n : Int) (c r : Bool)
    (h : parseToken env p t b st stack n = (st', .ok (c, r))) :
    (c = true → b = true ∧ t = continuationMarker ∧ st' = st ∧ r = false) ∧
    (r = true → t = ['-', '-']) := by
  by_cases hm : (b && t == continuationMarker) = true
  · simp [parseToken, hm] at h
    obtain ⟨h1, h2, h3⟩ := h
    subst h2 h3
    simp at hm
    simp [hm, h1]
  have key : ∀ s, parseTokenNoPending env p t b s stack n = (st', .ok (c, r)) →
      (c = true → b = true ∧ t = continuationMarker ∧ st' = st ∧ r = false) ∧
      (r = true → t = ['-', '-']) := by
    intro s hs
    have := parseTokenNoPending_signal env p t b s st' stack n c r hs
    simp [this.1]
    exact this.2
  cases hpend : st.pending with
  | none =>
    simp only [parseToken, hm, hpend] at h
    exact key _ h
  | some flag =>
    by_cases hk : (isKnownBooleanFlag p (stripLeadingDashes flag) && t != trueStr
        && t != falseStr) = true
    · cases hb : lookupBool p.knownFlagData.BooleanFlags (booleanFlagName flag) with
      | true =>
        simp only [parseToken, hm, hpend, hk, handleBooleanFlag_of_boolean p flag _ _ _ hb] at h
        exact key _ h
      | false =>
        simp only [parseToken, hm, hpend, hk,
          handleBooleanFlag_of_not_boolean p flag _ _ _ hb] at h
        simp at h
    · simp [parseToken, hm, hpend, hk] at h
      simp [h]

theorem lineLoop_cons_error (env : Env) (p : BazelRcParser) (stack : List Str)
    (recurse : List Str → LineVars → Option (LineVars × Option Failure))
    (t : Str) (ts : List Str) (v : LineVars) (st : TokenState) (err : Failure)
    (h : parseToken env p t ts.isEmpty v.tok stack v.zeroBaseLineNumber = (st, .error err)) :
    lineLoop env p stack recurse (t :: ts) v = some ({ v with tok := st }, some err) := by
  simp [lineLoop, h]

theorem lineLoop_append (env : Env) (p : BazelRcParser) (stack : List Str)
    (recurse : List Str → LineVars → Option (LineVars × Option Failure))
    (ts tail : List Str) (htail : tail ≠ []) (hsep : ∀ t ∈ ts, t ≠ ['-', '-'])
    (v : LineVars) :
    lineLoop env p stack recurse (ts ++ tail) v =
      match prefixRun env p stack v.zeroBaseLineNumber ts v.tok with
      | (st, some err) => some ({ v with tok := st }, some err)
      | (st, none) => lineLoop env p stack recurse tail { v with tok := st } := by
  induction ts generalizing v with
  | nil => simp [prefixRun]
  | cons t ts ih =>
    have hne : (ts ++ tail).isEmpty = false := by
      cases ts <;> cases tail <;> simp_all
    have hsep' : ∀ t ∈ ts, t ≠ ['-', '-'] := fun x hx => hsep x (List.mem_cons_of_mem _ hx)
    have e1 : parseToken env p t (ts ++ tail).isEmpty v.tok stack v.zeroBaseLineNumber =
        parseToken env p t false v.tok stack v.zeroBaseLineNumber := by rw [hne]
    rcases hpt : parseToken env p t false v.tok stack v.zeroBaseLineNumber with ⟨st1, res⟩
    cases res with
    | error err =>
      rw [List.cons_append, lineLoop_cons_error _ _ _ _ _ _ _ _ _ (e1.trans hpt)]
      simp [prefixRun, hpt]
    | ok sig =>
      obtain ⟨c, r⟩ := sig
      have hs := parseToken_signal env p t false v.tok st1 stack _ c r hpt
      have hc : c = false := by
        cases c with
        | false => rfl
        | true => simpa using (hs.1 rfl).1
      have hr : r = false := by
        cases r with
        | false => rfl
        | true => exact absurd (hs.2 rfl) (hsep t (List.mem_cons_self _ _))
      subst hc hr
      have := ih hsep' { v with tok := st1 }
      rw [List.cons_append, lineLoop_cons_plain _ _ _ _ _ _ _ _ (e1.trans hpt), this]
      simp [prefixRun, hpt]

theorem lineLoop_cons_eq (env : Env) (p : BazelRcParser) (stack : List Str)
    (recurse : List Str → LineVars → Option (LineVars × Option Failure))
    (t : Str) (ts : List Str) (v : LineVars) :
    lineLoop env p stack recurse (t :: ts) v =
      match parseToken env p t ts.isEmpty v.tok stack v.zeroBaseLineNumber with
      | (tok1, .error err) => some ({ v with tok := tok1 }, some err)
      | (tok1, .ok (parseNextLineAsContinuation, parseRestOfLineAsTargets)) =>
        if parseNextLineAsContinuation then
          match v.rest with
          | [] =>
            some ({ v with tok := tok1, zeroBaseLineNumber := v.zeroBaseLineNumber + 1 }, none)
          | line :: rest =>
            match tokenizeLine env line stack ((v.zeroBaseLineNumber + 1 : Nat) : Int) with
            | .error err =>
              some ({ tok := tok1, zeroBaseLineNumber := v.zeroBaseLineNumber + 1,
                      rest := rest }, some err)
            | .ok nextTokens =>
              match recurse nextTokens
                  { tok := tok1, zeroBaseLineNumber := v.zeroBaseLineNumber + 1,
                    rest := rest } with
              | none => none
              | some (v2, some err) => some (v2, some err)
              | some (v2, none) =>
                if parseRestOfLineAsTargets then
                  some ({ v2 with tok := { v2.tok with targets := v2.tok.targets ++ ts } },
                    none)
                else lineLoop env p stack recurse ts v2
        else if parseRestOfLineAsTargets then
          some ({ v with tok := { tok1 with targets := tok1.targets ++ ts } }, none)
        else lineLoop env p stack recurse ts { v with tok := tok1 } := by
  rw [lineLoop]

/-- On the last line of a file (`rest` empty) the token state in which `lineLoop` ends, and
whether it ends in an error, depend neither on the call stack, nor on the line number, nor
on the recursive call. -/
theorem lineLoop_rest_nil (env : Env) (p : BazelRcParser) (stack stack' : List Str)
    (recurse recurse' : List Str → LineVars → Option (LineVars × Option Failure))
    (toks : List Str) (tok : TokenState) (n n' : Nat) :
    ∃ w w' e e', lineLoop env p stack recurse toks ⟨tok, n, []⟩ = some (w, e) ∧
      lineLoop env p stack' recurse' toks ⟨tok, n', []⟩ = some (w', e') ∧
      w.tok = w'.tok ∧ w.rest = [] ∧ w'.rest = [] ∧ (e = none ↔ e' = none) := by
  induction toks generalizing tok with
  | nil =>
    exact ⟨⟨tok, n, []⟩, ⟨tok, n', []⟩, none, none, by rw [lineLoop], by rw [lineLoop], rfl, rfl,
      rfl, Iff.rfl⟩
  | cons t ts ih =>
    have hi := parseToken_indep env p t ts.isEmpty tok stack stack' n n'
    rcases h1 : parseToken env p t ts.isEmpty tok stack n with ⟨st1, r1⟩
    rcases h2 : parseToken env p t ts.isEmpty tok stack' n' with ⟨st2, r2⟩
    rw [h1, h2] at hi
    obtain ⟨hst, hr⟩ := hi
    simp only at hst hr
    subst hst
    rw [lineLoop_cons_eq, lineLoop_cons_eq]
    simp only [h1, h2]
    cases r1 with
    | error e1 =>
      cases r2 with
      | error e2 => exact ⟨_, _, _, _, rfl, rfl, rfl, rfl, rfl, by simp⟩
      | ok a => simp [Except.toOption] at hr
    | ok a =>
      cases r2 with
      | error e2 => simp [Except.toOption] at hr
      | ok a' =>
        have : a = a' := by simpa [Except.toOption] using hr
        subst this
        obtain ⟨c, r⟩ := a
        cases c with
        | true => exact ⟨_, _, _, _, rfl, rfl, rfl, rfl, rfl, Iff.rfl⟩
        | false =>
          cases r with
          | true => exact ⟨_, _, _, _, rfl, rfl, rfl, rfl, rfl, Iff.rfl⟩
          | false => simpa using ih st1

theorem splitLines_append_newline (a b : Str) (h : '\n' ∉ a) :
    splitLines (a ++ '\n' :: b) = a :: splitLines b := by
  induction a with
  | nil => simp [splitLines]
  | cons c cs ih =>
    have hc : c ≠ '\n' := fun e => h (by simp [e])
    have hcs : '\n' ∉ cs := fun e => h (by simp [e])
    simp [splitLines, hc, ih hcs]

theorem parseToken_marker (env : Env) (p : BazelRcParser) (st : TokenState)
    (stack : List Str) (n : Int) :
    parseToken env p continuationMarker true st stack n = (st, .ok (true, false)) := by
  simp [parseToken]

/-- `Parsefile` on a file whose first line holds a sub-command and at least one argument. -/
theorem parsefile_of_first_line (env : Env) (p : BazelRcParser) (k : Nat)
    (content line path cmd arg : Str) (rest args : List Str)
    (hsplit : splitLines content = line :: rest)
    (hc : hasPrefix line ['#'] = false) (hne : line ≠ [])
    (htok : env.shlexSplit line = .ok (cmd :: arg :: args))
    (hi : cmd ≠ importToken) (ht : cmd ≠ tryImportToken) :
    Parsefile env p (k + 2) (.ok content) path =
      match parseLineWithoutCommandPrefix env p [path] k (arg :: args)
          ⟨⟨emptyFlagValues, [], none⟩, 0, rest⟩ with
      | none => none
      | some (v, some err) => some (newBazelrcContents.set cmd v.tok.entries, some err)
      | some (v, none) =>
        match fileLoop env p k [path] v.rest (v.zeroBaseLineNumber + 1)
            ⟨newBazelrcContents.set cmd v.tok.entries, v.tok.pending⟩ with
        | none => none
        | some (vars, err) => some (vars.out, err) := by
  have h0 : (newBazelrcContents.entries cmd).getD emptyFlagValues = emptyFlagValues := rfl
  simp only [Parsefile, parseFileInternal, hsplit]
  rw [fileLoop_command env p k [path] line rest 0 _ cmd arg args hc hne htok hi ht]
  simp only [h0]
  rcases parseLineWithoutCommandPrefix env p [path] k (arg :: args)
      ⟨⟨emptyFlagValues, [], none⟩, 0, rest⟩ with _ | ⟨v, _ | err⟩ <;> rfl

theorem parseLine_succ (env : Env) (p : BazelRcParser) (stack : List Str) (fuel : Nat)
    (tokens : List Str) (v : LineVars) :
    parseLineWithoutCommandPrefix env p stack (fuel + 1) tokens v =
      lineLoop env p stack (parseLineWithoutCommandPrefix env p stack fuel) tokens v := rfl

/-- The tokens `ts ++ [\]` of a line followed by a last line with tokens
`us`, against the tokens `ts ++ us` of a single last line. -/
theorem parseLine_continuation (env : Env) (p : BazelRcParser) (path line2 : Str) (k : Nat)
    (ts us : List Str) (tok : TokenState)
    (htok2 : env.shlexSplit line2 = .ok us) (hus : us ≠ [])
    (hsep : ∀ t ∈ ts, t ≠ ['-', '-']) :
    ∃ w w' e e',
      parseLineWithoutCommandPrefix env p [path] (k + 2) (ts ++ [continuationMarker])
        ⟨tok, 0, [line2]⟩ = some (w, e) ∧
      parseLineWithoutCommandPrefix env p [path] (k + 2) (ts ++ us) ⟨tok, 0, []⟩ =
        some (w', e') ∧
      w.tok = w'.tok ∧ (e = none → w.rest = []) ∧ w'.rest = [] ∧ (e = none ↔ e' = none) := by
  rw [parseLine_succ, parseLine_succ]
  rw [lineLoop_append env p [path] _ ts [continuationMarker] (by simp) hsep,
    lineLoop_append env p [path] _ ts us hus hsep]
  rcases prefixRun env p [path] ((0 : Nat) : Int) ts tok with ⟨st, _ | err⟩
  · -- the marker is reached
    obtain ⟨w, w', e, e', h1, h2, h3, h4, h5, h6⟩ :=
      lineLoop_rest_nil env p [path] [path] (parseLineWithoutCommandPrefix env p [path] k)
        (parseLineWithoutCommandPrefix env p [path] (k + 1)) us st 1 0
    refine ⟨w, w', e, e', ?_, h2, h3, fun _ => h4, h5, h6⟩
    simp only []
    rw [lineLoop_cons_eq]
    simp only [List.isEmpty_nil, parseToken_marker, tokenizeLine, htok2, if_true]
    rw [parseLine_succ]
    simp only [Nat.zero_add] at h1 ⊢
    rw [h1]
    cases e with
    | some err => rfl
    | none => simp [lineLoop]
  · exact ⟨_, _, _, _, rfl, rfl, rfl, by simp, rfl, Iff.rfl⟩

theorem parsefile_of_first_line_args (env : Env) (p : BazelRcParser) (k : Nat)
    (content line path cmd : Str) (rest args : List Str)
    (hsplit : splitLines content = line :: rest)
    (hc : hasPrefix line ['#'] = false) (hne : line ≠ [])
    (htok : env.shlexSplit line = .ok (cmd :: args)) (hargs : args ≠ [])
    (hi : cmd ≠ importToken) (ht : cmd ≠ tryImportToken) :
    Parsefile env p (k + 2) (.ok content) path =
      match parseLineWithoutCommandPrefix env p [path] k args
          ⟨⟨emptyFlagValues, [], none⟩, 0, rest⟩ with
      | none => none
      | some (v, some err) => some (newBazelrcContents.set cmd v.tok.entries, some err)
      | some (v, none) =>
        match fileLoop env p k [path] v.rest (v.zeroBaseLineNumber + 1)
            ⟨newBazelrcContents.set cmd v.tok.entries, v.tok.pending⟩ with
        | none => none
        | some (vars, err) => some (vars.out, err) := by
  obtain ⟨arg, args', rfl⟩ := List.exists_cons_of_ne_nil hargs
  exact parsefile_of_first_line env p k content line path cmd arg rest args' hsplit hc hne htok
    hi ht

theorem parseToken_pending_consumed (env : Env) (p : BazelRcParser) (flag u : Str)
    (isLast : Bool) (st : TokenState) (stack : List Str) (n : Int)
    (hp : st.pending = some flag)
    (hv : ¬ (isLast = true ∧ u = continuationMarker))
    (hcase : isKnownBooleanFlag p (stripLeadingDashes flag) = false ∨ u = trueStr ∨
      u = falseStr) :
    parseToken env p u isLast st stack n =
      ({ st with entries := appendValue st.entries (stripLeadingDashes flag) u,
                 pending := none }, .ok (false, false)) := by
  have h1 : (isLast && u == continuationMarker) = false := by
    cases isLast <;> simp_all
  have h2 : (isKnownBooleanFlag p (stripLeadingDashes flag) && u != trueStr
      && u != falseStr) = false := by
    rcases hcase with h | h | h <;> simp [h]
  simp [parseToken, h1, hp, h2]

theorem parseToken_pending_boolean (env : Env) (p : BazelRcParser) (flag u : Str)
    (isLast : Bool) (st : TokenState) (stack : List Str) (n : Int)
    (hp : st.pending = some flag)
    (hv : ¬ (isLast = true ∧ u = continuationMarker))
    (hk : isKnownBooleanFlag p (stripLeadingDashes flag) = true)
    (ht : u ≠ trueStr) (hf : u ≠ falseStr) :
    parseToken env p u isLast st stack n =
      match handleBooleanFlag p flag st.entries stack n with
      | (entries, some err) => ({ st with entries := entries }, .error err)
      | (entries, none) =>
        parseTokenNoPending env p u isLast { st with entries := entries, pending := none }
          stack n := by
  have h1 : (isLast && u == continuationMarker) = false := by
    cases isLast <;> simp_all
  simp [parseToken, h1, hp, hk, ht, hf]

/-! ## Moving a successful run to another call stack, line number, fuel and file tail -/

theorem tokenizeLine_eq_ok (env : Env) (line : Str) (stack : List Str) (n : Int)
    (toks : List Str) :
    tokenizeLine env line stack n = .ok toks ↔ env.shlexSplit line = .ok toks := by
  unfold tokenizeLine
  cases env.shlexSplit line <;> simp

theorem parseToken_ok_indep (env : Env) (p : BazelRcParser) (t : Str) (b : Bool)
    (st st1 : TokenState) (stack stack' : List Str) (n n' : Int) (a : Bool × Bool)
    (h : parseToken env p t b st stack n = (st1, .ok a)) :
    parseToken env p t b st stack' n' = (st1, .ok a) := by
  have hi := parseToken_indep env p t b st stack stack' n n'
  rw [h] at hi
  rcases h2 : parseToken env p t b st stack' n' with ⟨st2, r2⟩
  rw [h2] at hi
  obtain ⟨hst, hr⟩ := hi
  simp only at hst hr
  subst hst
  cases r2 with
  | error e => simp [Except.toOption] at hr
  | ok a' =>
    have : a = a' := by simpa [Except.toOption] using hr
    rw [this]

theorem lineEndsOpen_tail (env : Env) (t : Str) (ts rest : List Str)
    (h : lineEndsOpen env (t :: ts) rest = false) : lineEndsOpen env ts rest = false := by
  cases rest with
  | cons l ls => exact h
  | nil =>
    cases ts with
    | nil => simp [lineEndsOpen]
    | cons u us => simpa [lineEndsOpen, List.getLast?_cons_cons] using h

theorem lineEndsOpen_next (env : Env) (toks toks' : List Str) (line : Str) (rest : List Str)
    (hsplit : env.shlexSplit line = .ok toks')
    (h : lineEndsOpen env toks (line :: rest) = false) :
    lineEndsOpen env toks' rest = false := by
  cases rest with
  | nil => simpa [lineEndsOpen, endsOpen, hsplit] using h
  | cons l ls => simpa [lineEndsOpen, endsOpen, List.getLast?_cons_cons] using h

theorem lineLoop_transports (env : Env) (p : BazelRcParser) (stack stack' : List Str)
    (tail : List Str)
    (recurse recurse' : List Str → LineVars → Option (LineVars × Option Failure))
    (hrec : Transports env tail recurse recurse') :
    Transports env tail (lineLoop env p stack recurse) (lineLoop env p stack' recurse') := by
  intro toks
  induction toks with
  | nil =>
    intro v w n' _ h
    rw [lineLoop] at h
    simp only [Option.some.injEq, Prod.mk.injEq, and_true] at h
    subst h
    exact ⟨⟨[], rfl⟩, n', by rw [lineLoop], fun _ => rfl⟩
  | cons t ts ih =>
    intro v w n' hopen h
    rw [lineLoop_cons_eq] at h
    rw [lineLoop_cons_eq]
    rcases hpt : parseToken env p t ts.isEmpty v.tok stack v.zeroBaseLineNumber with ⟨st1, r1⟩
    rw [hpt] at h
    cases r1 with
    | error err => simp at h
    | ok a =>
      have hpt' := parseToken_ok_indep env p t ts.isEmpty v.tok st1 stack stack'
        v.zeroBaseLineNumber n' a hpt
      simp only [hpt']
      obtain ⟨c, r⟩ := a
      have hsig := parseToken_signal env p t ts.isEmpty v.tok st1 stack _ c r hpt
      cases c with
      | true =>
        obtain ⟨hb, ht, _, hr⟩ := hsig.1 rfl
        subst hr
        have hts : ts = [] := by simpa using hb
        subst hts
        simp only [if_true] at h ⊢
        cases hrest : v.rest with
        | nil =>
          rw [hrest] at h
          simp only [Option.some.injEq, Prod.mk.injEq, and_true] at h
          subst h
          rcases hopen with hB | hB
          · subst hB
            refine ⟨⟨[], by simp [hrest]⟩, n' + 1, by simp [hrest], fun hB => ?_⟩
            simp [lineEndsOpen, ht] at hB
          · rw [hrest] at hB
            simp [lineEndsOpen, ht] at hB
        | cons line rest =>
          rw [hrest] at h
          simp only at h
          cases hsplit : env.shlexSplit line with
          | error e => simp [tokenizeLine, hsplit] at h
          | ok toks' =>
            have e1 : ∀ S k, tokenizeLine env line S k = .ok toks' := fun S k =>
              (tokenizeLine_eq_ok env line S k toks').2 hsplit
            simp only [e1] at h
            rcases hr1 : recurse toks'
                { tok := st1, zeroBaseLineNumber := v.zeroBaseLineNumber + 1, rest := rest }
              with _ | ⟨v2, _ | err⟩
            · simp [hr1] at h
            · rw [hr1] at h
              simp only [Bool.false_eq_true, if_false] at h
              rw [lineLoop] at h
              simp only [Option.some.injEq, Prod.mk.injEq, and_true] at h
              subst h
              have hopen' : tail = [] ∨ lineEndsOpen env toks'
                  (LineVars.mk st1 (v.zeroBaseLineNumber + 1) rest).rest = false := by
                rcases hopen with hB | hB
                · exact Or.inl hB
                · rw [hrest] at hB
                  exact Or.inr (lineEndsOpen_next env _ toks' line rest hsplit hB)
              obtain ⟨⟨pre, hpre⟩, m, hm, hacc⟩ := hrec toks' _ v2 (n' + 1) hopen' hr1
              simp only at hpre hm hacc
              refine ⟨⟨line :: pre, by simp [hpre]⟩, m, ?_, fun hB => ?_⟩
              · simp only [List.cons_append, e1, hm, Bool.false_eq_true, if_false]
                rw [lineLoop]
              · have := hacc (lineEndsOpen_next env _ toks' line rest hsplit hB)
                simp only [List.length_cons]
                omega
            · simp [hr1] at h
      | false =>
        simp only [Bool.false_eq_true, if_false] at h ⊢
        cases r with
        | true =>
          simp only [if_true, Option.some.injEq, Prod.mk.injEq, and_true] at h ⊢
          subst h
          exact ⟨⟨[], by simp⟩, n', rfl, fun _ => rfl⟩
        | false =>
          simp only [Bool.false_eq_true, if_false] at h ⊢
          have hopen' : tail = [] ∨ lineEndsOpen env ts
              (LineVars.mk st1 v.zeroBaseLineNumber v.rest).rest = false := by
            rcases hopen with hB | hB
            · exact Or.inl hB
            · exact Or.inr (lineEndsOpen_tail env t ts v.rest hB)
          obtain ⟨hp, m, hm, hacc⟩ := ih _ w n' hopen' h
          exact ⟨hp, m, hm, fun hB => hacc (lineEndsOpen_tail env t ts v.rest hB)⟩

theorem parseLine_transports (env : Env) (p : BazelRcParser) (stack stack' : List Str)
    (tail : List Str) (f f' : Nat) (hf : f ≤ f') :
    Transports env tail (parseLineWithoutCommandPrefix env p stack f)
      (parseLineWithoutCommandPrefix env p stack' f') := by
  induction f generalizing f' with
  | zero =>
    intro toks v w n' _ h
    simp [parseLineWithoutCommandPrefix] at h
  | succ f ih =>
    obtain ⟨g, rfl⟩ : ∃ g, f' = g + 1 := ⟨f' - 1, by omega⟩
    intro toks v w n' hopen h
    rw [parseLine_succ] at h
    rw [parseLine_succ]
    exact lineLoop_transports env p stack stack' tail _ _ (ih g (by omega)) toks v w n' hopen h

theorem endsOpen_nil (env : Env) : endsOpen env [] = false := rfl

theorem endsOpen_suffix (env : Env) (pre s : List Str) (h : endsOpen env (pre ++ s) = false) :
    endsOpen env s = false := by
  cases s with
  | nil => rfl
  | cons l ls =>
    have : (pre ++ l :: ls).getLast? = (l :: ls).getLast? :=
      List.getLast?_append_cons pre l ls
    unfold endsOpen at h ⊢
    rw [this] at h
    exact h

theorem lineEndsOpen_of_endsOpen (env : Env) (line cmd arg : Str) (args rest : List Str)
    (hsplit : env.shlexSplit line = .ok (cmd :: arg :: args))
    (h : endsOpen env (line :: rest) = false) :
    lineEndsOpen env (arg :: args) rest = false := by
  cases rest with
  | nil => simpa [lineEndsOpen, endsOpen, hsplit, List.getLast?_cons_cons] using h
  | cons l ls => simpa [lineEndsOpen, endsOpen, List.getLast?_cons_cons] using h

theorem fileLoop_succ_cons (env : Env) (p : BazelRcParser) (fuel : Nat)
    (importCallStack : List Str) (line : Str) (rest : List Str) (zeroBaseLineNumber : Nat)
    (vars : FileVars) :
    fileLoop env p (fuel + 1) importCallStack (line :: rest) zeroBaseLineNumber vars =
    if hasPrefix line ['#'] || line == [] then
      fileLoop env p fuel importCallStack rest (zeroBaseLineNumber + 1) vars
    else
      match tokenizeLine env line importCallStack (zeroBaseLineNumber : Int) with
      | .error err => some (vars, some err)
      | .ok [] => fileLoop env p fuel importCallStack rest (zeroBaseLineNumber + 1) vars
      | .ok (commandName :: arguments) =>
        if commandName == importToken || commandName == tryImportToken then
          match arguments with
          | [pathToken] =>
            let pathFinal := replaceAll pathToken workspacePlaceholder p.workspaceDirectory
            let importCallStackCopy := importCallStack ++ [pathFinal]
            if importCallStack.contains pathFinal then
              some (vars, some (makeError importCallStackCopy zeroBaseLineNumber
                importCycleErrorMessage false))
            else
              match env.osOpen pathFinal with
              | .error err =>
                if commandName == importToken then
                  some (vars, some (makeError importCallStackCopy zeroBaseLineNumber
                    ("unable to open file: ".toList ++ err) false))
                else fileLoop env p fuel importCallStack rest (zeroBaseLineNumber + 1) vars
              | .ok file =>
                match parseFileInternal env p fuel vars.out file importCallStackCopy with
                | none => none
                | some (out, some (.error msg)) =>
                  if strContains msg importCycleErrorMessage then
                    some ({ vars with out := out }, some (.error msg))
                  else
                    some ({ vars with out := out },
                      some (makeError importCallStackCopy zeroBaseLineNumber
                        ("unable to parse import file due to error: ".toList ++ msg) true))
                | some (out, some .panic) => some ({ vars with out := out }, some .panic)
                | some (out, none) =>
                  fileLoop env p fuel importCallStack rest (zeroBaseLineNumber + 1)
                    { vars with out := out }
          | _ =>
            some (vars, some (makeError importCallStack zeroBaseLineNumber
              ("expected exactly 1 argument after ".toList ++ commandName ++
                ", but got ".toList ++ fmtInt arguments.length) false))
        else
          match arguments with
          | [] => fileLoop env p fuel importCallStack rest (zeroBaseLineNumber + 1) vars
          | _ :: _ =>
            let entriesForCommand := (vars.out.entries commandName).getD emptyFlagValues
            match parseLineWithoutCommandPrefix env p importCallStack fuel arguments
                { tok := ⟨entriesForCommand, [], vars.pending⟩,
                  zeroBaseLineNumber := zeroBaseLineNumber, rest := rest } with
            | none => none
            | some (v, some err) =>
              some (⟨vars.out.set commandName v.tok.entries, v.tok.pending⟩, some err)
            | some (v, none) =>
              fileLoop env p fuel importCallStack v.rest (v.zeroBaseLineNumber + 1)
                ⟨vars.out.set commandName v.tok.entries, v.tok.pending⟩ := by
  rw [fileLoop]

theorem parseFileInternal_succ (env : Env) (p : BazelRcParser) (fuel : Nat)
    (out : BazelrcContents) (file : Except Str Str) (importCallStack : List Str) :
    parseFileInternal env p (fuel + 1) out file importCallStack =
    match file with
    | .error err =>
      some (out, some (makeError importCallStack (-1) ("failed to read file: ".toList ++ err)
        false))
    | .ok byteValue =>
      match fileLoop env p fuel importCallStack (splitLines byteValue) 0 ⟨out, none⟩ with
      | none => none
      | some (vars, err) => some (vars.out, err) := by
  simp only [parseFileInternal]

theorem importTransports_succ (env : Env) (p : BazelRcParser) (f : Nat)
    (ih : FileTransports env p [] f) : ImportTransports env p (f + 1) := by
  intro S S' out file out1 hsub h f' hf'
  obtain ⟨g, rfl⟩ : ∃ g, f' = g + 1 := ⟨f' - 1, by omega⟩
  rw [parseFileInternal_succ] at h ⊢
  cases file with
  | error e => simp at h
  | ok content =>
    simp only at h ⊢
    rcases hrun : fileLoop env p f S (splitLines content) 0 ⟨out, none⟩ with _ | ⟨v1, _ | err⟩
    · simp [hrun] at h
    · rw [hrun] at h
      simp only [Option.some.injEq, Prod.mk.injEq, and_true] at h
      obtain ⟨j, m, hj, this, _⟩ := ih S S' (splitLines content) 0 0 ⟨out, none⟩ v1 hsub
        (Or.inl rfl) hrun g (by omega)
      rw [List.append_nil] at this
      rw [this]
      obtain ⟨i, hi⟩ : ∃ i, g - j = i + 1 := ⟨g - j - 1, by omega⟩
      rw [hi, fileLoop_nil]
      simp [h]
    · simp [hrun] at h

theorem fileTransports_succ (env : Env) (p : BazelRcParser) (tail : List Str) (f : Nat)
    (ih : FileTransports env p tail f) (ihImport : ImportTransports env p f) :
    FileTransports env p tail (f + 1) := by
  intro S S' lines n n' v v1 hsub hopen h f' hf'
  obtain ⟨g, rfl⟩ : ∃ g, f' = g + 1 := ⟨f' - 1, by omega⟩
  have hg : f ≤ g := by omega
  cases lines with
  | nil =>
    rw [fileLoop_nil] at h
    simp only [Option.some.injEq, Prod.mk.injEq, and_true] at h
    subst h
    exact ⟨0, n', by omega, by simp, fun _ => by simp⟩
  | cons line rest =>
    have hopenRest : tail = [] ∨ endsOpen env rest = false :=
      hopen.imp id (fun h => endsOpen_suffix env [line] rest h)
    -- once the current line is dealt with, the run goes on with the lines `rest'`
    have finish : ∀ (rest' : List Str) (k k' : Nat) (v' : FileVars),
        (tail = [] ∨ endsOpen env rest' = false) →
        (endsOpen env (line :: rest) = false →
          endsOpen env rest' = false ∧ k' + rest'.length = n' + 1 + rest.length) →
        fileLoop env p f S rest' k v' = some (v1, none) →
        fileLoop env p (g + 1) S' (line :: rest ++ tail) n' v =
          fileLoop env p g S' (rest' ++ tail) k' v' →
        ∃ j m, j < f + 1 ∧
          fileLoop env p (g + 1) S' (line :: rest ++ tail) n' v =
            fileLoop env p (g + 1 - j) S' tail m v1 ∧
          (endsOpen env (line :: rest) = false → m = n' + (line :: rest).length) := by
      intro rest' k k' v' hopen' hlines hrun hstep
      obtain ⟨j, m, hj, hjm, hacc⟩ := ih S S' rest' k k' v' v1 hsub hopen' hrun g hg
      refine ⟨j + 1, m, by omega, ?_, fun hB => ?_⟩
      · rw [hstep, hjm]
        congr 1
        omega
      · obtain ⟨h1, h2⟩ := hlines hB
        have := hacc h1
        simp only [List.length_cons]
        omega
    have hskip : endsOpen env (line :: rest) = false →
        endsOpen env rest = false ∧ n' + 1 + rest.length = n' + 1 + rest.length :=
      fun hB => ⟨endsOpen_suffix env [line] rest hB, rfl⟩
    rw [fileLoop_succ_cons] at h
    by_cases hcomment : (hasPrefix line ['#'] || line == []) = true
    · rw [if_pos hcomment] at h
      exact finish rest (n + 1) (n' + 1) v hopenRest hskip h (by
        rw [List.cons_append, fileLoop_succ_cons, if_pos hcomment])
    rw [if_neg hcomment] at h
    cases hsplit : env.shlexSplit line with
    | error e => simp [tokenizeLine, hsplit] at h
    | ok tokens =>
      have e1 : ∀ S k, tokenizeLine env line S k = .ok tokens := fun S k =>
        (tokenizeLine_eq_ok env line S k tokens).2 hsplit
      rw [e1] at h
      cases tokens with
      | nil =>
        simp only at h
        exact finish rest (n + 1) (n' + 1) v hopenRest hskip h (by
          rw [List.cons_append, fileLoop_succ_cons, if_neg hcomment, e1])
      | cons cmd args =>
        simp only at h
        by_cases hcmd : (cmd == importToken || cmd == tryImportToken) = true
        · rw [if_pos hcmd] at h
          match args, h with
          | [], h => simp at h
          | _ :: _ :: _, h => simp at h
          | [pathToken], h =>
            simp only at h
            by_cases hcyc : S.contains
                (replaceAll pathToken workspacePlaceholder p.workspaceDirectory) = true
            · rw [if_pos hcyc] at h
              simp at h
            rw [if_neg hcyc] at h
            have hcyc' : ¬ S'.contains
                (replaceAll pathToken workspacePlaceholder p.workspaceDirectory) = true := by
              intro hc
              apply hcyc
              simp only [List.contains_eq_any_beq, List.any_eq_true, beq_iff_eq] at hc ⊢
              obtain ⟨x, hx, rfl⟩ := hc
              exact ⟨_, hsub _ hx, rfl⟩
            cases hopenFile : env.osOpen
                (replaceAll pathToken workspacePlaceholder p.workspaceDirectory) with
            | error e =>
              rw [hopenFile] at h
              simp only at h
              by_cases himp : (cmd == importToken) = true
              · rw [if_pos himp] at h
                simp at h
              · rw [if_neg himp] at h
                exact finish rest (n + 1) (n' + 1) v hopenRest hskip h (by
                  rw [List.cons_append, fileLoop_succ_cons, if_neg hcomment, e1]
                  simp only [if_pos hcmd, if_neg hcyc', hopenFile, if_neg himp])
            | ok file =>
              rw [hopenFile] at h
              simp only at h
              rcases himport : parseFileInternal env p f v.out file
                  (S ++ [replaceAll pathToken workspacePlaceholder p.workspaceDirectory])
                with _ | ⟨out, _ | err⟩
              · simp [himport] at h
              · rw [himport] at h
                simp only at h
                have hsub' : ∀ x ∈ S' ++
                    [replaceAll pathToken workspacePlaceholder p.workspaceDirectory],
                    x ∈ S ++
                      [replaceAll pathToken workspacePlaceholder p.workspaceDirectory] := by
                  intro x hx
                  rcases List.mem_append.1 hx with hx | hx
                  · exact List.mem_append_left _ (hsub x hx)
                  · exact List.mem_append_right _ hx
                exact finish rest (n + 1) (n' + 1) { v with out := out } hopenRest hskip h
                  (by
                    rw [List.cons_append, fileLoop_succ_cons, if_neg hcomment, e1]
                    simp only [if_pos hcmd, if_neg hcyc', hopenFile,
                      ihImport _ _ v.out file out hsub' himport g hg])
              · rw [himport] at h
                cases err with
                | panic => simp at h
                | error msg =>
                  simp only at h
                  split at h <;> simp at h
        · rw [if_neg hcmd] at h
          cases args with
          | nil =>
            simp only at h
            exact finish rest (n + 1) (n' + 1) v hopenRest hskip h (by
              rw [List.cons_append, fileLoop_succ_cons, if_neg hcomment, e1]
              simp only [if_neg hcmd])
          | cons arg args =>
            simp only at h
            rcases hline : parseLineWithoutCommandPrefix env p S f (arg :: args)
                { tok := ⟨(v.out.entries cmd).getD emptyFlagValues, [], v.pending⟩,
                  zeroBaseLineNumber := n, rest := rest } with _ | ⟨w, _ | err⟩
            · simp [hline] at h
            · rw [hline] at h
              simp only at h
              have hlineOpen : tail = [] ∨ lineEndsOpen env (arg :: args) rest = false :=
                hopen.imp id (fun h => lineEndsOpen_of_endsOpen env line cmd arg args rest
                  hsplit h)
              obtain ⟨⟨pre, hpre⟩, m, hm, hacc⟩ :=
                parseLine_transports env p S S' tail f g hg (arg :: args) _ w n' hlineOpen hline
              simp only at hpre hm hacc
              have hlines : endsOpen env (line :: rest) = false →
                  endsOpen env w.rest = false ∧
                    m + 1 + w.rest.length = n' + 1 + rest.length := by
                intro hB
                have h1 := hacc (lineEndsOpen_of_endsOpen env line cmd arg args rest hsplit hB)
                have h2 := endsOpen_suffix env [line] rest hB
                rw [hpre] at h2
                exact ⟨endsOpen_suffix env pre w.rest h2, by omega⟩
              have hopenW : tail = [] ∨ endsOpen env w.rest = false :=
                hopenRest.imp id (fun h => endsOpen_suffix env pre w.rest (hpre ▸ h))
              exact finish w.rest (w.zeroBaseLineNumber + 1) (m + 1)
                ⟨v.out.set cmd w.tok.entries, w.tok.pending⟩ hopenW hlines h (by
                  rw [List.cons_append, fileLoop_succ_cons, if_neg hcomment, e1]
                  simp only [if_neg hcmd, hm])
            · simp [hline] at h

theorem transports_all (env : Env) (p : BazelRcParser) (f : Nat) :
    (∀ tail, FileTransports env p tail f) ∧ ImportTransports env p f := by
  induction f with
  | zero =>
    constructor
    · intro tail S S' lines n n' v v1 _ _ h
      simp [fileLoop] at h
    · intro S S' out file out1 _ h
      simp [parseFileInternal] at h
  | succ f ih =>
    exact ⟨fun tail => fileTransports_succ env p tail f (ih.1 tail) ih.2,
      importTransports_succ env p f (ih.1 [])⟩

/-- A successful run of the file loop stays the same on a smaller call stack, at another
line number and with more fuel. -/
theorem fileLoop_success_stable (env : Env) (p : BazelRcParser) (f f' : Nat)
    (S S' : List Str) (lines : List Str) (n n' : Nat) (v v1 : FileVars)
    (hsub : ∀ x ∈ S', x ∈ S) (hf : f ≤ f')
    (h : fileLoop env p f S lines n v = some (v1, none)) :
    fileLoop env p f' S' lines n' v = some (v1, none) := by
  obtain ⟨j, m, hj, hjm, _⟩ := (transports_all env p f).1 [] S S' lines n n' v v1 hsub
    (Or.inl rfl) h f' hf
  rw [List.append_nil] at hjm
  obtain ⟨i, hi⟩ : ∃ i, f' - j = i + 1 := ⟨f' - j - 1, by omega⟩
  rw [hjm, hi, fileLoop_nil]

/-- A successful run of the file loop over `lines`, not left open by a continuation marker,
followed by the lines `tail`. -/
theorem fileLoop_append (env : Env) (p : BazelRcParser) (f f' : Nat)
    (S S' : List Str) (lines tail : List Str) (n n' : Nat) (v v1 : FileVars)
    (hsub : ∀ x ∈ S', x ∈ S) (hf : f ≤ f') (hopen : endsOpen env lines = false)
    (h : fileLoop env p f S lines n v = some (v1, none)) :
    ∃ j m, j < f ∧
      fileLoop env p f' S' (lines ++ tail) n' v = fileLoop env p (f' - j) S' tail m v1 := by
  obtain ⟨j, m, hj, hjm, _⟩ := (transports_all env p f).1 tail S S' lines n n' v v1 hsub
    (Or.inr hopen) h f' hf
  exact ⟨j, m, hj, hjm⟩

/-- A successful run of the file loop over `lines`, not left open by a continuation marker,
followed by the lines `tail`: the run goes on with `tail` at the line number of its first
line. -/
theorem fileLoop_append_line (env : Env) (p : BazelRcParser) (f f' : Nat)
    (S S' : List Str) (lines tail : List Str) (n n' : Nat) (v v1 : FileVars)
    (hsub : ∀ x ∈ S', x ∈ S) (hf : f ≤ f') (hopen : endsOpen env lines = false)
    (h : fileLoop env p f S lines n v = some (v1, none)) :
    ∃ j, j < f ∧
      fileLoop env p f' S' (lines ++ tail) n' v =
        fileLoop env p (f' - j) S' tail (n' + lines.length) v1 := by
  obtain ⟨j, m, hj, hjm, hacc⟩ := (transports_all env p f).1 tail S S' lines n n' v v1 hsub
    (Or.inr hopen) h f' hf
  exact ⟨j, hj, by rw [hjm, hacc hopen]⟩

/-! ## Import cycles -/

theorem strContains_append_left (a s sub : Str) (h : strContains s sub = true) :
    strContains (a ++ s) sub = true := by
  induction a with
  | nil => exact h
  | cons c cs ih => simp [strContains, ih]

theorem strContains_self_append (sub b : Str) : strContains (sub ++ b) sub = true := by
  cases h : sub ++ b with
  | nil =>
    have : sub = [] := (List.append_eq_nil.1 h).1
    simp [strContains, this]
  | cons c cs =>
    have hp : sub.isPrefixOf (c :: cs) = true := by
      rw [← h]
      exact List.isPrefixOf_iff_prefix.2 (List.prefix_append sub b)
    simp [strContains, hp]

/-- On a call stack that is not empty `makeError` returns an error, and when it is not
handling an import the message of that error contains the message it was given. -/
theorem makeError_contains (stack : List Str) (n : Int) (msg : Str) (hne : stack ≠ []) :
    ∃ m, makeError stack n msg false = .error m ∧ strContains m msg = true := by
  obtain ⟨last, hlast⟩ : ∃ last, stack.getLast? = some last := by
    cases h : stack.getLast? with
    | none => exact absurd (List.getLast?_eq_none_iff.1 h) hne
    | some l => exact ⟨l, rfl⟩
  simp only [makeError, hlast, Bool.false_eq_true, if_false]
  refine ⟨_, rfl, ?_⟩
  rw [List.append_assoc]
  exact strContains_append_left _ _ _ (strContains_self_append _ _)

/-- The file loop on a file that reaches an import line: the run arrives at that line. -/
theorem fileLoop_reaches (env : Env) (p : BazelRcParser) (S : List Str)
    (out out' : BazelrcContents) (pre : List Str) (line : Str) (rest : List Str) (f g : Nat)
    (pend : Option Str) (hopen : endsOpen env pre = false)
    (hrun : fileLoop env p f S pre 0 ⟨out, none⟩ = some (⟨out', pend⟩, none))
    (hg : f ≤ g) :
    ∃ G m, g ≤ G + f ∧
      fileLoop env p g S (pre ++ line :: rest) 0 ⟨out, none⟩ =
        fileLoop env p (G + 1) S (line :: rest) m ⟨out', pend⟩ := by
  obtain ⟨j, m, hj, e⟩ := fileLoop_append env p f g S S pre (line :: rest) 0 0 _ _
    (fun _ h => h) hg hopen hrun
  exact ⟨g - j - 1, m, by omega, by rw [e]; congr 1; omega⟩

/-- The file loop on a file that reaches an import line: the run arrives at that line, at
its index. -/
theorem fileLoop_reaches_at (env : Env) (p : BazelRcParser) (S : List Str)
    (out out' : BazelrcContents) (pre : List Str) (line : Str) (rest : List Str) (f g : Nat)
    (pend : Option Str) (hopen : endsOpen env pre = false)
    (hrun : fileLoop env p f S pre 0 ⟨out, none⟩ = some (⟨out', pend⟩, none))
    (hg : f ≤ g) :
    ∃ G, g ≤ G + f ∧
      fileLoop env p g S (pre ++ line :: rest) 0 ⟨out, none⟩ =
        fileLoop env p (G + 1) S (line :: rest) pre.length ⟨out', pend⟩ := by
  obtain ⟨j, hj, e⟩ := fileLoop_append_line env p f g S S pre (line :: rest) 0 0 _ _
    (fun _ h => h) hg hopen hrun
  exact ⟨g - j - 1, by omega, by rw [e, Nat.zero_add]; congr 1; omega⟩

theorem importChain_fails (env : Env) (p : BazelRcParser) (target : Str) (chain : List Str)
    (k : Nat) :
    ∀ (S : List Str) (out : BazelrcContents) (content : Str) (out' : BazelrcContents),
      S ≠ [] → ImportChain env p S out content chain target out' k →
      (S ++ chain).Nodup → target ∈ S ++ chain →
      ∃ F, ∀ fuel, F ≤ fuel →
        parseFileInternal env p fuel out (.ok content) S =
          some (out', some (makeError (S ++ chain ++ [target]) k importCycleErrorMessage
            false)) := by
  induction chain with
  | nil =>
    intro S out content out' _ hchain _ htarget
    obtain ⟨pre, line, rest, d, pathToken, f, pend, hsplit, hopen, hrun, hc, hne, htok, hd,
      hpath, hk⟩ := hchain
    refine ⟨f + 1, fun fuel hfuel => ?_⟩
    obtain ⟨g, rfl⟩ : ∃ g, fuel = g + 1 := ⟨fuel - 1, by omega⟩
    obtain ⟨G, _, e⟩ := fileLoop_reaches_at env p S out out' pre line rest f g pend hopen hrun
      (by omega)
    have hcmd : (d == importToken || d == tryImportToken) = true := by
      rcases hd with h | h <;> simp [h]
    have hc' : ¬ (hasPrefix line ['#'] || line == []) = true := by simp [hc, hne]
    have hcontains : S.contains target = true := by
      simpa using htarget
    rw [parseFileInternal_succ]
    simp only [hsplit, e]
    rw [fileLoop_succ_cons, if_neg hc', (tokenizeLine_eq_ok env line _ _ _).2 htok]
    simp only [if_pos hcmd, hpath, hcontains, if_true, List.append_nil, hk]
  | cons a chain ih =>
    intro S out content out' hS hchain hnodup htarget
    obtain ⟨out1, contentA, k1, ⟨pre, line, rest, d, pathToken, f, pend, hsplit, hopen, hrun,
      hc, hne, htok, hd, hpath, _⟩, hopenA, hrestChain⟩ := hchain
    have hnodup' : (S ++ [a] ++ chain).Nodup := by simpa using hnodup
    have htarget' : target ∈ S ++ [a] ++ chain := by simpa using htarget
    obtain ⟨F1, hF1⟩ := ih (S ++ [a]) out1 contentA out' (by simp) hrestChain hnodup' htarget'
    refine ⟨f + F1 + 1, fun fuel hfuel => ?_⟩
    obtain ⟨g, rfl⟩ : ∃ g, fuel = g + 1 := ⟨fuel - 1, by omega⟩
    obtain ⟨G, m, hG, e⟩ := fileLoop_reaches env p S out out1 pre line rest f g pend hopen hrun
      (by omega)
    have hk := hF1 G (by omega)
    have hcmd : (d == importToken || d == tryImportToken) = true := by
      rcases hd with h | h <;> simp [h]
    have hc' : ¬ (hasPrefix line ['#'] || line == []) = true := by simp [hc, hne]
    have hcontains : ¬ (S.contains a = true) := by
      have : a ∉ S := by
        intro ha
        have := List.nodup_append.1 hnodup
        exact this.2.2 ha (List.mem_cons_self _ _)
      simpa using this
    obtain ⟨msg, hmsg, hcyc⟩ := makeError_contains (S ++ [a] ++ chain ++ [target]) k
      importCycleErrorMessage (by simp)
    rw [parseFileInternal_succ]
    simp only [hsplit, e]
    rw [fileLoop_succ_cons, if_neg hc', (tokenizeLine_eq_ok env line _ _ _).2 htok]
    simp only [if_pos hcmd, hpath, if_neg hcontains, hopenA, hk, hmsg, hcyc, if_true]
    simp [← hmsg]

theorem makeError_chain (R target : Str) (chain : List Str) (k : Nat) (msg : Str) :
    makeError ([R] ++ chain ++ [target]) k msg false =
      .error ("failed to process ".toList ++ target ++ " on line ".toList ++
        fmtInt ((k : Int) + 1) ++ ", ".toList ++ msg ++
        (if chain = [] then []
         else " - File ".toList ++ R ++ " imports file ".toList ++
          (" which imports file ".toList).intercalate (chain ++ [target]))) := by
  have hk : (k : Int) ≥ 0 := Int.ofNat_nonneg k
  cases chain with
  | nil => simp [makeError, hk]
  | cons a as =>
    have hlast : ([R] ++ a :: as ++ [target]).getLast? = some target := by
      rw [List.getLast?_append]
      simp
    have hlen : ((([R] ++ a :: as ++ [target]).length : Nat) : Int) - 1 > 1 := by
      simp only [List.length_append, List.length_cons, List.length_nil]
      omega
    simp only [makeError, hlast, hlen, hk, if_true, Bool.false_eq_true, if_false]
    simp

/-! ## Errors of single lines: message and line number -/

/-- The message `makeError` builds for the root file when it is not handling an import. -/
theorem makeError_root (R : Str) (n : Nat) (msg : Str) :
    makeError [R] (n : Int) msg false =
      .error ("failed to process ".toList ++ R ++ " on line ".toList ++
        fmtInt ((n : Int) + 1) ++ ", ".toList ++ msg) := by
  have h : (0 : Int) ≤ (n : Int) := Int.ofNat_nonneg n
  simp [makeError, h]

/-- The message `makeError` builds for the file at the end of the call stack: the chain of
imports follows the message when the stack holds three files or more. -/
theorem makeError_message (S : List Str) (file : Str) (n : Nat) (msg : Str)
    (h : S.getLast? = some file) :
    ∃ chain, makeError S (n : Int) msg false =
        .error ("failed to process ".toList ++ file ++ " on line ".toList ++
          fmtInt ((n : Int) + 1) ++ ", ".toList ++ msg ++ chain) ∧
      (S.length ≤ 2 → chain = []) := by
  have hn : (0 : Int) ≤ (n : Int) := Int.ofNat_nonneg n
  by_cases hlen : (S.length : Int) - 1 > 1
  · refine ⟨" - File ".toList ++ S.headD [] ++ " imports file ".toList ++
        (" which imports file ".toList).intercalate S.tail, ?_, fun h2 => ?_⟩
    · simp only [makeError, h, if_pos hlen, ge_iff_le, hn, if_true, Bool.false_eq_true,
        if_false, List.append_assoc]
    · omega
  · exact ⟨[], by simp only [makeError, h, if_neg hlen]; simp [hn], fun _ => rfl⟩

/-- The message `makeError` builds for the file at the end of the call stack, in full: the
chain of imports follows the message exactly when the stack holds three files or more. -/
theorem makeError_message_exact (S : List Str) (file : Str) (n : Nat) (msg : Str)
    (h : S.getLast? = some file) :
    makeError S (n : Int) msg false =
      .error ("failed to process ".toList ++ file ++ " on line ".toList ++
        fmtInt ((n : Int) + 1) ++ ", ".toList ++ msg ++
        (if 2 < S.length then
          " - File ".toList ++ S.headD [] ++ " imports file ".toList ++
            (" which imports file ".toList).intercalate S.tail
         else [])) := by
  have hn : (0 : Int) ≤ (n : Int) := Int.ofNat_nonneg n
  by_cases hlen : (S.length : Int) - 1 > 1
  · have h2 : 2 < S.length := by omega
    simp only [makeError, h, if_pos hlen, if_pos h2, ge_iff_le, hn, if_true,
      Bool.false_eq_true, if_false, List.append_assoc]
  · have h2 : ¬ 2 < S.length := by omega
    simp only [makeError, h, if_neg hlen, if_neg h2]
    simp [hn]

/-- The run of `Parsefile` on a root file arrives at a line when the lines before it parse
successfully and their last line does not end in a continuation marker: the file loop goes
on from that line, at its index, with the contents and the pending flag those lines left. -/
theorem parsefile_reaches_line (env : Env) (p : BazelRcParser) (content R : Str)
    (pre : List Str) (line : Str) (rest : List Str) (f : Nat) (out1 : BazelrcContents)
    (pend : Option Str) (hlines : splitLines content = pre ++ line :: rest)
    (hopen : endsOpen env pre = false)
    (hrun : fileLoop env p f [R] pre 0 ⟨newBazelrcContents, none⟩ = some (⟨out1, pend⟩, none))
    (fuel : Nat) (hfuel : f + 2 ≤ fuel) :
    ∃ G, fuel ≤ G + f + 1 ∧
      Parsefile env p fuel (.ok content) R =
        match fileLoop env p (G + 1) [R] (line :: rest) pre.length ⟨out1, pend⟩ with
        | none => none
        | some (vars, err) => some (vars.out, err) := by
  obtain ⟨g, rfl⟩ : ∃ g, fuel = g + 1 := ⟨fuel - 1, by omega⟩
  obtain ⟨j, hj, e⟩ := fileLoop_append_line env p f g [R] [R] pre (line :: rest) 0 0 _ _
    (fun _ h => h) (by omega) hopen hrun
  refine ⟨g - j - 1, by omega, ?_⟩
  have hg : g - j - 1 + 1 = g - j := by omega
  rw [Parsefile, parseFileInternal_succ]
  simp only [hlines, e, Nat.zero_add, hg]

theorem fileLoop_import_arity (env : Env) (p : BazelRcParser) (fuel : Nat) (S : List Str)
    (line : Str) (rest : List Str) (n : Nat) (vars : FileVars) (d : Str) (args : List Str)
    (hc : hasPrefix line ['#'] = false) (hne : line ≠ [])
    (htok : env.shlexSplit line = .ok (d :: args))
    (hd : d = importToken ∨ d = tryImportToken) (hargs : args.length ≠ 1) :
    fileLoop env p (fuel + 1) S (line :: rest) n vars =
      some (vars, some (makeError S n
        ("expected exactly 1 argument after ".toList ++ d ++ ", but got ".toList ++
          fmtInt args.length) false)) := by
  have hcmd : (d == importToken || d == tryImportToken) = true := by
    rcases hd with h | h <;> simp [h]
  have hc' : ¬ (hasPrefix line ['#'] || line == []) = true := by simp [hc, hne]
  rw [fileLoop_succ_cons, if_neg hc', (tokenizeLine_eq_ok env line _ _ _).2 htok]
  simp only [if_pos hcmd]
  match args, hargs with
  | [], _ => rfl
  | [_], h => exact absurd rfl h
  | _ :: _ :: _, _ => rfl

theorem fileLoop_command_args (env : Env) (p : BazelRcParser) (fuel : Nat) (stack : List Str)
    (line : Str) (rest : List Str) (n : Nat) (vars : FileVars) (cmd : Str) (args : List Str)
    (hc : hasPrefix line ['#'] = false) (hne : line ≠ [])
    (htok : env.shlexSplit line = .ok (cmd :: args)) (hargs : args ≠ [])
    (hi : cmd ≠ importToken) (ht : cmd ≠ tryImportToken) :
    fileLoop env p (fuel + 1) stack (line :: rest) n vars =
      match parseLineWithoutCommandPrefix env p stack fuel args
          ⟨⟨(vars.out.entries cmd).getD emptyFlagValues, [], vars.pending⟩, n, rest⟩ with
      | none => none
      | some (v, some err) =>
        some (⟨vars.out.set cmd v.tok.entries, v.tok.pending⟩, some err)
      | some (v, none) =>
        fileLoop env p fuel stack v.rest (v.zeroBaseLineNumber + 1)
          ⟨vars.out.set cmd v.tok.entries, v.tok.pending⟩ := by
  obtain ⟨arg, args1, rfl⟩ := List.exists_cons_of_ne_nil hargs
  exact fileLoop_command env p fuel stack line rest n vars cmd arg args1 hc hne htok hi ht

theorem fileLoop_split_error (env : Env) (p : BazelRcParser) (fuel : Nat) (S : List Str)
    (line : Str) (rest : List Str) (n : Nat) (vars : FileVars) (e : Str)
    (hc : hasPrefix line ['#'] = false) (hne : line ≠ [])
    (hsplit : env.shlexSplit line = .error e) :
    fileLoop env p (fuel + 1) S (line :: rest) n vars =
      some (vars, some (makeError S n ("unable to split line: ".toList ++ e) false)) := by
  have hc1 : ¬ (hasPrefix line ['#'] || line == []) = true := by simp [hc, hne]
  rw [fileLoop_succ_cons, if_neg hc1]
  simp only [tokenizeLine, hsplit]

theorem lineLoop_marker_split_error (env : Env) (p : BazelRcParser) (S : List Str)
    (recurse : List Str → LineVars → Option (LineVars × Option Failure))
    (tok : TokenState) (m : Nat) (line : Str) (rest : List Str) (e : Str)
    (hsplit : env.shlexSplit line = .error e) :
    lineLoop env p S recurse [continuationMarker] ⟨tok, m, line :: rest⟩ =
      some (⟨tok, m + 1, rest⟩,
        some (makeError S ((m + 1 : Nat) : Int) ("unable to split line: ".toList ++ e)
          false)) := by
  rw [lineLoop_cons_eq]
  simp only [List.isEmpty_nil, parseToken_marker, tokenizeLine, hsplit, if_true]

/-- The file loop at a line with tokens `cmd t1 ... tn \` whose tokens before the marker are
classified without error and hold no `--`: the line driver arrives at the marker. -/
theorem fileLoop_open_line (env : Env) (p : BazelRcParser) (G : Nat) (S : List Str)
    (line : Str) (rest : List Str) (n : Nat) (vars : FileVars) (cmd : Str) (ts : List Str)
    (st : TokenState) (hc : hasPrefix line ['#'] = false) (hne : line ≠ [])
    (htok : env.shlexSplit line = .ok (cmd :: (ts ++ [continuationMarker])))
    (hi : cmd ≠ importToken) (ht : cmd ≠ tryImportToken)
    (hsep : ∀ t ∈ ts, t ≠ ['-', '-'])
    (hrun : prefixRun env p S n ts
      ⟨(vars.out.entries cmd).getD emptyFlagValues, [], vars.pending⟩ = (st, none)) :
    fileLoop env p (G + 2) S (line :: rest) n vars =
      match lineLoop env p S (parseLineWithoutCommandPrefix env p S G) [continuationMarker]
          ⟨st, n, rest⟩ with
      | none => none
      | some (v, some err) =>
        some (⟨vars.out.set cmd v.tok.entries, v.tok.pending⟩, some err)
      | some (v, none) =>
        fileLoop env p (G + 1) S v.rest (v.zeroBaseLineNumber + 1)
          ⟨vars.out.set cmd v.tok.entries, v.tok.pending⟩ := by
  rw [fileLoop_command_args env p (G + 1) S line rest n vars cmd (ts ++ [continuationMarker])
    hc hne htok (by simp) hi ht, parseLine_succ,
    lineLoop_append env p S _ ts [continuationMarker] (by simp) hsep]
  simp only [hrun]

/-! ## Looking values up -/

theorem flagValue_of_some (m : BazelFlagValues) (name : Str) (values : List Str)
    (h : m name = some values) (hne : values ≠ []) :
    BazelFlagValues.FlagValue m name = .ok (some (values.getLast hne)) := by
  simp only [BazelFlagValues.FlagValue, h, List.getLast?_eq_getLast _ hne]

theorem contents_flagValue_of_values (c : BazelrcContents) (command name : Str)
    (values : List Str) (h : c.values command name = some values) (hne : values ≠ []) :
    c.FlagValue command name = .ok (some (values.getLast hne)) := by
  unfold BazelrcContents.values at h
  cases hc : c.entries command with
  | none => simp [hc] at h
  | some m =>
    rw [hc] at h
    simp only [BazelrcContents.FlagValue, hc]
    exact flagValue_of_some m name values (by simpa using h) hne

/-! ## The single-line driver and the command line -/

/-- What a call of `parseTokenNoPending` adds to the target accumulator: nothing, or the token
itself, which then either does not begin with a dash or is `--`. -/
theorem parseTokenNoPending_targets (env : Env) (p : BazelRcParser) (t : Str) (b : Bool)
    (st : TokenState) (S : List Str) (n : Int) :
    ∃ added, (parseTokenNoPending env p t b st S n).1.targets = st.targets ++ added ∧
      added.Sublist [t] ∧ ∀ x ∈ added, hasPrefix x ['-'] = false ∨ x = ['-', '-'] := by
  unfold parseTokenNoPending
  by_cases h1 : hasPrefix t ['-'] = true
  · by_cases h2 : (t == ['-', '-']) = true
    · refine ⟨[t], by simp [h1, h2], List.Sublist.refl _, ?_⟩
      intro x hx
      rw [List.mem_singleton] at hx
      exact Or.inr (by rw [hx]; simpa using h2)
    · refine ⟨[], ?_, List.nil_sublist _, by simp⟩
      simp only [h1, h2, Bool.not_true, Bool.false_eq_true, if_false, List.append_nil]
      split_ifs <;> try rfl
      · split
        · rfl
        · split_ifs <;> rfl
      · split <;> rfl
  · refine ⟨[t], by simp [h1], List.Sublist.refl _, ?_⟩
    intro x hx
    rw [List.mem_singleton] at hx
    exact Or.inl (by rw [hx]; simpa using h1)

theorem parseToken_targets (env : Env) (p : BazelRcParser) (t : Str) (b : Bool)
    (st : TokenState) (S : List Str) (n : Int) :
    ∃ added, (parseToken env p t b st S n).1.targets = st.targets ++ added ∧
      added.Sublist [t] ∧ ∀ x ∈ added, hasPrefix x ['-'] = false ∨ x = ['-', '-'] := by
  have hnil : ∃ added : List Str, st.targets = st.targets ++ added ∧
      added.Sublist [t] ∧ ∀ x ∈ added, hasPrefix x ['-'] = false ∨ x = ['-', '-'] :=
    ⟨[], by simp, List.nil_sublist _, by simp⟩
  unfold parseToken
  split_ifs with h1
  · exact hnil
  · split
    · rename_i flag hflag
      dsimp only
      split_ifs with h2
      · split
        · exact hnil
        · rename_i entries herr
          exact parseTokenNoPending_targets env p t b
            { st with entries := entries, pending := none } S n
      · exact hnil
    · exact parseTokenNoPending_targets env p t b st S n

/-- The targets that a run over tokens none of which is last adds to the accumulator are
tokens of the run, in their order, and each of them does not begin with a dash or is `--`. -/
theorem prefixRun_targets (env : Env) (p : BazelRcParser) (S : List Str) (n : Int)
    (ts : List Str) (st : TokenState) :
    ∃ added, (prefixRun env p S n ts st).1.targets = st.targets ++ added ∧
      added.Sublist ts ∧ ∀ x ∈ added, hasPrefix x ['-'] = false ∨ x = ['-', '-'] := by
  induction ts generalizing st with
  | nil => exact ⟨[], by simp [prefixRun], List.Sublist.refl _, by simp⟩
  | cons t ts ih =>
    obtain ⟨a1, h1, h2, h3⟩ := parseToken_targets env p t false st S n
    rcases hpt : parseToken env p t false st S n with ⟨st1, res⟩
    rw [hpt] at h1
    simp only at h1
    cases res with
    | error err =>
      refine ⟨a1, by simp [prefixRun, hpt, h1], ?_, h3⟩
      exact h2.trans (by simp)
    | ok sig =>
      obtain ⟨a2, k1, k2, k3⟩ := ih st1
      refine ⟨a1 ++ a2, by simp [prefixRun, hpt, k1, h1], ?_, ?_⟩
      · exact List.Sublist.append h2 k2
      · intro x hx
        rcases List.mem_append.1 hx with hx | hx
        · exact h3 x hx
        · exact k3 x hx

/-- Every entry that the single-line driver adds to the target accumulator is one of its
tokens. -/
theorem parseTokenizedArgs_targets_mem (env : Env) (p : BazelRcParser) (S : List Str)
    (n : Int) (tokens : List Str) (st : TokenState) :
    ∃ added, (parseTokenizedArgsOnSingleLineAfterCommand env p S n tokens st).1.targets =
        st.targets ++ added ∧ ∀ x ∈ added, x ∈ tokens := by
  induction tokens generalizing st with
  | nil => exact ⟨[], by simp [parseTokenizedArgsOnSingleLineAfterCommand], by simp⟩
  | cons t ts ih =>
    obtain ⟨a1, h1, h2, _⟩ := parseToken_targets env p t ts.isEmpty st S n
    have hmem : ∀ x ∈ a1, x ∈ t :: ts := fun x hx =>
      List.mem_cons.2 (Or.inl (List.mem_singleton.1 (h2.subset hx)))
    rcases hpt : parseToken env p t ts.isEmpty st S n with ⟨st1, res⟩
    rw [hpt] at h1
    simp only at h1
    cases res with
    | error err =>
      exact ⟨a1, by simp [parseTokenizedArgsOnSingleLineAfterCommand, hpt, h1], hmem⟩
    | ok sig =>
      obtain ⟨c, r⟩ := sig
      cases c with
      | true => exact ⟨a1, by simp [parseTokenizedArgsOnSingleLineAfterCommand, hpt, h1], hmem⟩
      | false =>
        cases r with
        | true =>
          refine ⟨a1 ++ ts, by simp [parseTokenizedArgsOnSingleLineAfterCommand, hpt, h1], ?_⟩
          intro x hx
          rcases List.mem_append.1 hx with hx | hx
          · exact hmem x hx
          · exact List.mem_cons_of_mem _ hx
        | false =>
          obtain ⟨a2, k1, k2⟩ := ih st1
          refine ⟨a1 ++ a2, by simp [parseTokenizedArgsOnSingleLineAfterCommand, hpt, k1, h1],
            ?_⟩
          intro x hx
          rcases List.mem_append.1 hx with hx | hx
          · exact hmem x hx
          · exact List.mem_cons_of_mem _ (k2 x hx)

/-- The single-line driver on tokens `ts` that hold no `--`, followed by further tokens: it
first runs over `ts`, none of which is last. -/
theorem parseTokenizedArgs_append (env : Env) (p : BazelRcParser) (S : List Str) (n : Int)
    (ts tail : List Str) (htail : tail ≠ []) (hsep : ∀ t ∈ ts, t ≠ ['-', '-'])
    (st : TokenState) :
    parseTokenizedArgsOnSingleLineAfterCommand env p S n (ts ++ tail) st =
      match prefixRun env p S n ts st with
      | (st1, some err) => (st1, .error err)
      | (st1, none) => parseTokenizedArgsOnSingleLineAfterCommand env p S n tail st1 := by
  induction ts generalizing st with
  | nil => simp [prefixRun]
  | cons t ts ih =>
    have hne : (ts ++ tail).isEmpty = false := by
      cases ts <;> cases tail <;> simp_all
    have hsep1 : ∀ t ∈ ts, t ≠ ['-', '-'] := fun x hx => hsep x (List.mem_cons_of_mem _ hx)
    rw [List.cons_append, parseTokenizedArgsOnSingleLineAfterCommand, hne]
    rcases hpt : parseToken env p t false st S n with ⟨st1, res⟩
    cases res with
    | error err => simp [prefixRun, hpt]
    | ok sig =>
      obtain ⟨c, r⟩ := sig
      have hs := parseToken_signal env p t false st st1 S _ c r hpt
      have hc : c = false := by
        cases c with
        | false => rfl
        | true => simpa using (hs.1 rfl).1
      have hr : r = false := by
        cases r with
        | false => rfl
        | true => exact absurd (hs.2 rfl) (hsep t (List.mem_cons_self _ _))
      subst hc hr
      simp [prefixRun, hpt, ih hsep1 st1]

theorem splitAtSeparator_of_not_mem (a : List Str) (h : ['-', '-'] ∉ a) :
    splitAtSeparator a = (a, []) := by
  induction a with
  | nil => rfl
  | cons x xs ih =>
    have hx : x ≠ ['-', '-'] := fun e => h (e ▸ List.mem_cons_self _ _)
    have hxs : ['-', '-'] ∉ xs := fun e => h (List.mem_cons_of_mem _ e)
    simp [splitAtSeparator, hx, ih hxs]

theorem splitAtSeparator_append (a b : List Str) (h : ['-', '-'] ∉ a) :
    splitAtSeparator (a ++ ['-', '-'] :: b) = (a, b) := by
  induction a with
  | nil => simp [splitAtSeparator]
  | cons x xs ih =>
    have hx : x ≠ ['-', '-'] := fun e => h (e ▸ List.mem_cons_self _ _)
    have hxs : ['-', '-'] ∉ xs := fun e => h (List.mem_cons_of_mem _ e)
    simp [splitAtSeparator, hx, ih hxs]

theorem parseToken_separator (env : Env) (p : BazelRcParser) (b : Bool) (st : TokenState)
    (S : List Str) (n : Int) (hp : st.pending = none) :
    parseToken env p ['-', '-'] b st S n =
      ({ st with targets := st.targets ++ [['-', '-']] }, .ok (false, true)) := by
  have h1 : (b && (['-', '-'] : Str) == continuationMarker) = false := by
    cases b <;> decide
  simp [parseToken, h1, hp, parseTokenNoPending, hasPrefix]

theorem parseTokenNoPending_separator (env : Env) (p : BazelRcParser) (b : Bool)
    (st : TokenState) (S : List Str) (n : Int) :
    parseTokenNoPending env p ['-', '-'] b st S n =
      ({ st with targets := st.targets ++ [['-', '-']] }, .ok (false, true)) := by
  simp [parseTokenNoPending, hasPrefix]

/-- The command line `pre ++ ["--"] ++ post`, where `pre` holds no `--` and leaves no flag
that takes the next token as its value: whether the call succeeds, and the targets and
flags it then returns, are settled by `pre`; the third part of the result is `post`. -/
theorem parseCommandLine_at_separator (env : Env) (fd : FlagData) (pre : List Str)
    (hsep : ∀ t ∈ pre, t ≠ ['-', '-'])
    (hpend : ∀ flag,
      (prefixRun env (NewBazelRcParser [] fd) [] (-1) pre
        ⟨emptyFlagValues, [], none⟩).1.pending = some flag →
      isKnownBooleanFlag (NewBazelRcParser [] fd) (stripLeadingDashes flag) = true) :
    ∃ res : Except Failure (List Str × BazelFlagValues),
      (∀ post, ParseCommandLineArgsAfterCommand env fd (pre ++ ['-', '-'] :: post) =
        match res with
        | .error f => .error f
        | .ok x => .ok ⟨x.1, x.2, post⟩) ∧
      (∀ x, res = .ok x →
        x.1 = (prefixRun env (NewBazelRcParser [] fd) [] (-1) pre
          ⟨emptyFlagValues, [], none⟩).1.targets) := by
  obtain ⟨added, ht, hsub, _⟩ := prefixRun_targets env (NewBazelRcParser [] fd) [] (-1) pre
    ⟨emptyFlagValues, [], none⟩
  have hunfold : ∀ post, ParseCommandLineArgsAfterCommand env fd (pre ++ ['-', '-'] :: post) =
      match (match prefixRun env (NewBazelRcParser [] fd) [] (-1) pre
          ⟨emptyFlagValues, [], none⟩ with
        | (st1, some err) => (st1, Except.error err)
        | (st1, none) =>
          parseTokenizedArgsOnSingleLineAfterCommand env (NewBazelRcParser [] fd) [] (-1)
            (['-', '-'] :: post) st1) with
      | (_, .error .panic) => .error .panic
      | (_, .error (.error msg)) =>
        .error (.error ("failed to parse bazel command line: ".toList ++ msg))
      | (st, .ok continuation) =>
        if continuation then
          .error (.error "didn't understand continuation \\ at end of command".toList)
        else
          match st.pending with
          | some flag =>
            .error (.error
              ("internal error: ended parsing Bazel command line while expecting value for flag ".toList
                ++ env.quote flag))
          | none =>
            .ok { Targets := (splitAtSeparator st.targets).1, BazelFlags := st.entries,
                  ExecutableArgs := (splitAtSeparator st.targets).2 } := by
    intro post
    rw [ParseCommandLineArgsAfterCommand,
      parseTokenizedArgs_append env _ [] (-1) pre (['-', '-'] :: post) (by simp) hsep]
  rcases hrun : prefixRun env (NewBazelRcParser [] fd) [] (-1) pre
      ⟨emptyFlagValues, [], none⟩ with ⟨st, _ | err⟩
  · -- the run over `pre` arrives at the separator
    rw [hrun] at ht hpend
    simp only [List.nil_append] at ht
    have hnot : ['-', '-'] ∉ st.targets := by
      rw [ht]
      exact fun h => hsep _ (hsub.subset h) rfl
    cases hp : st.pending with
    | none =>
      refine ⟨.ok (st.targets, st.entries), fun post => ?_, fun x hx => ?_⟩
      · rw [hunfold post]
        simp only [hrun, parseTokenizedArgsOnSingleLineAfterCommand,
          parseToken_separator env _ _ st [] (-1) hp, Bool.false_eq_true, if_false, if_true,
          List.append_assoc, List.singleton_append,
          splitAtSeparator_append st.targets post hnot, hp]
      · cases hx
        rfl
    | some flag =>
      have hk := hpend flag hp
      have hpt : ∀ b, parseToken env (NewBazelRcParser [] fd) ['-', '-'] b st [] (-1) =
          match handleBooleanFlag (NewBazelRcParser [] fd) flag st.entries [] (-1) with
          | (entries, some err) => ({ st with entries := entries }, .error err)
          | (entries, none) =>
            ({ entries := entries, targets := st.targets ++ [['-', '-']], pending := none },
              .ok (false, true)) := by
        intro b
        rw [parseToken_pending_boolean env _ flag ['-', '-'] b st [] (-1) hp
          (fun h => absurd h.2 (by decide)) hk (by decide) (by decide)]
        simp only [parseTokenNoPending_separator]
      rcases hh : handleBooleanFlag (NewBazelRcParser [] fd) flag st.entries [] (-1)
        with ⟨entries, _ | err⟩
      · refine ⟨.ok (st.targets, entries), fun post => ?_, fun x hx => ?_⟩
        · rw [hunfold post]
          simp only [hrun, parseTokenizedArgsOnSingleLineAfterCommand, hpt, hh, Bool.false_eq_true,
            if_false, if_true, List.append_assoc, List.singleton_append,
            splitAtSeparator_append st.targets post hnot]
        · cases hx
          rfl
      · cases err with
        | panic =>
          refine ⟨.error .panic, fun post => ?_, fun x hx => by cases hx⟩
          rw [hunfold post]
          simp only [hrun, parseTokenizedArgsOnSingleLineAfterCommand, hpt, hh]
        | error msg =>
          refine ⟨.error (.error ("failed to parse bazel command line: ".toList ++ msg)),
            fun post => ?_, fun x hx => by cases hx⟩
          rw [hunfold post]
          simp only [hrun, parseTokenizedArgsOnSingleLineAfterCommand, hpt, hh]
  · cases err with
    | panic =>
      exact ⟨.error .panic, fun post => by rw [hunfold post, hrun], fun x hx => by cases hx⟩
    | error msg =>
      exact ⟨.error (.error ("failed to parse bazel command line: ".toList ++ msg)),
        fun post => by rw [hunfold post, hrun], fun x hx => by cases hx⟩

theorem makeError_nil (n : Int) (msg : Str) : makeError [] n msg false = .panic := by
  simp [makeError]

theorem parseTokenizedArgs_singleton (env : Env) (p : BazelRcParser) (S : List Str) (n : Int)
    (t : Str) (st : TokenState) :
    parseTokenizedArgsOnSingleLineAfterCommand env p S n [t] st =
      match parseToken env p t true st S n with
      | (st1, .error err) => (st1, .error err)
      | (st1, .ok (true, _)) => (st1, .ok true)
      | (st1, .ok (false, _)) => (st1, .ok false) := by
  rw [parseTokenizedArgsOnSingleLineAfterCommand]
  simp only [List.isEmpty_nil]
  rcases parseToken env p t true st S n with ⟨st1, _ | ⟨c, r⟩⟩
  · rfl
  · cases c <;> cases r <;> simp [parseTokenizedArgsOnSingleLineAfterCommand]

theorem lineLoop_marker_eof (env : Env) (p : BazelRcParser) (S : List Str)
    (recurse : List Str → LineVars → Option (LineVars × Option Failure))
    (tok : TokenState) (n : Nat) :
    lineLoop env p S recurse [continuationMarker] ⟨tok, n, []⟩ =
      some (⟨tok, n + 1, []⟩, none) := by
  rw [lineLoop_cons_eq]
  simp only [List.isEmpty_nil, parseToken_marker, if_true]

/-- The line driver on the last line of a file, with tokens `ts` followed by the
continuation marker: when `ts` are classified without error the driver succeeds; and when
`ts` hold no `--` it leaves the state that `ts` leave. -/
theorem lineLoop_last_line_open (env : Env) (p : BazelRcParser) (S : List Str)
    (recurse : List Str → LineVars → Option (LineVars × Option Failure))
    (ts : List Str) (tok st : TokenState) (n : Nat)
    (hts : prefixRun env p S n ts tok = (st, none)) :
    ∃ w, lineLoop env p S recurse (ts ++ [continuationMarker]) ⟨tok, n, []⟩ = some (w, none) ∧
      w.rest = [] ∧
      ((∀ t ∈ ts, t ≠ ['-', '-']) → w.tok = st) := by
  induction ts generalizing tok with
  | nil =>
    simp only [prefixRun, Prod.mk.injEq, and_true] at hts
    subst hts
    exact ⟨_, lineLoop_marker_eof env p S recurse tok n, rfl, fun _ => rfl⟩
  | cons t ts ih =>
    have hne : (ts ++ [continuationMarker]).isEmpty = false := by
      cases ts <;> simp
    rcases hpt : parseToken env p t false tok S n with ⟨st1, res⟩
    rw [prefixRun, hpt] at hts
    cases res with
    | error err => simp at hts
    | ok sig =>
      simp only at hts
      obtain ⟨c, r⟩ := sig
      have hs := parseToken_signal env p t false tok st1 S _ c r hpt
      have hc : c = false := by
        cases c with
        | false => rfl
        | true => simpa using (hs.1 rfl).1
      subst hc
      rw [List.cons_append, lineLoop_cons_eq, hne]
      simp only [hpt, Bool.false_eq_true, if_false]
      cases r with
      | true =>
        refine ⟨_, rfl, rfl, fun hsep => ?_⟩
        exact absurd (hs.2 rfl) (hsep t (List.mem_cons_self _ _))
      | false =>
        obtain ⟨w, h1, h2, h4⟩ := ih st1 hts
        simp only [Bool.false_eq_true, if_false]
        exact ⟨w, h1, h2, fun hsep => h4 (fun x hx => hsep x (List.mem_cons_of_mem _ hx))⟩

theorem replaceAllAux_skip (old new : Str) (a s : Str) :
    replaceAllAux old new a.length (a ++ s) = replaceAllAux old new 0 s := by
  induction a with
  | nil => rfl
  | cons c cs ih =>
    rw [List.length_cons, List.cons_append, replaceAllAux]
    exact ih

/-- An occurrence of `old` at the head is replaced by `new`, and the text after it is dealt
with in the same way. -/
theorem replaceAll_prefix (old new s : Str) (hold : old ≠ []) :
    replaceAll (old ++ s) old new = new ++ replaceAll s old new := by
  obtain ⟨c, cs, rfl⟩ := List.exists_cons_of_ne_nil hold
  have hp : (c :: cs).isPrefixOf (c :: (cs ++ s)) = true :=
    List.isPrefixOf_iff_prefix.2 (List.prefix_append (c :: cs) s)
  rw [replaceAll, List.cons_append, replaceAllAux, if_pos hp]
  simp only [List.length_cons, Nat.add_sub_cancel]
  rw [replaceAllAux_skip]
  rfl

/-- A character at which no occurrence of `old` begins is kept. -/
theorem replaceAll_cons (old new : Str) (c : Char) (s : Str)
    (h : old.isPrefixOf (c :: s) = false) :
    replaceAll (c :: s) old new = c :: replaceAll s old new := by
  rw [replaceAll, replaceAllAux, h]
  rfl

theorem replaceAll_of_not_contains (old new s : Str) (h : strContains s old = false) :
    replaceAll s old new = s := by
  induction s with
  | nil => rfl
  | cons c cs ih =>
    simp only [strContains, Bool.or_eq_false_iff] at h
    rw [replaceAll_cons old new c cs h.1, ih h.2]

/-- The first occurrence of `old`: when none begins in the text `a` before it, `a` is kept,
the occurrence is replaced by `new`, and the text after it is dealt with in the same way. -/
theorem replaceAll_first_occurrence (old new a b : Str) (hold : old ≠ [])
    (h : strContains (a ++ old.dropLast) old = false) :
    replaceAll (a ++ old ++ b) old new = a ++ new ++ replaceAll b old new := by
  induction a with
  | nil => simpa using replaceAll_prefix old new b hold
  | cons c cs ih =>
    have h0 : strContains (c :: (cs ++ old.dropLast)) old = false := h
    rw [strContains, Bool.or_eq_false_iff] at h0
    have hsplit : c :: (cs ++ old ++ b) = (c :: (cs ++ old.dropLast)) ++
        ([old.getLast hold] ++ b) := by
      conv_lhs => rw [← List.dropLast_append_getLast hold]
      simp
    have hnot : old.isPrefixOf (c :: (cs ++ old ++ b)) = false := by
      cases hp : old.isPrefixOf (c :: (cs ++ old ++ b)) with
      | false => rfl
      | true =>
        have h1 : old <+: c :: (cs ++ old ++ b) := List.isPrefixOf_iff_prefix.1 hp
        have h2 : (c :: (cs ++ old.dropLast)) <+: c :: (cs ++ old ++ b) := by
          rw [hsplit]
          exact List.prefix_append _ _
        have hlen : old.length ≤ (c :: (cs ++ old.dropLast)).length := by
          simp only [List.length_cons, List.length_append, List.length_dropLast]
          have : 0 < old.length := List.length_pos.2 hold
          omega
        have h3 := List.prefix_of_prefix_length_le h1 h2 hlen
        rw [List.isPrefixOf_iff_prefix.2 h3] at h0
        exact absurd h0.1 (by decide)
    rw [List.cons_append, List.cons_append, replaceAll_cons old new c _ hnot, ih h0.2]
    simp

theorem meetsNoSeparator_of_not_mem (env : Env) (p : BazelRcParser) (S : List Str) (n : Int)
    (ts : List Str) (st : TokenState) (hsep : ∀ t ∈ ts, t ≠ ['-', '-']) :
    meetsNoSeparator env p S n ts st = true := by
  induction ts generalizing st with
  | nil => rfl
  | cons t ts ih =>
    rw [meetsNoSeparator]
    rcases hpt : parseToken env p t false st S n with ⟨st1, _ | ⟨c, r⟩⟩
    · rfl
    · have hs := parseToken_signal env p t false st st1 S _ c r hpt
      have hr : r = false := by
        cases r with
        | false => rfl
        | true => exact absurd (hs.2 rfl) (hsep t (List.mem_cons_self _ _))
      subst hr
      simpa using ih st1 (fun x hx => hsep x (List.mem_cons_of_mem _ hx))

/-- The single-line driver on tokens `ts` none of which it classifies as the separator,
followed by further tokens: it first runs over `ts`, none of which is last. -/
theorem parseTokenizedArgs_append_run (env : Env) (p : BazelRcParser) (S : List Str) (n : Int)
    (ts tail : List Str) (htail : tail ≠ []) (st : TokenState)
    (hsep : meetsNoSeparator env p S n ts st = true) :
    parseTokenizedArgsOnSingleLineAfterCommand env p S n (ts ++ tail) st =
      match prefixRun env p S n ts st with
      | (st1, some err) => (st1, .error err)
      | (st1, none) => parseTokenizedArgsOnSingleLineAfterCommand env p S n tail st1 := by
  induction ts generalizing st with
  | nil => simp [prefixRun]
  | cons t ts ih =>
    have hne : (ts ++ tail).isEmpty = false := by
      cases ts <;> cases tail <;> simp_all
    rw [meetsNoSeparator] at hsep
    rw [List.cons_append, parseTokenizedArgsOnSingleLineAfterCommand, hne]
    rcases hpt : parseToken env p t false st S n with ⟨st1, res⟩
    rw [hpt] at hsep
    cases res with
    | error err => simp [prefixRun, hpt]
    | ok sig =>
      obtain ⟨c, r⟩ := sig
      have hs := parseToken_signal env p t false st st1 S _ c r hpt
      have hc : c = false := by
        cases c with
        | false => rfl
        | true => simpa using (hs.1 rfl).1
      simp only [Bool.and_eq_true, Bool.not_eq_true'] at hsep
      obtain ⟨hr, hrest⟩ := hsep
      subst hc hr
      simp [prefixRun, hpt, ih st1 hrest]

/-! ## Control flow and errors do not depend on the values recorded so far -/

/-- With no flag pending, a token that begins with one dash only is handed to
`parseAsAbbreviatedFlag`. -/
theorem parseToken_single_dash (env : Env) (p : BazelRcParser) (t : Str) (isLast : Bool)
    (st : TokenState) (stack : List Str) (n : Int) (hp : st.pending = none)
    (h1 : hasPrefix t ['-'] = true) (h2 : hasPrefix t ['-', '-'] = false) :
    parseToken env p t isLast st stack n =
      match parseAsAbbreviatedFlag env p t with
      | .error err => (st, .error (.error err))
      | .ok (fullFlagName, value, fullFlagNameWithLeadingDashes) =>
        if fullFlagNameWithLeadingDashes != [] then
          ({ st with pending := some fullFlagNameWithLeadingDashes }, .ok (false, false))
        else
          ({ st with entries := appendValue st.entries fullFlagName value },
            .ok (false, false)) := by
  have hm : (isLast && t == continuationMarker) = false := by
    cases isLast with
    | false => rfl
    | true =>
      have : t ≠ continuationMarker := by
        intro h
        rw [h] at h1
        exact absurd h1 (by decide)
      simpa using this
  have hsep : (t == ['-', '-']) = false := by
    have : t ≠ ['-', '-'] := by
      intro h
      rw [h] at h2
      exact absurd h2 (by decide)
    simpa using this
  simp only [parseToken, hm, hp, parseTokenNoPending, h1, h2, hsep, Bool.not_true,
    Bool.not_false, Bool.false_eq_true, if_false, if_true]

theorem parseAsAbbreviatedFlag_rejects (env : Env) (p : BazelRcParser) (t : Str)
    (h1 : hasPrefix t ['-'] = true) (hacc : acceptedAbbreviation p t = false) :
    ∃ msg, parseAsAbbreviatedFlag env p t = .error msg := by
  match t, h1, hacc with
  | [], h1, _ => exact absurd h1 (by decide)
  | [_], _, _ => simp [parseAsAbbreviatedFlag]
  | d :: c :: r, h1, hacc =>
    have hd : d = '-' := by
      have := h1
      simp only [hasPrefix, List.isPrefixOf, Bool.and_true, beq_iff_eq] at this
      exact this.symm
    subst hd
    unfold parseAsAbbreviatedFlag
    have hlen : ¬ (('-' :: c :: r).length < 2) := by simp
    simp only [if_neg hlen, List.drop_succ_cons, List.drop_zero, List.take_succ_cons,
      List.take_zero]
    cases hab : p.knownFlagData.FlagAbbreviations [c] with
    | none => exact ⟨_, rfl⟩
    | some full =>
      simp only
      cases hb : lookupBool p.knownFlagData.BooleanFlags full with
      | true =>
        simp only [if_true]
        match r, hacc with
        | [], hacc => simp [acceptedAbbreviation, hab] at hacc
        | [e], hacc =>
          by_cases he : e = '-'
          · subst he
            simp [acceptedAbbreviation, hab, hb] at hacc
          · simp [he]
        | _ :: _ :: _, _ => simp
      | false =>
        simp only [Bool.false_eq_true, if_false]
        match r, hacc with
        | [], hacc => simp [acceptedAbbreviation, hab] at hacc
        | _ :: _, _ => simp

theorem acceptedAbbreviation_cases (p : BazelRcParser) (t : Str)
    (h : acceptedAbbreviation p t = true) :
    (∃ c full, t = ['-', c] ∧ p.knownFlagData.FlagAbbreviations [c] = some full) ∨
    (∃ c full, t = ['-', c, '-'] ∧ p.knownFlagData.FlagAbbreviations [c] = some full ∧
      lookupBool p.knownFlagData.BooleanFlags full = true) := by
  unfold acceptedAbbreviation at h
  split at h
  · rename_i c
    cases hab : p.knownFlagData.FlagAbbreviations [c] with
    | none => simp [hab] at h
    | some full => exact Or.inl ⟨c, full, rfl, hab⟩
  · rename_i c
    cases hab : p.knownFlagData.FlagAbbreviations [c] with
    | none => simp [hab] at h
    | some full =>
      rw [hab] at h
      exact Or.inr ⟨c, full, rfl, hab, h⟩
  · exact absurd h (by decide)

/-! ## What enters the target accumulator -/

/-- What a successful call of `parseTokenNoPending` adds to the target accumulator: `--`
when it signals that the rest of the line holds targets; and otherwise nothing, or the
token itself, which then does not begin with a dash. -/
theorem parseTokenNoPending_targets_signal (env : Env) (p : BazelRcParser) (t : Str)
    (b : Bool) (st st1 : TokenState) (S : List Str) (n : Int) (c r : Bool)
    (h : parseTokenNoPending env p t b st S n = (st1, .ok (c, r))) :
    (r = true → st1.targets = st.targets ++ [['-', '-']]) ∧
    (r = false → ∃ added, st1.targets = st.targets ++ added ∧ added.Sublist [t] ∧
      ∀ x ∈ added, hasPrefix x ['-'] = false) := by
  have hnil : ∀ s : TokenState, s.targets = st.targets →
      ∃ added : List Str, s.targets = st.targets ++ added ∧ added.Sublist [t] ∧
        ∀ x ∈ added, hasPrefix x ['-'] = false :=
    fun s hs => ⟨[], by simp [hs], List.nil_sublist _, by simp⟩
  unfold parseTokenNoPending at h
  by_cases h1 : hasPrefix t ['-'] = true
  · by_cases h2 : (t == ['-', '-']) = true
    · simp only [h1, h2, Bool.not_true, Bool.false_eq_true, if_false, if_true, Prod.mk.injEq,
        Except.ok.injEq] at h
      obtain ⟨rfl, _, rfl⟩ := h
      exact ⟨fun _ => by simp at h2; simp [h2], fun hr => absurd hr (by decide)⟩
    · simp only [h1, h2, Bool.not_true, Bool.false_eq_true, if_false] at h
      split_ifs at h
      · split at h
        · simp at h
        · split_ifs at h <;>
          · simp only [Prod.mk.injEq, Except.ok.injEq] at h
            obtain ⟨rfl, _, rfl⟩ := h
            exact ⟨fun hr => absurd hr (by decide), fun _ => hnil _ rfl⟩
      · simp only [Prod.mk.injEq, Except.ok.injEq] at h
        obtain ⟨rfl, _, rfl⟩ := h
        exact ⟨fun hr => absurd hr (by decide), fun _ => hnil _ rfl⟩
      · split at h <;>
        · simp only [Prod.mk.injEq, Except.ok.injEq, reduceCtorEq, and_false] at h
          try
            obtain ⟨rfl, _, rfl⟩ := h
            exact ⟨fun hr => absurd hr (by decide), fun _ => hnil _ rfl⟩
      · simp only [Prod.mk.injEq, Except.ok.injEq] at h
        obtain ⟨rfl, _, rfl⟩ := h
        exact ⟨fun hr => absurd hr (by decide), fun _ => hnil _ rfl⟩
  · simp only [h1, Bool.not_false, if_true, Prod.mk.injEq, Except.ok.injEq] at h
    obtain ⟨rfl, _, rfl⟩ := h
    refine ⟨fun hr => absurd hr (by decide), fun _ => ⟨[t], rfl, List.Sublist.refl _, ?_⟩⟩
    intro x hx
    rw [List.mem_singleton] at hx
    rw [hx]
    simpa using h1

theorem parseToken_targets_signal (env : Env) (p : BazelRcParser) (t : Str)
    (b : Bool) (st st1 : TokenState) (S : List Str) (n : Int) (c r : Bool)
    (h : parseToken env p t b st S n = (st1, .ok (c, r))) :
    (r = true → st1.targets = st.targets ++ [['-', '-']]) ∧
    (r = false → ∃ added, st1.targets = st.targets ++ added ∧ added.Sublist [t] ∧
      ∀ x ∈ added, hasPrefix x ['-'] = false) := by
  have hnil : ∀ s : TokenState, s.targets = st.targets →
      ∃ added : List Str, s.targets = st.targets ++ added ∧ added.Sublist [t] ∧
        ∀ x ∈ added, hasPrefix x ['-'] = false :=
    fun s hs => ⟨[], by simp [hs], List.nil_sublist _, by simp⟩
  unfold parseToken at h
  split_ifs at h with hm
  · simp only [Prod.mk.injEq, Except.ok.injEq] at h
    obtain ⟨rfl, _, rfl⟩ := h
    exact ⟨fun hr => absurd hr (by decide), fun _ => hnil _ rfl⟩
  · split at h
    · rename_i flag hflag
      dsimp only at h
      split_ifs at h with hk
      · split at h
        · simp at h
        · rename_i entries herr
          exact parseTokenNoPending_targets_signal env p t b
            { st with entries := entries, pending := none } st1 S n c r h
      · simp only [Prod.mk.injEq, Except.ok.injEq] at h
        obtain ⟨rfl, _, rfl⟩ := h
        exact ⟨fun hr => absurd hr (by decide), fun _ => hnil _ rfl⟩
    · exact parseTokenNoPending_targets_signal env p t b st st1 S n c r h

/-- The target accumulator after a successful run of the single-line driver: the targets it
had, then tokens of the line that do not begin with a dash, in their order, and then either
nothing more or `--` followed by tokens of the line. -/
theorem parseTokenizedArgs_targets_shape (env : Env) (p : BazelRcParser) (S : List Str)
    (n : Int) (tokens : List Str) (st st1 : TokenState) (cont : Bool)
    (h : parseTokenizedArgsOnSingleLineAfterCommand env p S n tokens st = (st1, .ok cont)) :
    ∃ a b, st1.targets = st.targets ++ a ++ b ∧ a.Sublist tokens ∧
      (∀ x ∈ a, hasPrefix x ['-'] = false) ∧ (b = [] ∨ ∃ post, b = ['-', '-'] :: post) := by
  induction tokens generalizing st with
  | nil =>
    simp only [parseTokenizedArgsOnSingleLineAfterCommand, Prod.mk.injEq] at h
    obtain ⟨rfl, _⟩ := h
    exact ⟨[], [], by simp, List.Sublist.refl _, by simp, Or.inl rfl⟩
  | cons t ts ih =>
    rw [parseTokenizedArgsOnSingleLineAfterCommand] at h
    rcases hpt : parseToken env p t ts.isEmpty st S n with ⟨st2, res⟩
    rw [hpt] at h
    cases res with
    | error err => simp at h
    | ok sig =>
      obtain ⟨c, r⟩ := sig
      obtain ⟨hsep, hadd⟩ := parseToken_targets_signal env p t ts.isEmpty st st2 S n c r hpt
      simp only at h
      cases c with
      | true =>
        simp only [if_true, Prod.mk.injEq] at h
        obtain ⟨rfl, _⟩ := h
        cases r with
        | true =>
          exact ⟨[], [['-', '-']], by simp [hsep rfl], List.nil_sublist _, by simp,
            Or.inr ⟨[], rfl⟩⟩
        | false =>
          obtain ⟨added, h1, h2, h3⟩ := hadd rfl
          exact ⟨added, [], by simp [h1], h2.trans (by simp), h3, Or.inl rfl⟩
      | false =>
        simp only [Bool.false_eq_true, if_false] at h
        cases r with
        | true =>
          simp only [if_true, Prod.mk.injEq] at h
          obtain ⟨rfl, _⟩ := h
          exact ⟨[], ['-', '-'] :: ts, by simp [hsep rfl], List.nil_sublist _, by simp,
            Or.inr ⟨ts, rfl⟩⟩
        | false =>
          simp only [Bool.false_eq_true, if_false] at h
          obtain ⟨added, h1, h2, h3⟩ := hadd rfl
          obtain ⟨a, b, k1, k2, k3, k4⟩ := ih st2 h
          refine ⟨added ++ a, b, by simp [k1, h1], List.Sublist.append h2 k2, ?_, k4⟩
          intro x hx
          rcases List.mem_append.1 hx with hx | hx
          · exact h3 x hx
          · exact k3 x hx

/-! ## The recorded values only grow -/

theorem appended_refl (m : BazelFlagValues) : Appended m m := ⟨[], rfl⟩

theorem appended_step (m : BazelFlagValues) (k v : Str) : Appended m (appendValue m k v) :=
  ⟨[(k, v)], rfl⟩

theorem appended_trans {m m1 m2 : BazelFlagValues} (h1 : Appended m m1)
    (h2 : Appended m1 m2) : Appended m m2 := by
  obtain ⟨s1, rfl⟩ := h1
  obtain ⟨s2, rfl⟩ := h2
  exact ⟨s1 ++ s2, by simp [appendAll, List.foldl_append]⟩

/-- Appending values keeps every key, and the list of a key is a prefix of its new list. -/
theorem appended_prefix {m m1 : BazelFlagValues} (h : Appended m m1) (k : Str)
    (vs : List Str) (hk : m k = some vs) : ∃ extra, m1 k = some (vs ++ extra) := by
  obtain ⟨steps, rfl⟩ := h
  induction steps generalizing m vs with
  | nil => exact ⟨[], by simp [appendAll, hk]⟩
  | cons s steps ih =>
    by_cases hs : k = s.1
    · have h1 : appendValue m s.1 s.2 k = some (vs ++ [s.2]) := by
        subst hs
        simp only [appendValue, if_true, hk, Option.getD_some]
      obtain ⟨extra, he⟩ := ih (vs ++ [s.2]) h1
      exact ⟨s.2 :: extra, by simpa [appendAll] using he⟩
    · have h1 : appendValue m s.1 s.2 k = some vs := by
        simp only [appendValue, hs, if_false, hk]
      obtain ⟨extra, he⟩ := ih vs h1
      exact ⟨extra, by simpa [appendAll] using he⟩

/-- Appending values to a map whose lists are not empty gives a map whose lists are not
empty. -/
theorem appended_nonempty {m m1 : BazelFlagValues} (h : Appended m m1)
    (hm : ∀ k vs, m k = some vs → vs ≠ []) : ∀ k vs, m1 k = some vs → vs ≠ [] := by
  obtain ⟨steps, rfl⟩ := h
  induction steps generalizing m with
  | nil => exact hm
  | cons s steps ih =>
    apply ih
    intro k vs hk
    by_cases hs : k = s.1
    · simp only [appendValue, hs, if_true, Option.some.injEq] at hk
      rw [← hk]
      simp
    · simp only [appendValue, hs, if_false] at hk
      exact hm k vs hk

theorem contentsAppended_refl (c : BazelrcContents) : ContentsAppended c c :=
  fun _ => ⟨fun h => h, appended_refl _⟩

theorem contentsAppended_trans {c c1 c2 : BazelrcContents} (h1 : ContentsAppended c c1)
    (h2 : ContentsAppended c1 c2) : ContentsAppended c c2 :=
  fun cmd => ⟨fun h => (h2 cmd).1 ((h1 cmd).1 h), appended_trans (h1 cmd).2 (h2 cmd).2⟩

theorem contentsAppended_set (c : BazelrcContents) (cmd : Str) (m : BazelFlagValues)
    (h : Appended ((c.entries cmd).getD emptyFlagValues) m) :
    ContentsAppended c (c.set cmd m) := by
  intro k
  by_cases hk : k = cmd
  · subst hk
    exact ⟨fun _ => by simp [BazelrcContents.set], by simpa [BazelrcContents.set] using h⟩
  · exact ⟨fun h1 => by simpa [BazelrcContents.set, hk] using h1,
      by simpa [BazelrcContents.set, hk] using appended_refl _⟩

/-- Every list of the contents `c` is a prefix of the list that `c1` holds for the same
sub-command and flag. -/
theorem contentsAppended_values {c c1 : BazelrcContents} (h : ContentsAppended c c1)
    (cmd k : Str) (vs : List Str) (hk : c.values cmd k = some vs) :
    ∃ extra, c1.values cmd k = some (vs ++ extra) := by
  unfold BazelrcContents.values at hk ⊢
  cases hc : c.entries cmd with
  | none => simp [hc] at hk
  | some m =>
    rw [hc] at hk
    obtain ⟨h1, h2⟩ := h cmd
    cases hc1 : c1.entries cmd with
    | none => exact absurd hc1 (h1 (by simp [hc]))
    | some m1 =>
      rw [hc, hc1] at h2
      exact appended_prefix h2 k vs (by simpa using hk)

theorem handleBooleanFlag_appended (p : BazelRcParser) (flag : Str) (m : BazelFlagValues)
    (S : List Str) (n : Int) : Appended m (handleBooleanFlag p flag m S n).1 := by
  unfold handleBooleanFlag
  dsimp only
  split_ifs
  · exact appended_refl m
  · exact appended_step m _ _
  · exact appended_refl m
  · exact appended_step m _ _

theorem parseTokenNoPending_appended (env : Env) (p : BazelRcParser) (t : Str) (b : Bool)
    (st : TokenState) (S : List Str) (n : Int) :
    Appended st.entries (parseTokenNoPending env p t b st S n).1.entries := by
  unfold parseTokenNoPending
  split_ifs
  · exact appended_refl _
  · exact appended_refl _
  · split
    · exact appended_refl _
    · split_ifs
      · exact appended_refl _
      · exact appended_step _ _ _
  · exact appended_step _ _ _
  · have h := handleBooleanFlag_appended p t st.entries S n
    rcases hh : handleBooleanFlag p t st.entries S n with ⟨entries, _ | err⟩ <;>
      simpa [hh] using h
  · exact appended_refl _

/-- The accumulator after `parseToken`, whether the call succeeds or fails, comes from the
accumulator before it by appending values. -/
theorem parseToken_appended (env : Env) (p : BazelRcParser) (t : Str) (b : Bool)
    (st : TokenState) (S : List Str) (n : Int) :
    Appended st.entries (parseToken env p t b st S n).1.entries := by
  unfold parseToken
  split_ifs
  · exact appended_refl _
  · split
    · rename_i flag hflag
      dsimp only
      split_ifs
      · have h := handleBooleanFlag_appended p flag st.entries S n
        rcases hh : handleBooleanFlag p flag st.entries S n with ⟨entries, _ | err⟩
        · rw [hh] at h
          exact appended_trans h (parseTokenNoPending_appended env p t b
            { st with entries := entries, pending := none } S n)
        · simpa [hh] using h
      · exact appended_step _ _ _
    · exact parseTokenNoPending_appended env p t b st S n

theorem parseTokenizedArgs_appended (env : Env) (p : BazelRcParser) (S : List Str) (n : Int)
    (tokens : List Str) (st : TokenState) :
    Appended st.entries
      (parseTokenizedArgsOnSingleLineAfterCommand env p S n tokens st).1.entries := by
  induction tokens generalizing st with
  | nil => exact appended_refl _
  | cons t ts ih =>
    rw [parseTokenizedArgsOnSingleLineAfterCommand]
    have h := parseToken_appended env p t ts.isEmpty st S n
    rcases hpt : parseToken env p t ts.isEmpty st S n with ⟨st1, res⟩
    rw [hpt] at h
    cases res with
    | error err => exact h
    | ok sig =>
      obtain ⟨c, r⟩ := sig
      cases c with
      | true => exact h
      | false =>
        cases r with
        | true => exact h
        | false => exact appended_trans h (ih st1)

theorem lineLoop_appended (env : Env) (p : BazelRcParser) (S : List Str)
    (recurse : List Str → LineVars → Option (LineVars × Option Failure))
    (hrec : AppendingRuns recurse) : AppendingRuns (lineLoop env p S recurse) := by
  intro toks
  induction toks with
  | nil =>
    intro v w e h
    rw [lineLoop] at h
    simp only [Option.some.injEq, Prod.mk.injEq] at h
    obtain ⟨rfl, _⟩ := h
    exact appended_refl _
  | cons t ts ih =>
    intro v w e h
    rw [lineLoop_cons_eq] at h
    have hpt := parseToken_appended env p t ts.isEmpty v.tok S v.zeroBaseLineNumber
    rcases hres : parseToken env p t ts.isEmpty v.tok S v.zeroBaseLineNumber with ⟨tok, res⟩
    rw [hres] at h hpt
    simp only at hpt
    cases res with
    | error err =>
      simp only [Option.some.injEq, Prod.mk.injEq] at h
      obtain ⟨rfl, _⟩ := h
      exact hpt
    | ok sig =>
      obtain ⟨c, r⟩ := sig
      simp only at h
      cases c with
      | true =>
        simp only [if_true] at h
        cases hrest : v.rest with
        | nil =>
          rw [hrest] at h
          simp only [Option.some.injEq, Prod.mk.injEq] at h
          obtain ⟨rfl, _⟩ := h
          exact hpt
        | cons line rest =>
          rw [hrest] at h
          simp only at h
          cases htk : tokenizeLine env line S ((v.zeroBaseLineNumber + 1 : Nat) : Int) with
          | error err =>
            rw [htk] at h
            simp only [Option.some.injEq, Prod.mk.injEq] at h
            obtain ⟨rfl, _⟩ := h
            exact hpt
          | ok next =>
            rw [htk] at h
            simp only at h
            rcases hrun : recurse next ⟨tok, v.zeroBaseLineNumber + 1, rest⟩
              with _ | ⟨v2, e2⟩
            · simp [hrun] at h
            · have h2 := hrec next _ v2 e2 hrun
              simp only at h2
              rw [hrun] at h
              cases e2 with
              | some err =>
                simp only [Option.some.injEq, Prod.mk.injEq] at h
                obtain ⟨rfl, _⟩ := h
                exact appended_trans hpt h2
              | none =>
                simp only at h
                cases r with
                | true =>
                  simp only [if_true, Option.some.injEq, Prod.mk.injEq] at h
                  obtain ⟨rfl, _⟩ := h
                  exact appended_trans hpt h2
                | false =>
                  simp only [Bool.false_eq_true, if_false] at h
                  exact appended_trans (appended_trans hpt h2) (ih v2 w e h)
      | false =>
        simp only [Bool.false_eq_true, if_false] at h
        cases r with
        | true =>
          simp only [if_true, Option.some.injEq, Prod.mk.injEq] at h
          obtain ⟨rfl, _⟩ := h
          exact hpt
        | false =>
          simp only [Bool.false_eq_true, if_false] at h
          exact appended_trans hpt (ih { v with tok := tok } w e h)

theorem parseLine_appended (env : Env) (p : BazelRcParser) (S : List Str) (f : Nat) :
    AppendingRuns (parseLineWithoutCommandPrefix env p S f) := by
  induction f with
  | zero =>
    intro toks v w e h
    simp [parseLineWithoutCommandPrefix] at h
  | succ f ih =>
    intro toks v w e h
    rw [parseLine_succ] at h
    exact lineLoop_appended env p S _ ih toks v w e h

/-- The contents at the exit of the file loop, and those `parseFileInternal` returns, with or
without an error, come from the contents at the start by appending values. -/
theorem parse_appended_all (env : Env) (p : BazelRcParser) (f : Nat) :
    (∀ (S lines : List Str) (n : Nat) (v w : FileVars) (e : Option Failure),
      fileLoop env p f S lines n v = some (w, e) → ContentsAppended v.out w.out) ∧
    (∀ (S : List Str) (out : BazelrcContents) (file : Except Str Str)
      (c : BazelrcContents) (e : Option Failure),
      parseFileInternal env p f out file S = some (c, e) → ContentsAppended out c) := by
  induction f with
  | zero =>
    constructor
    · intro S lines n v w e h
      simp [fileLoop] at h
    · intro S out file c e h
      simp [parseFileInternal] at h
  | succ f ih =>
    obtain ⟨ihLoop, ihImport⟩ := ih
    constructor
    · intro S lines n v w e h
      cases lines with
      | nil =>
        rw [fileLoop_nil] at h
        simp only [Option.some.injEq, Prod.mk.injEq] at h
        obtain ⟨rfl, rfl⟩ := h
        exact contentsAppended_refl _
      | cons line rest =>
        rw [fileLoop_succ_cons] at h
        by_cases hcomment : (hasPrefix line ['#'] || line == []) = true
        · rw [if_pos hcomment] at h
          exact ihLoop S rest (n + 1) v w e h
        rw [if_neg hcomment] at h
        cases htk : tokenizeLine env line S (n : Int) with
        | error err =>
          rw [htk] at h
          simp only [Option.some.injEq, Prod.mk.injEq] at h
          obtain ⟨rfl, rfl⟩ := h
          exact contentsAppended_refl _
        | ok tokens =>
          rw [htk] at h
          cases tokens with
          | nil =>
            simp only at h
            exact ihLoop S rest (n + 1) v w e h
          | cons cmd args =>
            simp only at h
            by_cases hcmd : (cmd == importToken || cmd == tryImportToken) = true
            · rw [if_pos hcmd] at h
              match args, h with
              | [], h =>
                simp only [Option.some.injEq, Prod.mk.injEq] at h
                obtain ⟨rfl, rfl⟩ := h
                exact contentsAppended_refl _
              | _ :: _ :: _, h =>
                simp only [Option.some.injEq, Prod.mk.injEq] at h
                obtain ⟨rfl, rfl⟩ := h
                exact contentsAppended_refl _
              | [pathToken], h =>
                simp only at h
                by_cases hcyc : S.contains
                    (replaceAll pathToken workspacePlaceholder p.workspaceDirectory) = true
                · rw [if_pos hcyc] at h
                  simp only [Option.some.injEq, Prod.mk.injEq] at h
                  obtain ⟨rfl, rfl⟩ := h
                  exact contentsAppended_refl _
                rw [if_neg hcyc] at h
                cases hopenFile : env.osOpen
                    (replaceAll pathToken workspacePlaceholder p.workspaceDirectory) with
                | error err =>
                  rw [hopenFile] at h
                  simp only at h
                  by_cases himp : (cmd == importToken) = true
                  · rw [if_pos himp] at h
                    simp only [Option.some.injEq, Prod.mk.injEq] at h
                    obtain ⟨rfl, rfl⟩ := h
                    exact contentsAppended_refl _
                  · rw [if_neg himp] at h
                    exact ihLoop S rest (n + 1) v w e h
                | ok file =>
                  rw [hopenFile] at h
                  simp only at h
                  rcases himport : parseFileInternal env p f v.out file
                      (S ++ [replaceAll pathToken workspacePlaceholder p.workspaceDirectory])
                    with _ | ⟨out, e1⟩
                  · simp [himport] at h
                  · have hout := ihImport _ v.out file out e1 himport
                    rw [himport] at h
                    cases e1 with
                    | none =>
                      simp only at h
                      exact contentsAppended_trans hout
                        (ihLoop S rest (n + 1) { v with out := out } w e h)
                    | some err =>
                      cases err with
                      | panic =>
                        simp only [Option.some.injEq, Prod.mk.injEq] at h
                        obtain ⟨rfl, rfl⟩ := h
                        exact hout
                      | error msg =>
                        simp only at h
                        by_cases hmsg : strContains msg importCycleErrorMessage = true
                        · rw [if_pos hmsg] at h
                          simp only [Option.some.injEq, Prod.mk.injEq] at h
                          obtain ⟨rfl, rfl⟩ := h
                          exact hout
                        · rw [if_neg hmsg] at h
                          simp only [Option.some.injEq, Prod.mk.injEq] at h
                          obtain ⟨rfl, rfl⟩ := h
                          exact hout
            · rw [if_neg hcmd] at h
              cases args with
              | nil =>
                simp only at h
                exact ihLoop S rest (n + 1) v w e h
              | cons arg args =>
                simp only at h
                rcases hline : parseLineWithoutCommandPrefix env p S f (arg :: args)
                    { tok := ⟨(v.out.entries cmd).getD emptyFlagValues, [], v.pending⟩,
                      zeroBaseLineNumber := n, rest := rest } with _ | ⟨u, e1⟩
                · simp [hline] at h
                · have hu := parseLine_appended env p S f (arg :: args) _ u e1 hline
                  simp only at hu
                  have hset := contentsAppended_set v.out cmd u.tok.entries hu
                  rw [hline] at h
                  cases e1 with
                  | some err =>
                    simp only [Option.some.injEq, Prod.mk.injEq] at h
                    obtain ⟨rfl, rfl⟩ := h
                    exact hset
                  | none =>
                    simp only at h
                    exact contentsAppended_trans hset
                      (ihLoop S u.rest (u.zeroBaseLineNumber + 1) _ w e h)
    · intro S out file c e h
      rw [parseFileInternal_succ] at h
      cases file with
      | error err =>
        simp only [Option.some.injEq, Prod.mk.injEq] at h
        obtain ⟨rfl, rfl⟩ := h
        exact contentsAppended_refl _
      | ok byteValue =>
        simp only at h
        rcases hloop : fileLoop env p f S (splitLines byteValue) 0 ⟨out, none⟩
          with _ | ⟨w, e1⟩
        · simp [hloop] at h
        · rw [hloop] at h
          simp only [Option.some.injEq, Prod.mk.injEq] at h
          obtain ⟨rfl, rfl⟩ := h
          exact ihLoop S _ 0 ⟨out, none⟩ w e1 hloop

theorem contentsAppended_nonempty {c c1 : BazelrcContents} (h : ContentsAppended c c1)
    (hc : ∀ cmd m k vs, c.entries cmd = some m → m k = some vs → vs ≠ []) :
    ∀ cmd m k vs, c1.entries cmd = some m → m k = some vs → vs ≠ [] := by
  intro cmd m k vs hm hk
  have h2 := (h cmd).2
  rw [hm, Option.getD_some] at h2
  refine appended_nonempty h2 ?_ k vs hk
  intro k0 vs0 hk0
  cases hcm : c.entries cmd with
  | none =>
    rw [hcm] at hk0
    simp [emptyFlagValues] at hk0
  | some m0 =>
    rw [hcm, Option.getD_some] at hk0
    exact hc cmd m0 k0 vs0 hcm hk0

theorem flagValue_defined (m : BazelFlagValues) (k : Str)
    (h : ∀ vs, m k = some vs → vs ≠ []) : ∃ v, m.FlagValue k = .ok v := by
  unfold BazelFlagValues.FlagValue
  cases hk : m k with
  | none => exact ⟨none, rfl⟩
  | some vs =>
    cases hl : vs.getLast? with
    | none =>
      rw [List.getLast?_eq_none_iff] at hl
      exact absurd hl (h vs hk)
    | some x => exact ⟨some x, by simp only [hl]⟩

theorem parseCommandLine_flags (env : Env) (fd : FlagData) (tokens : List Str)
    (r : CommandLineArgsAfterCommand)
    (hok : ParseCommandLineArgsAfterCommand env fd tokens = .ok r) :
    Appended emptyFlagValues r.BazelFlags := by
  unfold ParseCommandLineArgsAfterCommand at hok
  dsimp only at hok
  have h := parseTokenizedArgs_appended env (NewBazelRcParser [] fd) [] (-1) tokens
    ⟨emptyFlagValues, [], none⟩
  rcases hrun : parseTokenizedArgsOnSingleLineAfterCommand env (NewBazelRcParser [] fd) []
      (-1) tokens ⟨emptyFlagValues, [], none⟩ with ⟨st, res⟩
  rw [hrun] at hok h
  cases res with
  | error f => cases f <;> simp at hok
  | ok cont =>
    cases cont with
    | true => simp at hok
    | false =>
      cases hp : st.pending with
      | some flag => simp [hp] at hok
      | none =>
        simp only [Bool.false_eq_true, if_false, hp, Except.ok.injEq] at hok
        subst hok
        exact h

/-! ## More fuel gives the same result -/

theorem lineLoop_more_fuel (env : Env) (p : BazelRcParser) (S : List Str)
    (recurse recurse1 : List Str → LineVars → Option (LineVars × Option Failure))
    (hrec : ∀ toks v x, recurse toks v = some x → recurse1 toks v = some x)
    (toks : List Str) (v : LineVars) (x : LineVars × Option Failure)
    (h : lineLoop env p S recurse toks v = some x) :
    lineLoop env p S recurse1 toks v = some x := by
  induction toks generalizing v with
  | nil =>
    rw [lineLoop] at h ⊢
    exact h
  | cons t ts ih =>
    rw [lineLoop_cons_eq] at h ⊢
    rcases hres : parseToken env p t ts.isEmpty v.tok S v.zeroBaseLineNumber with ⟨tok, res⟩
    rw [hres] at h
    cases res with
    | error err => exact h
    | ok sig =>
      obtain ⟨c, r⟩ := sig
      simp only at h ⊢
      cases c with
      | true =>
        simp only [if_true] at h ⊢
        cases hrest : v.rest with
        | nil =>
          rw [hrest] at h
          exact h
        | cons line rest =>
          rw [hrest] at h
          simp only at h ⊢
          cases htk : tokenizeLine env line S ((v.zeroBaseLineNumber + 1 : Nat) : Int) with
          | error err =>
            rw [htk] at h
            exact h
          | ok next =>
            rw [htk] at h
            simp only at h ⊢
            rcases hrun : recurse next ⟨tok, v.zeroBaseLineNumber + 1, rest⟩
              with _ | ⟨v2, e2⟩
            · simp [hrun] at h
            · rw [hrun] at h
              rw [hrec next _ _ hrun]
              cases e2 with
              | some err => exact h
              | none =>
                simp only at h ⊢
                cases r with
                | true => exact h
                | false =>
                  simp only [Bool.false_eq_true, if_false] at h ⊢
                  exact ih v2 h
      | false =>
        simp only [Bool.false_eq_true, if_false] at h ⊢
        cases r with
        | true => exact h
        | false =>
          simp only [Bool.false_eq_true, if_false] at h ⊢
          exact ih _ h

theorem parseLine_fuel_succ (env : Env) (p : BazelRcParser) (S : List Str) (f : Nat) :
    ∀ (toks : List Str) (v : LineVars) (x : LineVars × Option Failure),
      parseLineWithoutCommandPrefix env p S f toks v = some x →
      parseLineWithoutCommandPrefix env p S (f + 1) toks v = some x := by
  induction f with
  | zero =>
    intro toks v x h
    simp [parseLineWithoutCommandPrefix] at h
  | succ f ih =>
    intro toks v x h
    rw [parseLine_succ] at h ⊢
    exact lineLoop_more_fuel env p S _ _ ih toks v x h

theorem parse_fuel_succ (env : Env) (p : BazelRcParser) (f : Nat) :
    (∀ (S lines : List Str) (n : Nat) (v : FileVars) (x : FileVars × Option Failure),
      fileLoop env p f S lines n v = some x → fileLoop env p (f + 1) S lines n v = some x) ∧
    (∀ (S : List Str) (out : BazelrcContents) (file : Except Str Str)
      (x : BazelrcContents × Option Failure),
      parseFileInternal env p f out file S = some x →
      parseFileInternal env p (f + 1) out file S = some x) := by
  induction f with
  | zero =>
    constructor
    · intro S lines n v x h
      simp [fileLoop] at h
    · intro S out file x h
      simp [parseFileInternal] at h
  | succ f ih =>
    obtain ⟨ihLoop, ihImport⟩ := ih
    constructor
    · intro S lines n v x h
      cases lines with
      | nil =>
        rw [fileLoop_nil] at h ⊢
        exact h
      | cons line rest =>
        rw [fileLoop_succ_cons] at h ⊢
        by_cases hcomment : (hasPrefix line ['#'] || line == []) = true
        · rw [if_pos hcomment] at h ⊢
          exact ihLoop S rest (n + 1) v x h
        rw [if_neg hcomment] at h ⊢
        cases htk : tokenizeLine env line S (n : Int) with
        | error err =>
          rw [htk] at h
          exact h
        | ok tokens =>
          rw [htk] at h
          cases tokens with
          | nil =>
            simp only at h ⊢
            exact ihLoop S rest (n + 1) v x h
          | cons cmd args =>
            simp only at h ⊢
            by_cases hcmd : (cmd == importToken || cmd == tryImportToken) = true
            · rw [if_pos hcmd] at h ⊢
              match args, h with
              | [], h => exact h
              | _ :: _ :: _, h => exact h
              | [pathToken], h =>
                simp only at h ⊢
                by_cases hcyc : S.contains
                    (replaceAll pathToken workspacePlaceholder p.workspaceDirectory) = true
                · rw [if_pos hcyc] at h ⊢
                  exact h
                rw [if_neg hcyc] at h ⊢
                cases hopenFile : env.osOpen
                    (replaceAll pathToken workspacePlaceholder p.workspaceDirectory) with
                | error err =>
                  rw [hopenFile] at h
                  simp only at h ⊢
                  by_cases himp : (cmd == importToken) = true
                  · rw [if_pos himp] at h ⊢
                    exact h
                  · rw [if_neg himp] at h ⊢
                    exact ihLoop S rest (n + 1) v x h
                | ok file =>
                  rw [hopenFile] at h
                  simp only at h ⊢
                  rcases himport : parseFileInternal env p f v.out file
                      (S ++ [replaceAll pathToken workspacePlaceholder p.workspaceDirectory])
                    with _ | ⟨out, e1⟩
                  · simp [himport] at h
                  · rw [himport] at h
                    rw [ihImport _ _ _ _ himport]
                    cases e1 with
                    | none =>
                      simp only at h ⊢
                      exact ihLoop S rest (n + 1) _ x h
                    | some err =>
                      cases err with
                      | panic => exact h
                      | error msg => exact h
            · rw [if_neg hcmd] at h ⊢
              cases args with
              | nil =>
                simp only at h ⊢
                exact ihLoop S rest (n + 1) v x h
              | cons arg args =>
                simp only at h ⊢
                rcases hline : parseLineWithoutCommandPrefix env p S f (arg :: args)
                    { tok := ⟨(v.out.entries cmd).getD emptyFlagValues, [], v.pending⟩,
                      zeroBaseLineNumber := n, rest := rest } with _ | ⟨u, e1⟩
                · simp [hline] at h
                · rw [hline] at h
                  rw [parseLine_fuel_succ env p S f _ _ _ hline]
                  cases e1 with
                  | some err => exact h
                  | none =>
                    simp only at h ⊢
                    exact ihLoop S u.rest (u.zeroBaseLineNumber + 1) _ x h
    · intro S out file x h
      rw [parseFileInternal_succ] at h ⊢
      cases file with
      | error err => exact h
      | ok byteValue =>
        simp only at h ⊢
        rcases hloop : fileLoop env p f S (splitLines byteValue) 0 ⟨out, none⟩
          with _ | ⟨w, e1⟩
        · simp [hloop] at h
        · rw [hloop] at h
          rw [ihLoop _ _ _ _ _ hloop]
          exact h

/-- A run of the file loop that ends, with or without an error, ends the same way with more
fuel. -/
theorem fileLoop_more_fuel (env : Env) (p : BazelRcParser) (f g : Nat) (hfg : f ≤ g)
    (S lines : List Str) (n : Nat) (v : FileVars) (x : FileVars × Option Failure)
    (h : fileLoop env p f S lines n v = some x) : fileLoop env p g S lines n v = some x := by
  induction g with
  | zero =>
    have h0 : f = 0 := by omega
    rw [h0] at h
    exact h
  | succ g ih =>
    by_cases hle : f ≤ g
    · exact (parse_fuel_succ env p g).1 S lines n v x (ih hle)
    · have h0 : f = g + 1 := by omega
      rw [h0] at h
      exact h

/-- A call of `parseFileInternal` that returns, with or without an error, returns the same
with more fuel. -/
theorem parseFileInternal_more_fuel (env : Env) (p : BazelRcParser) (f g : Nat) (hfg : f ≤ g)
    (S : List Str) (out : BazelrcContents) (file : Except Str Str)
    (x : BazelrcContents × Option Failure)
    (h : parseFileInternal env p f out file S = some x) :
    parseFileInternal env p g out file S = some x := by
  induction g with
  | zero =>
    have h0 : f = 0 := by omega
    rw [h0] at h
    exact h
  | succ g ih =>
    by_cases hle : f ≤ g
    · exact (parse_fuel_succ env p g).2 S out file x (ih hle)
    · have h0 : f = g + 1 := by omega
      rw [h0] at h
      exact h

/-! ## Termination -/

theorem maxLines_root (env : Env) (paths : List Str) (file : Except Str Str) :
    lineCount file ≤ maxLines env paths file := by
  induction paths with
  | nil => exact Nat.le_refl _
  | cons P ps ih => exact Nat.le_trans ih (Nat.le_max_right _ _)

theorem maxLines_listed (env : Env) (paths : List Str) (file : Except Str Str) (P : Str)
    (f : Except Str Str) (hP : P ∈ paths) (hopen : env.osOpen P = .ok f) :
    lineCount f ≤ maxLines env paths file := by
  induction paths with
  | nil => simp at hP
  | cons Q ps ih =>
    rcases List.mem_cons.mp hP with rfl | h
    · have e : maxLines env (P :: ps) file = max (lineCount f) (maxLines env ps file) := by
        simp only [maxLines, List.foldr_cons, hopen]
      rw [e]
      exact Nat.le_max_left _ _
    · exact Nat.le_trans (ih h) (Nat.le_max_right _ _)

theorem unvisited_push_le (paths stack : List Str) (P : Str) :
    unvisited paths (stack ++ [P]) ≤ unvisited paths stack := by
  induction paths with
  | nil => exact Nat.le_refl _
  | cons Q qs ih =>
    unfold unvisited at ih ⊢
    simp only [List.filter_cons, List.contains_eq_any_beq, List.any_append, List.any_cons,
      List.any_nil, Bool.or_false, Bool.not_or]
    simp only [List.contains_eq_any_beq, List.any_append, List.any_cons,
      List.any_nil, Bool.or_false, Bool.not_or] at ih
    by_cases h1 : (!stack.any fun x => Q == x) = true
    · by_cases h2 : (!(Q == P)) = true
      · simp only [h1, h2, Bool.and_self, if_true, List.length_cons]
        omega
      · simp only [h1, h2, Bool.and_false, Bool.false_eq_true, if_false, if_true,
          List.length_cons]
        omega
    · simp only [h1, Bool.false_and, Bool.false_eq_true, if_false]
      exact ih

/-- Importing a listed path that is not on the call stack leaves fewer listed paths off the
call stack. -/
theorem unvisited_push_lt (paths stack : List Str) (P : Str) (hP : P ∈ paths)
    (hS : stack.contains P = false) :
    unvisited paths (stack ++ [P]) < unvisited paths stack := by
  induction paths with
  | nil => simp at hP
  | cons Q qs ih =>
    have hle := unvisited_push_le qs stack P
    unfold unvisited at ih hle ⊢
    simp only [List.filter_cons, List.contains_eq_any_beq, List.any_append, List.any_cons,
      List.any_nil, Bool.or_false, Bool.not_or]
    simp only [List.contains_eq_any_beq, List.any_append, List.any_cons,
      List.any_nil, Bool.or_false, Bool.not_or] at ih hle hS
    rcases List.mem_cons.mp hP with rfl | h
    · simp only [hS, Bool.not_false, beq_self_eq_true, Bool.not_true, Bool.and_false,
        Bool.false_eq_true, if_false, if_true, List.length_cons]
      omega
    · have ih1 := ih h
      by_cases h1 : (!stack.any fun x => Q == x) = true
      · by_cases h2 : (!(Q == P)) = true
        · simp only [h1, h2, Bool.and_self, if_true, List.length_cons]
          omega
        · simp only [h1, h2, Bool.and_false, Bool.false_eq_true, if_false, if_true,
            List.length_cons]
          omega
      · simp only [h1, Bool.false_and, Bool.false_eq_true, if_false]
        exact ih1

theorem lineLoop_total (env : Env) (p : BazelRcParser) (S : List Str)
    (recurse : List Str → LineVars → Option (LineVars × Option Failure)) (L : Nat)
    (hrec : ∀ toks v, v.rest.length < L →
      ∃ w e, recurse toks v = some (w, e) ∧ w.rest.length ≤ v.rest.length)
    (toks : List Str) (v : LineVars) (hv : v.rest.length ≤ L) :
    ∃ w e, lineLoop env p S recurse toks v = some (w, e) ∧
      w.rest.length ≤ v.rest.length := by
  induction toks generalizing v with
  | nil =>
    rw [lineLoop]
    exact ⟨v, none, rfl, Nat.le_refl _⟩
  | cons t ts ih =>
    rw [lineLoop_cons_eq]
    rcases hres : parseToken env p t ts.isEmpty v.tok S v.zeroBaseLineNumber with ⟨tok, res⟩
    cases res with
    | error err => exact ⟨_, _, rfl, Nat.le_refl _⟩
    | ok sig =>
      obtain ⟨c, r⟩ := sig
      simp only
      cases c with
      | true =>
        simp only [if_true]
        cases hrest : v.rest with
        | nil => exact ⟨_, _, rfl, by simp [hrest]⟩
        | cons line rest =>
          simp only
          cases htk : tokenizeLine env line S ((v.zeroBaseLineNumber + 1 : Nat) : Int) with
          | error err => exact ⟨_, _, rfl, by simp⟩
          | ok next =>
            simp only
            have hlt : rest.length < L := by
              rw [hrest, List.length_cons] at hv
              omega
            obtain ⟨v2, e2, hrun, hlen⟩ := hrec next ⟨tok, v.zeroBaseLineNumber + 1, rest⟩ hlt
            simp only at hlen
            rw [hrun]
            cases e2 with
            | some err => exact ⟨_, _, rfl, by simp only [List.length_cons]; omega⟩
            | none =>
              simp only
              cases r with
              | true => exact ⟨_, _, rfl, by simp only [List.length_cons]; omega⟩
              | false =>
                simp only [Bool.false_eq_true, if_false]
                obtain ⟨w, e, hw, hwl⟩ := ih v2 (by omega)
                exact ⟨w, e, hw, by simp only [List.length_cons]; omega⟩
      | false =>
        simp only [Bool.false_eq_true, if_false]
        cases r with
        | true => exact ⟨_, _, rfl, Nat.le_refl _⟩
        | false =>
          simp only [Bool.false_eq_true, if_false]
          exact ih { v with tok := tok } hv

/-- A call of `parseLineWithoutCommandPrefix` returns when the fuel exceeds the number of
lines that follow the line it is at, and it leaves no more lines to read than it found. -/
theorem parseLine_total (env : Env) (p : BazelRcParser) (S : List Str) (f : Nat) :
    ∀ (toks : List Str) (v : LineVars), v.rest.length < f →
      ∃ w e, parseLineWithoutCommandPrefix env p S f toks v = some (w, e) ∧
        w.rest.length ≤ v.rest.length := by
  induction f with
  | zero =>
    intro toks v h
    omega
  | succ f ih =>
    intro toks v h
    rw [parseLine_succ]
    exact lineLoop_total env p S _ f ih toks v (by omega)

/-- The file loop and `parseFileInternal` return, with or without an error, when every file
that opens is at one of the listed paths and has at most `L` lines, and the fuel covers the
lines at hand and one share `L + 2` for each listed path that is not on the call stack. -/
theorem parse_total_all (env : Env) (p : BazelRcParser) (paths : List Str) (L : Nat)
    (hfin : ∀ P f, env.osOpen P = .ok f → P ∈ paths ∧ lineCount f ≤ L) (f : Nat) :
    (∀ (S lines : List Str) (n : Nat) (v : FileVars),
      lines.length + 1 + unvisited paths S * (L + 2) ≤ f →
      ∃ x, fileLoop env p f S lines n v = some x) ∧
    (∀ (S : List Str) (out : BazelrcContents) (file : Except Str Str),
      lineCount file ≤ L → L + 2 + unvisited paths S * (L + 2) ≤ f →
      ∃ x, parseFileInternal env p f out file S = some x) := by
  induction f with
  | zero =>
    constructor
    · intro S lines n v h
      omega
    · intro S out file _ h
      omega
  | succ f ih =>
    obtain ⟨ihLoop, ihImport⟩ := ih
    constructor
    · intro S lines n v hf
      cases lines with
      | nil => exact ⟨_, fileLoop_nil env p f S n v⟩
      | cons line rest =>
        rw [List.length_cons] at hf
        have hf1 : rest.length + 1 + unvisited paths S * (L + 2) ≤ f := by omega
        rw [fileLoop_succ_cons]
        by_cases hcomment : (hasPrefix line ['#'] || line == []) = true
        · rw [if_pos hcomment]
          exact ihLoop S rest (n + 1) v hf1
        rw [if_neg hcomment]
        cases htk : tokenizeLine env line S (n : Int) with
        | error err => exact ⟨_, rfl⟩
        | ok tokens =>
          cases tokens with
          | nil =>
            simp only
            exact ihLoop S rest (n + 1) v hf1
          | cons cmd args =>
            simp only
            by_cases hcmd : (cmd == importToken || cmd == tryImportToken) = true
            · rw [if_pos hcmd]
              match args with
              | [] => exact ⟨_, rfl⟩
              | _ :: _ :: _ => exact ⟨_, rfl⟩
              | [pathToken] =>
                simp only
                by_cases hcyc : S.contains
                    (replaceAll pathToken workspacePlaceholder p.workspaceDirectory) = true
                · rw [if_pos hcyc]
                  exact ⟨_, rfl⟩
                rw [if_neg hcyc]
                cases hopenFile : env.osOpen
                    (replaceAll pathToken workspacePlaceholder p.workspaceDirectory) with
                | error err =>
                  simp only
                  by_cases himp : (cmd == importToken) = true
                  · rw [if_pos himp]
                    exact ⟨_, rfl⟩
                  · rw [if_neg himp]
                    exact ihLoop S rest (n + 1) v hf1
                | ok file =>
                  simp only
                  obtain ⟨hmem, hlines⟩ := hfin _ file hopenFile
                  have hlt := unvisited_push_lt paths S _ hmem (by simpa using hcyc)
                  have hmul := Nat.mul_le_mul_right (L + 2) (Nat.succ_le_of_lt hlt)
                  rw [Nat.succ_mul] at hmul
                  obtain ⟨⟨out, e1⟩, himport⟩ := ihImport
                    (S ++ [replaceAll pathToken workspacePlaceholder p.workspaceDirectory])
                    v.out file hlines (by omega)
                  rw [himport]
                  cases e1 with
                  | none =>
                    simp only
                    exact ihLoop S rest (n + 1) _ hf1
                  | some err =>
                    cases err with
                    | panic => exact ⟨_, rfl⟩
                    | error msg =>
                      simp only
                      by_cases hmsg : strContains msg importCycleErrorMessage = true
                      · rw [if_pos hmsg]
                        exact ⟨_, rfl⟩
                      · rw [if_neg hmsg]
                        exact ⟨_, rfl⟩
            · rw [if_neg hcmd]
              cases args with
              | nil =>
                simp only
                exact ihLoop S rest (n + 1) v hf1
              | cons arg args =>
                simp only
                obtain ⟨u, e1, hline, hlen⟩ := parseLine_total env p S f (arg :: args)
                  { tok := ⟨(v.out.entries cmd).getD emptyFlagValues, [], v.pending⟩,
                    zeroBaseLineNumber := n, rest := rest } (by simp only; omega)
                simp only at hlen
                rw [hline]
                cases e1 with
                | some err => exact ⟨_, rfl⟩
                | none =>
                  simp only
                  exact ihLoop S u.rest (u.zeroBaseLineNumber + 1) _ (by omega)
    · intro S out file hlines hf
      rw [parseFileInternal_succ]
      cases file with
      | error err => exact ⟨_, rfl⟩
      | ok byteValue =>
        simp only
        have hl : (splitLines byteValue).length ≤ L := hlines
        obtain ⟨⟨w, e1⟩, hloop⟩ := ihLoop S (splitLines byteValue) 0 ⟨out, none⟩ (by omega)
        rw [hloop]
        exact ⟨_, rfl⟩

/-- The table of `sampleEnv` opens the listed paths only. -/
theorem sampleEnv_opens_listed (files : List (Str × Str)) (P : Str) (f : Except Str Str)
    (h : (sampleEnv files).osOpen P = .ok f) : P ∈ files.map Prod.fst := by
  have h0 : (match files.lookup P with
      | some text => (Except.ok (Except.ok text) : Except Str (Except Str Str))
      | none => .error ("open ".toList ++ P ++ ": no such file or directory".toList)) =
      .ok f := h
  induction files with
  | nil => simp [List.lookup] at h0
  | cons x xs ih =>
    obtain ⟨a, b⟩ := x
    by_cases hPa : P = a
    · simp [hPa]
    · have hb : (P == a) = false := by simpa using hPa
      simp only [List.lookup, hb] at h0
      have hmem := ih (by
        show (match xs.lookup P with
          | some text => (Except.ok (Except.ok text) : Except Str (Except Str Str))
          | none => .error ("open ".toList ++ P ++ ": no such file or directory".toList)) =
          .ok f
        exact h0) h0
      simp only [List.map_cons, List.mem_cons]
      exact Or.inr hmem

/-- Dropping the recorded call stacks from the instrumented functions gives `fileLoop` and
`parseFileInternal`. -/
theorem traced_erase_all (env : Env) (p : BazelRcParser) (f : Nat) :
    (∀ (S lines : List Str) (n : Nat) (v : FileVars),
      (fileLoopTraced env p f S lines n v).map Prod.fst = fileLoop env p f S lines n v) ∧
    (∀ (S : List Str) (out : BazelrcContents) (file : Except Str Str),
      (parseFileInternalTraced env p f out file S).map Prod.fst =
        parseFileInternal env p f out file S) := by
  induction f with
  | zero =>
    constructor
    · intro S lines n v
      simp [fileLoopTraced, fileLoop]
    · intro S out file
      simp [parseFileInternalTraced, parseFileInternal]
  | succ f ih =>
    obtain ⟨ihLoop, ihImport⟩ := ih
    constructor
    · intro S lines n v
      cases lines with
      | nil =>
        rw [fileLoop_nil, fileLoopTraced]
        rfl
      | cons line rest =>
        rw [fileLoop_succ_cons, fileLoopTraced]
        by_cases hcomment : (hasPrefix line ['#'] || line == []) = true
        · rw [if_pos hcomment, if_pos hcomment]
          exact ihLoop S rest (n + 1) v
        rw [if_neg hcomment, if_neg hcomment]
        cases htk : tokenizeLine env line S (n : Int) with
        | error err => rfl
        | ok tokens =>
          cases tokens with
          | nil =>
            simp only
            exact ihLoop S rest (n + 1) v
          | cons cmd args =>
            simp only
            by_cases hcmd : (cmd == importToken || cmd == tryImportToken) = true
            · rw [if_pos hcmd, if_pos hcmd]
              match args with
              | [] => rfl
              | _ :: _ :: _ => rfl
              | [pathToken] =>
                simp only
                by_cases hcyc : S.contains
                    (replaceAll pathToken workspacePlaceholder p.workspaceDirectory) = true
                · rw [if_pos hcyc, if_pos hcyc]
                  rfl
                rw [if_neg hcyc, if_neg hcyc]
                cases hopenFile : env.osOpen
                    (replaceAll pathToken workspacePlaceholder p.workspaceDirectory) with
                | error err =>
                  simp only
                  by_cases himp : (cmd == importToken) = true
                  · rw [if_pos himp, if_pos himp]
                    rfl
                  · rw [if_neg himp, if_neg himp]
                    exact ihLoop S rest (n + 1) v
                | ok file =>
                  simp only
                  rw [← ihImport]
                  rcases himport : parseFileInternalTraced env p f v.out file
                      (S ++ [replaceAll pathToken workspacePlaceholder p.workspaceDirectory])
                    with _ | ⟨⟨out, e1⟩, calls⟩
                  · rfl
                  · simp only [Option.map_some']
                    cases e1 with
                    | none =>
                      simp only
                      rw [← ihLoop]
                      cases fileLoopTraced env p f S rest (n + 1) { v with out := out } with
                      | none => rfl
                      | some y => rfl
                    | some err =>
                      cases err with
                      | panic => rfl
                      | error msg =>
                        simp only
                        by_cases hmsg : strContains msg importCycleErrorMessage = true
                        · rw [if_pos hmsg, if_pos hmsg]
                          rfl
                        · rw [if_neg hmsg, if_neg hmsg]
                          rfl
            · rw [if_neg hcmd, if_neg hcmd]
              cases args with
              | nil =>
                simp only
                exact ihLoop S rest (n + 1) v
              | cons arg args =>
                simp only
                rcases hline : parseLineWithoutCommandPrefix env p S f (arg :: args)
                    { tok := ⟨(v.out.entries cmd).getD emptyFlagValues, [], v.pending⟩,
                      zeroBaseLineNumber := n, rest := rest } with _ | ⟨u, e1⟩
                · rfl
                · cases e1 with
                  | some err => rfl
                  | none =>
                    simp only
                    exact ihLoop S u.rest (u.zeroBaseLineNumber + 1) _
    · intro S out file
      rw [parseFileInternal_succ]
      simp only [parseFileInternalTraced]
      cases file with
      | error err => rfl
      | ok byteValue =>
        simp only
        rw [← ihLoop]
        cases fileLoopTraced env p f S (splitLines byteValue) 0 ⟨out, none⟩ with
        | none => rfl
        | some y => rfl

theorem nodup_push (S : List Str) (P : Str) (hS : S.Nodup) (hP : S.contains P = false) :
    (S ++ [P]).Nodup := by
  have hmem : P ∉ S := by
    intro h
    have : S.contains P = true := by simpa using h
    rw [hP] at this
    exact absurd this (by decide)
  rw [List.nodup_append]
  refine ⟨hS, List.nodup_singleton P, ?_⟩
  intro a ha hb
  rw [List.mem_singleton] at hb
  subst hb
  exact hmem ha

/-- The import call stacks recorded by the instrumented functions, when they start on a call
stack `S` that is not empty and holds no path twice: each recorded stack is not empty, holds
no path twice, and begins with `S`. -/
theorem traced_stacks_all (env : Env) (p : BazelRcParser) (f : Nat) :
    (∀ (S lines : List Str) (n : Nat) (v : FileVars) (x : FileVars × Option Failure)
      (calls : List (List Str)), S ≠ [] → S.Nodup →
      fileLoopTraced env p f S lines n v = some (x, calls) →
      ∀ T ∈ calls, T ≠ [] ∧ T.Nodup ∧ S <+: T) ∧
    (∀ (S : List Str) (out : BazelrcContents) (file : Except Str Str)
      (x : BazelrcContents × Option Failure) (calls : List (List Str)), S ≠ [] → S.Nodup →
      parseFileInternalTraced env p f out file S = some (x, calls) →
      (∃ later, calls = S :: later) ∧ ∀ T ∈ calls, T ≠ [] ∧ T.Nodup ∧ S <+: T) := by
  induction f with
  | zero =>
    constructor
    · intro S lines n v x calls _ _ h
      simp [fileLoopTraced] at h
    · intro S out file x calls _ _ h
      simp [parseFileInternalTraced] at h
  | succ f ih =>
    obtain ⟨ihLoop, ihImport⟩ := ih
    constructor
    · intro S lines n v x calls hne hnd h
      cases lines with
      | nil =>
        rw [fileLoopTraced] at h
        simp only [Option.some.injEq, Prod.mk.injEq] at h
        obtain ⟨_, rfl⟩ := h
        intro T hT
        simp at hT
      | cons line rest =>
        rw [fileLoopTraced] at h
        by_cases hcomment : (hasPrefix line ['#'] || line == []) = true
        · rw [if_pos hcomment] at h
          exact ihLoop S rest (n + 1) v x calls hne hnd h
        rw [if_neg hcomment] at h
        cases htk : tokenizeLine env line S (n : Int) with
        | error err =>
          rw [htk] at h
          simp only [Option.some.injEq, Prod.mk.injEq] at h
          obtain ⟨_, rfl⟩ := h
          intro T hT
          simp at hT
        | ok tokens =>
          rw [htk] at h
          cases tokens with
          | nil =>
            simp only at h
            exact ihLoop S rest (n + 1) v x calls hne hnd h
          | cons cmd args =>
            simp only at h
            by_cases hcmd : (cmd == importToken || cmd == tryImportToken) = true
            · rw [if_pos hcmd] at h
              match args, h with
              | [], h =>
                simp only [Option.some.injEq, Prod.mk.injEq] at h
                obtain ⟨_, rfl⟩ := h
                intro T hT
                simp at hT
              | _ :: _ :: _, h =>
                simp only [Option.some.injEq, Prod.mk.injEq] at h
                obtain ⟨_, rfl⟩ := h
                intro T hT
                simp at hT
              | [pathToken], h =>
                simp only at h
                by_cases hcyc : S.contains
                    (replaceAll pathToken workspacePlaceholder p.workspaceDirectory) = true
                · rw [if_pos hcyc] at h
                  simp only [Option.some.injEq, Prod.mk.injEq] at h
                  obtain ⟨_, rfl⟩ := h
                  intro T hT
                  simp at hT
                rw [if_neg hcyc] at h
                cases hopenFile : env.osOpen
                    (replaceAll pathToken workspacePlaceholder p.workspaceDirectory) with
                | error err =>
                  rw [hopenFile] at h
                  simp only at h
                  by_cases himp : (cmd == importToken) = true
                  · rw [if_pos himp] at h
                    simp only [Option.some.injEq, Prod.mk.injEq] at h
                    obtain ⟨_, rfl⟩ := h
                    intro T hT
                    simp at hT
                  · rw [if_neg himp] at h
                    exact ihLoop S rest (n + 1) v x calls hne hnd h
                | ok file =>
                  rw [hopenFile] at h
                  simp only at h
                  rcases himport : parseFileInternalTraced env p f v.out file
                      (S ++ [replaceAll pathToken workspacePlaceholder p.workspaceDirectory])
                    with _ | ⟨⟨out, e1⟩, inner⟩
                  · simp [himport] at h
                  · have hin := (ihImport _ v.out file (out, e1) inner (by simp)
                      (nodup_push S _ hnd (by simpa using hcyc)) himport).2
                    have hinner : ∀ T ∈ inner, T ≠ [] ∧ T.Nodup ∧ S <+: T := fun T hT =>
                      ⟨(hin T hT).1, (hin T hT).2.1,
                        List.IsPrefix.trans (List.prefix_append S _) (hin T hT).2.2⟩
                    rw [himport] at h
                    cases e1 with
                    | none =>
                      simp only at h
                      rcases hlater : fileLoopTraced env p f S rest (n + 1)
                          { v with out := out } with _ | ⟨y, later⟩
                      · simp [hlater] at h
                      · rw [hlater] at h
                        simp only [Option.some.injEq, Prod.mk.injEq] at h
                        obtain ⟨rfl, rfl⟩ := h
                        intro T hT
                        rcases List.mem_append.mp hT with h1 | h1
                        · exact hinner T h1
                        · exact ihLoop S rest (n + 1) _ y later hne hnd hlater T h1
                    | some err =>
                      cases err with
                      | panic =>
                        simp only [Option.some.injEq, Prod.mk.injEq] at h
                        obtain ⟨_, rfl⟩ := h
                        exact hinner
                      | error msg =>
                        simp only at h
                        by_cases hmsg : strContains msg importCycleErrorMessage = true
                        · rw [if_pos hmsg] at h
                          simp only [Option.some.injEq, Prod.mk.injEq] at h
                          obtain ⟨_, rfl⟩ := h
                          exact hinner
                        · rw [if_neg hmsg] at h
                          simp only [Option.some.injEq, Prod.mk.injEq] at h
                          obtain ⟨_, rfl⟩ := h
                          exact hinner
            · rw [if_neg hcmd] at h
              cases args with
              | nil =>
                simp only at h
                exact ihLoop S rest (n + 1) v x calls hne hnd h
              | cons arg args =>
                simp only at h
                rcases hline : parseLineWithoutCommandPrefix env p S f (arg :: args)
                    { tok := ⟨(v.out.entries cmd).getD emptyFlagValues, [], v.pending⟩,
                      zeroBaseLineNumber := n, rest := rest } with _ | ⟨u, e1⟩
                · simp [hline] at h
                · rw [hline] at h
                  cases e1 with
                  | some err =>
                    simp only [Option.some.injEq, Prod.mk.injEq] at h
                    obtain ⟨_, rfl⟩ := h
                    intro T hT
                    simp at hT
                  | none =>
                    simp only at h
                    exact ihLoop S u.rest (u.zeroBaseLineNumber + 1) _ x calls hne hnd h
    · intro S out file x calls hne hnd h
      simp only [parseFileInternalTraced] at h
      cases file with
      | error err =>
        simp only [Option.some.injEq, Prod.mk.injEq] at h
        obtain ⟨_, rfl⟩ := h
        refine ⟨⟨[], rfl⟩, ?_⟩
        intro T hT
        rw [List.mem_singleton] at hT
        subst hT
        exact ⟨hne, hnd, List.prefix_refl _⟩
      | ok byteValue =>
        simp only at h
        rcases hloop : fileLoopTraced env p f S (splitLines byteValue) 0 ⟨out, none⟩
          with _ | ⟨y, later⟩
        · simp [hloop] at h
        · rw [hloop] at h
          simp only [Option.some.injEq, Prod.mk.injEq] at h
          obtain ⟨_, rfl⟩ := h
          refine ⟨⟨later, rfl⟩, ?_⟩
          intro T hT
          rcases List.mem_cons.mp hT with rfl | h1
          · exact ⟨hne, hnd, List.prefix_refl _⟩
          · exact ihLoop S _ 0 _ y later hne hnd hloop T h1

theorem makeError_no_panic (S : List Str) (n : Int) (msg : Str) (b : Bool) (hne : S ≠ []) :
    makeError S n msg b ≠ .panic := by
  obtain ⟨last, hlast⟩ : ∃ last, S.getLast? = some last := by
    cases h : S.getLast? with
    | none => exact absurd (List.getLast?_eq_none_iff.1 h) hne
    | some l => exact ⟨l, rfl⟩
  cases b with
  | true => simp only [makeError, if_true, ne_eq, not_false_eq_true, reduceCtorEq]
  | false =>
    simp only [makeError, hlast, Bool.false_eq_true, if_false, ne_eq, not_false_eq_true,
      reduceCtorEq]

theorem handleBooleanFlag_no_panic (p : BazelRcParser) (flag : Str) (m : BazelFlagValues)
    (S : List Str) (n : Int) (hne : S ≠ []) :
    (handleBooleanFlag p flag m S n).2 ≠ some .panic := by
  unfold handleBooleanFlag
  dsimp only
  split_ifs
  · intro h
    exact makeError_no_panic S n _ false hne (Option.some.inj h)
  · simp
  · intro h
    exact makeError_no_panic S n _ false hne (Option.some.inj h)
  · simp

theorem parseTokenNoPending_no_panic (env : Env) (p : BazelRcParser) (t : Str) (b : Bool)
    (st : TokenState) (S : List Str) (n : Int) (hne : S ≠ []) :
    (parseTokenNoPending env p t b st S n).2 ≠ .error .panic := by
  unfold parseTokenNoPending
  split_ifs
  · simp
  · simp
  · split
    · simp
    · split_ifs
      · simp
      · simp
  · simp
  · have h := handleBooleanFlag_no_panic p t st.entries S n hne
    rcases hh : handleBooleanFlag p t st.entries S n with ⟨entries, _ | err⟩
    · simp
    · rw [hh] at h
      cases err with
      | panic => simp at h
      | error msg => simp
  · simp

theorem parseToken_no_panic (env : Env) (p : BazelRcParser) (t : Str) (b : Bool)
    (st : TokenState) (S : List Str) (n : Int) (hne : S ≠ []) :
    (parseToken env p t b st S n).2 ≠ .error .panic := by
  unfold parseToken
  split_ifs
  · simp
  · split
    · rename_i flag hflag
      dsimp only
      split_ifs
      · have h := handleBooleanFlag_no_panic p flag st.entries S n hne
        rcases hh : handleBooleanFlag p flag st.entries S n with ⟨entries, _ | err⟩
        · exact parseTokenNoPending_no_panic env p t b _ S n hne
        · rw [hh] at h
          cases err with
          | panic => simp at h
          | error msg => simp
      · simp
    · exact parseTokenNoPending_no_panic env p t b st S n hne

theorem tokenizeLine_no_panic (env : Env) (line : Str) (S : List Str) (n : Int)
    (hne : S ≠ []) : tokenizeLine env line S n ≠ .error .panic := by
  unfold tokenizeLine
  cases env.shlexSplit line with
  | error err =>
    intro h
    exact makeError_no_panic S n _ false hne (Except.error.inj h)
  | ok tokens => simp

theorem lineLoop_no_panic (env : Env) (p : BazelRcParser) (S : List Str) (hne : S ≠ [])
    (recurse : List Str → LineVars → Option (LineVars × Option Failure))
    (hrec : ∀ toks v w, recurse toks v ≠ some (w, some .panic))
    (toks : List Str) (v w : LineVars) :
    lineLoop env p S recurse toks v ≠ some (w, some .panic) := by
  induction toks generalizing v with
  | nil =>
    rw [lineLoop]
    simp
  | cons t ts ih =>
    rw [lineLoop_cons_eq]
    have hpt := parseToken_no_panic env p t ts.isEmpty v.tok S v.zeroBaseLineNumber hne
    rcases hres : parseToken env p t ts.isEmpty v.tok S v.zeroBaseLineNumber with ⟨tok, res⟩
    rw [hres] at hpt
    cases res with
    | error err =>
      cases err with
      | panic => simp at hpt
      | error msg => simp
    | ok sig =>
      obtain ⟨c, r⟩ := sig
      simp only
      cases c with
      | true =>
        simp only [if_true]
        cases hrest : v.rest with
        | nil => simp
        | cons line rest =>
          simp only
          have htl := tokenizeLine_no_panic env line S ((v.zeroBaseLineNumber + 1 : Nat) : Int)
            hne
          cases htk : tokenizeLine env line S ((v.zeroBaseLineNumber + 1 : Nat) : Int) with
          | error err =>
            rw [htk] at htl
            cases err with
            | panic => simp at htl
            | error msg => simp
          | ok next =>
            simp only
            rcases hrun : recurse next ⟨tok, v.zeroBaseLineNumber + 1, rest⟩
              with _ | ⟨v2, e2⟩
            · simp
            · cases e2 with
              | some err =>
                cases err with
                | panic => exact absurd hrun (hrec _ _ _)
                | error msg => simp
              | none =>
                simp only
                cases r with
                | true => simp
                | false =>
                  simp only [Bool.false_eq_true, if_false]
                  exact ih v2
      | false =>
        simp only [Bool.false_eq_true, if_false]
        cases r with
        | true => simp
        | false =>
          simp only [Bool.false_eq_true, if_false]
          exact ih _

theorem parseLine_no_panic (env : Env) (p : BazelRcParser) (S : List Str) (hne : S ≠ [])
    (f : Nat) : ∀ (toks : List Str) (v w : LineVars),
      parseLineWithoutCommandPrefix env p S f toks v ≠ some (w, some .panic) := by
  induction f with
  | zero =>
    intro toks v w
    simp [parseLineWithoutCommandPrefix]
  | succ f ih =>
    intro toks v w
    rw [parseLine_succ]
    exact lineLoop_no_panic env p S hne _ ih toks v w

/-- On a call stack that is not empty neither the file loop nor `parseFileInternal` aborts:
every error is built by `makeError` on a call stack with a last element. -/
theorem parse_no_panic_all (env : Env) (p : BazelRcParser) (f : Nat) :
    (∀ (S lines : List Str) (n : Nat) (v w : FileVars), S ≠ [] →
      fileLoop env p f S lines n v ≠ some (w, some .panic)) ∧
    (∀ (S : List Str) (out : BazelrcContents) (file : Except Str Str) (c : BazelrcContents),
      S ≠ [] → parseFileInternal env p f out file S ≠ some (c, some .panic)) := by
  induction f with
  | zero =>
    constructor
    · intro S lines n v w _
      simp [fileLoop]
    · intro S out file c _
      simp [parseFileInternal]
  | succ f ih =>
    obtain ⟨ihLoop, ihImport⟩ := ih
    constructor
    · intro S lines n v w hne
      cases lines with
      | nil =>
        rw [fileLoop_nil]
        simp
      | cons line rest =>
        rw [fileLoop_succ_cons]
        by_cases hcomment : (hasPrefix line ['#'] || line == []) = true
        · rw [if_pos hcomment]
          exact ihLoop S rest (n + 1) v w hne
        rw [if_neg hcomment]
        have htl := tokenizeLine_no_panic env line S (n : Int) hne
        cases htk : tokenizeLine env line S (n : Int) with
        | error err =>
          rw [htk] at htl
          cases err with
          | panic => simp at htl
          | error msg => simp
        | ok tokens =>
          cases tokens with
          | nil =>
            simp only
            exact ihLoop S rest (n + 1) v w hne
          | cons cmd args =>
            simp only
            by_cases hcmd : (cmd == importToken || cmd == tryImportToken) = true
            · rw [if_pos hcmd]
              match args with
              | [] =>
                intro h
                simp only [Option.some.injEq, Prod.mk.injEq] at h
                exact makeError_no_panic S _ _ false hne h.2
              | _ :: _ :: _ =>
                intro h
                simp only [Option.some.injEq, Prod.mk.injEq] at h
                exact makeError_no_panic S _ _ false hne h.2
              | [pathToken] =>
                simp only
                have hne1 : S ++ [replaceAll pathToken workspacePlaceholder
                    p.workspaceDirectory] ≠ [] := by simp
                by_cases hcyc : S.contains
                    (replaceAll pathToken workspacePlaceholder p.workspaceDirectory) = true
                · rw [if_pos hcyc]
                  intro h
                  simp only [Option.some.injEq, Prod.mk.injEq] at h
                  exact makeError_no_panic _ _ _ false hne1 h.2
                rw [if_neg hcyc]
                cases hopenFile : env.osOpen
                    (replaceAll pathToken workspacePlaceholder p.workspaceDirectory) with
                | error err =>
                  simp only
                  by_cases himp : (cmd == importToken) = true
                  · rw [if_pos himp]
                    intro h
                    simp only [Option.some.injEq, Prod.mk.injEq] at h
                    exact makeError_no_panic _ _ _ false hne1 h.2
                  · rw [if_neg himp]
                    exact ihLoop S rest (n + 1) v w hne
                | ok file =>
                  simp only
                  rcases himport : parseFileInternal env p f v.out file
                      (S ++ [replaceAll pathToken workspacePlaceholder p.workspaceDirectory])
                    with _ | ⟨out, e1⟩
                  · simp
                  · cases e1 with
                    | none =>
                      simp only
                      exact ihLoop S rest (n + 1) _ w hne
                    | some err =>
                      cases err with
                      | panic => exact absurd himport (ihImport _ _ _ _ hne1)
                      | error msg =>
                        simp only
                        by_cases hmsg : strContains msg importCycleErrorMessage = true
                        · rw [if_pos hmsg]
                          simp
                        · rw [if_neg hmsg]
                          intro h
                          simp only [Option.some.injEq, Prod.mk.injEq] at h
                          exact makeError_no_panic _ _ _ true hne1 h.2
            · rw [if_neg hcmd]
              cases args with
              | nil =>
                simp only
                exact ihLoop S rest (n + 1) v w hne
              | cons arg args =>
                simp only
                rcases hline : parseLineWithoutCommandPrefix env p S f (arg :: args)
                    { tok := ⟨(v.out.entries cmd).getD emptyFlagValues, [], v.pending⟩,
                      zeroBaseLineNumber := n, rest := rest } with _ | ⟨u, e1⟩
                · simp
                · cases e1 with
                  | some err =>
                    cases err with
                    | panic => exact absurd hline (parseLine_no_panic env p S hne f _ _ _)
                    | error msg => simp
                  | none =>
                    simp only
                    exact ihLoop S u.rest (u.zeroBaseLineNumber + 1) _ w hne
    · intro S out file c hne
      rw [parseFileInternal_succ]
      cases file with
      | error err =>
        intro h
        simp only [Option.some.injEq, Prod.mk.injEq] at h
        exact makeError_no_panic S _ _ false hne h.2
      | ok byteValue =>
        simp only
        rcases hloop : fileLoop env p f S (splitLines byteValue) 0 ⟨out, none⟩
          with _ | ⟨w, e1⟩
        · simp
        · cases e1 with
          | none => simp
          | some err =>
            cases err with
            | panic => exact absurd hloop (ihLoop _ _ _ _ _ hne)
            | error msg => simp

/-! ## The two drivers on one line -/

theorem isKnownBooleanFlag_same_schema (p q : BazelRcParser)
    (h : p.knownFlagData = q.knownFlagData) (name : Str) :
    isKnownBooleanFlag p name = isKnownBooleanFlag q name := by
  unfold isKnownBooleanFlag
  rw [h]

theorem handleBooleanFlag_same_schema (p q : BazelRcParser)
    (h : p.knownFlagData = q.knownFlagData) (flag : Str) (m : BazelFlagValues)
    (S : List Str) (n : Int) : handleBooleanFlag p flag m S n = handleBooleanFlag q flag m S n := by
  unfold handleBooleanFlag
  rw [h]

theorem parseAsAbbreviatedFlag_same_schema (env : Env) (p q : BazelRcParser)
    (h : p.knownFlagData = q.knownFlagData) (t : Str) :
    parseAsAbbreviatedFlag env p t = parseAsAbbreviatedFlag env q t := by
  unfold parseAsAbbreviatedFlag
  rw [h]

theorem parseTokenNoPending_same_schema (env : Env) (p q : BazelRcParser)
    (h : p.knownFlagData = q.knownFlagData) (t : Str) (b : Bool) (st : TokenState)
    (S : List Str) (n : Int) :
    parseTokenNoPending env p t b st S n = parseTokenNoPending env q t b st S n := by
  unfold parseTokenNoPending
  rw [parseAsAbbreviatedFlag_same_schema env p q h, handleBooleanFlag_same_schema p q h]

/-- The method `parseToken` uses of its parser the flag schema only. -/
theorem parseToken_same_schema (env : Env) (p q : BazelRcParser)
    (h : p.knownFlagData = q.knownFlagData) (t : Str) (b : Bool) (st : TokenState)
    (S : List Str) (n : Int) : parseToken env p t b st S n = parseToken env q t b st S n := by
  unfold parseToken
  simp only [isKnownBooleanFlag_same_schema p q h, handleBooleanFlag_same_schema p q h,
    parseTokenNoPending_same_schema env p q h]

/-- When the single-line driver runs over the tokens without error and without asking for a
continuation, the line driver, for a parser with the same schema, on any call stack and at
any line, classifies the tokens in the same way and leaves the same state; it reads no
further line. -/
theorem lineLoop_of_single_line (env : Env) (p q : BazelRcParser)
    (hpq : p.knownFlagData = q.knownFlagData) (S S1 : List Str) (n1 : Int)
    (recurse : List Str → LineVars → Option (LineVars × Option Failure))
    (tokens : List Str) (st st1 : TokenState) (n : Nat) (rest : List Str)
    (h : parseTokenizedArgsOnSingleLineAfterCommand env q S1 n1 tokens st = (st1, .ok false)) :
    lineLoop env p S recurse tokens ⟨st, n, rest⟩ = some (⟨st1, n, rest⟩, none) := by
  induction tokens generalizing st with
  | nil =>
    rw [parseTokenizedArgsOnSingleLineAfterCommand] at h
    simp only [Prod.mk.injEq, and_true] at h
    subst h
    rw [lineLoop]
  | cons t ts ih =>
    rw [parseTokenizedArgsOnSingleLineAfterCommand] at h
    rcases hpt : parseToken env q t ts.isEmpty st S1 n1 with ⟨st2, res⟩
    rw [hpt] at h
    cases res with
    | error err => simp at h
    | ok sig =>
      have hpt1 : parseToken env p t ts.isEmpty st S (n : Int) = (st2, .ok sig) := by
        rw [parseToken_same_schema env p q hpq]
        exact parseToken_ok_indep env q t ts.isEmpty st st2 S1 S n1 n sig hpt
      obtain ⟨c, r⟩ := sig
      rw [lineLoop_cons_eq]
      simp only [hpt1]
      simp only at h
      cases c with
      | true => simp at h
      | false =>
        simp only [Bool.false_eq_true, if_false] at h ⊢
        cases r with
        | true =>
          simp only [if_true, Prod.mk.injEq, and_true] at h
          subst h
          simp only [if_true]
        | false =>
          simp only [Bool.false_eq_true, if_false] at h ⊢
          exact ih st2 h
/-! ## Properties of the parser -/

/-- C1: a file whose only line tokenizes to `[cmd, --name=value]`, `cmd` being a sub-command
(neither `import` nor `try-import`), parses successfully and stores exactly `[value]` under
`entries[cmd][name]`; the token is split at its first `=` (`name` holds none), so `value`
may hold further `=` signs. -/
theorem parsefile_single_flag (env : Env) (p : BazelRcParser) (fuel : Nat) (line cmd name value path : Str)
    (hfuel : 3 ≤ fuel) (hnl : '\n' ∉ line) (hne : line ≠ []) (hcomment : hasPrefix line ['#'] = false)
    (htok : env.shlexSplit line = .ok [cmd, '-' :: '-' :: (name ++ '=' :: value)])
    (himp : cmd ≠ importToken) (htry : cmd ≠ tryImportToken) (heq : '=' ∉ name) :
    ∃ c, Parsefile env p fuel (.ok line) path = some (c, none) ∧ c.values cmd name = some [value] := by
  obtain ⟨k, rfl⟩ := Nat.exists_eq_add_of_le' hfuel
  have hrun : parseLineWithoutCommandPrefix env p [path] (k + 1) [flagEq name value]
      ⟨⟨emptyFlagValues, [], none⟩, 0, []⟩ =
      some (⟨⟨appendValue emptyFlagValues name value, [], none⟩, 0, []⟩, none) := by
    simp only [parseLineWithoutCommandPrefix]
    rw [lineLoop_cons_plain _ _ _ _ _ _ _ _ (parseToken_flagEq env p name value _ _ _ _ rfl heq)]
    simp [lineLoop]
  refine ⟨_, parsefile_one_line env p k line path cmd _ [] _ none hnl hcomment hne htok himp htry hrun rfl, ?_⟩
  simp [BazelrcContents.values, BazelrcContents.set, appendValue, emptyFlagValues]

/-- The line `build --foo=bar=true` of the unit tests. -/
theorem parsefile_single_flag_witness :
    ∃ c, Parsefile (sampleEnv []) sampleParser 3 (.ok "build --foo=bar=true".toList)
        "/sample/bazelrc".toList = some (c, none) ∧
      c.values "build".toList "foo".toList = some ["bar=true".toList] :=
  parsefile_single_flag (sampleEnv []) sampleParser 3 "build --foo=bar=true".toList
    "build".toList "foo".toList "bar=true".toList "/sample/bazelrc".toList
    (by decide) (by decide) (by decide) (by decide) (by rfl) (by decide) (by decide) (by decide)

/-- C2: repeated occurrences of one flag keep their order: the line
`cmd --a=v1 ... --a=vn` with `n ≥ 1` parses successfully and stores `[v1, ..., vn]` under
`entries[cmd][a]`. -/
theorem parsefile_repeated_flag (env : Env) (p : BazelRcParser) (fuel : Nat)
    (line cmd a path : Str) (vs : List Str)
    (hfuel : 3 ≤ fuel) (hnl : '\n' ∉ line) (hne : line ≠ [])
    (hcomment : hasPrefix line ['#'] = false)
    (htok : env.shlexSplit line = .ok (cmd :: vs.map (fun v => '-' :: '-' :: (a ++ '=' :: v))))
    (hvs : vs ≠ [])
    (himp : cmd ≠ importToken) (htry : cmd ≠ tryImportToken) (heq : '=' ∉ a) :
    ∃ c, Parsefile env p fuel (.ok line) path = some (c, none) ∧ c.values cmd a = some vs := by
  obtain ⟨k, rfl⟩ := Nat.exists_eq_add_of_le' hfuel
  obtain ⟨x, xs, rfl⟩ := List.exists_cons_of_ne_nil hvs
  have hrun := lineLoop_flagEq_list env p [path]
    (parseLineWithoutCommandPrefix env p [path] k) a heq (x :: xs)
    ⟨⟨emptyFlagValues, [], none⟩, 0, []⟩ rfl
  refine ⟨_, parsefile_one_line env p k line path cmd _ _ _ none hnl hcomment hne htok himp htry
    hrun rfl, ?_⟩
  simp only [BazelrcContents.values, BazelrcContents.set, List.foldl_cons]
  simp [foldl_appendValue_same, emptyFlagValues]

/-- The line `cmd --a=1 --a=2`. -/
theorem parsefile_repeated_flag_witness :
    ∃ c, Parsefile (sampleEnv []) sampleParser 3 (.ok "cmd --a=1 --a=2".toList)
        "/sample/bazelrc".toList = some (c, none) ∧
      c.values "cmd".toList "a".toList = some ["1".toList, "2".toList] :=
  parsefile_repeated_flag (sampleEnv []) sampleParser 3 "cmd --a=1 --a=2".toList
    "cmd".toList "a".toList "/sample/bazelrc".toList ["1".toList, "2".toList]
    (by decide) (by decide) (by decide) (by decide) (by rfl) (by decide) (by decide) (by decide) (by decide)

/-- C3 (as amended): for a flag `name` registered as boolean, the line `cmd --noname` stores
`["false"]` under `name`; and the line `cmd --name` stores `["true"]` under `name` provided
`name` does not itself begin with `no`. A flag name is not empty and holds no `=`. -/
theorem parsefile_boolean_flag (env : Env) (p : BazelRcParser) (fuel : Nat)
    (line cmd name path : Str)
    (hfuel : 3 ≤ fuel) (hnl : '\n' ∉ line) (hne : line ≠ [])
    (hcomment : hasPrefix line ['#'] = false)
    (himp : cmd ≠ importToken) (htry : cmd ≠ tryImportToken)
    (hbool : lookupBool p.knownFlagData.BooleanFlags name = true) (heq : '=' ∉ name) :
    (env.shlexSplit line = .ok [cmd, '-' :: '-' :: 'n' :: 'o' :: name] →
      ∃ c, Parsefile env p fuel (.ok line) path = some (c, none) ∧
        c.values cmd name = some [falseStr]) ∧
    (env.shlexSplit line = .ok [cmd, '-' :: '-' :: name] → name ≠ [] →
      hasPrefix name ['n', 'o'] = false →
      ∃ c, Parsefile env p fuel (.ok line) path = some (c, none) ∧
        c.values cmd name = some [trueStr]) := by
  obtain ⟨k, rfl⟩ := Nat.exists_eq_add_of_le' hfuel
  constructor
  · intro htok
    have hrun : parseLineWithoutCommandPrefix env p [path] (k + 1) ['-' :: '-' :: 'n' :: 'o' :: name]
        ⟨⟨emptyFlagValues, [], none⟩, 0, []⟩ =
        some (⟨⟨appendValue emptyFlagValues name falseStr, [], none⟩, 0, []⟩, none) := by
      have ht := parseToken_bare_last env p ('n' :: 'o' :: name) ⟨emptyFlagValues, [], none⟩
        [path] ((0 : Nat) : Int) rfl (by simp) (by simp [heq])
      rw [handleBooleanFlag_negated p name _ _ _ hbool] at ht
      simp only [parseLineWithoutCommandPrefix]
      rw [lineLoop_cons_plain _ _ _ _ _ _ _ _ ht]
      simp [lineLoop]
    refine ⟨_, parsefile_one_line env p k line path cmd _ [] _ none hnl hcomment hne htok
      himp htry hrun rfl, ?_⟩
    simp [BazelrcContents.values, BazelrcContents.set, appendValue, emptyFlagValues]
  · intro htok hname hno
    have hrun : parseLineWithoutCommandPrefix env p [path] (k + 1) ['-' :: '-' :: name]
        ⟨⟨emptyFlagValues, [], none⟩, 0, []⟩ =
        some (⟨⟨appendValue emptyFlagValues name trueStr, [], none⟩, 0, []⟩, none) := by
      have ht := parseToken_bare_last env p name ⟨emptyFlagValues, [], none⟩
        [path] ((0 : Nat) : Int) rfl hname heq
      rw [handleBooleanFlag_plain p name _ _ _ hno hbool] at ht
      simp only [parseLineWithoutCommandPrefix]
      rw [lineLoop_cons_plain _ _ _ _ _ _ _ _ ht]
      simp [lineLoop]
    refine ⟨_, parsefile_one_line env p k line path cmd _ [] _ none hnl hcomment hne htok
      himp htry hrun rfl, ?_⟩
    simp [BazelrcContents.values, BazelrcContents.set, appendValue, emptyFlagValues]

/-- The lines `build --nobool_flag` and `build --bool_flag` of the unit tests. -/
theorem parsefile_boolean_flag_witness :
    (∃ c, Parsefile (sampleEnv []) sampleParser 3 (.ok "build --nobool_flag".toList)
        "/sample/bazelrc".toList = some (c, none) ∧
      c.values "build".toList "bool_flag".toList = some [falseStr]) ∧
    (∃ c, Parsefile (sampleEnv []) sampleParser 3 (.ok "build --bool_flag".toList)
        "/sample/bazelrc".toList = some (c, none) ∧
      c.values "build".toList "bool_flag".toList = some [trueStr]) :=
  ⟨(parsefile_boolean_flag (sampleEnv []) sampleParser 3 "build --nobool_flag".toList
      "build".toList "bool_flag".toList "/sample/bazelrc".toList (by decide) (by decide)
      (by decide) (by decide) (by decide) (by decide) (by decide) (by decide)).1 (by rfl),
   (parsefile_boolean_flag (sampleEnv []) sampleParser 3 "build --bool_flag".toList
      "build".toList "bool_flag".toList "/sample/bazelrc".toList (by decide) (by decide)
      (by decide) (by decide) (by decide) (by decide) (by decide) (by decide)).2 (by rfl)
      (by decide) (by decide)⟩

/-- Counterexample to C3 as stated: `nodep_deps` is registered as boolean, yet the line
`query --nodep_deps` is read as the negation of a flag `dep_deps`, which is not boolean, and
the parse fails with nothing stored under `nodep_deps`. -/
theorem boolean_flag_named_with_no_prefix_fails :
    lookupBool nodepFlags.BooleanFlags "nodep_deps".toList = true ∧
    observe (Parsefile (sampleEnv []) (NewBazelRcParser [] nodepFlags) 3
        (.ok "query --nodep_deps".toList) "/sample/bazelrc".toList)
      "query".toList "nodep_deps".toList =
      some (none, some (.error
        "failed to process /sample/bazelrc on line 1, value-requiring flag dep_deps didn't have value".toList)) := by
  refine ⟨by decide, by decide⟩

/-- C4: for a flag name that is not a known boolean flag, the token pair `--name v` records
`v` under `name` exactly as the single token `--name=v` does, whatever `v` looks like (a
continuation marker in last position apart): `--name` becomes the pending flag, and
`parseToken` on `v` then gives the very state and result that `parseToken` on `--name=v`
gives, namely `v` appended under `name`, the targets untouched and no flag pending. -/
theorem flag_value_pair_eq_assignment (env : Env) (p : BazelRcParser) (name v : Str)
    (isLast : Bool) (st : TokenState) (stack : List Str) (n : Int)
    (hp : st.pending = none) (hne : name ≠ []) (heq : '=' ∉ name)
    (hnb : isKnownBooleanFlag p name = false)
    (hv : ¬ (isLast = true ∧ v = continuationMarker)) :
    parseToken env p ('-' :: '-' :: name) false st stack n =
        ({ st with pending := some ('-' :: '-' :: name) }, .ok (false, false)) ∧
    parseToken env p v isLast { st with pending := some ('-' :: '-' :: name) } stack n =
        parseToken env p ('-' :: '-' :: (name ++ '=' :: v)) isLast st stack n ∧
    parseToken env p ('-' :: '-' :: (name ++ '=' :: v)) isLast st stack n =
        ({ entries := appendValue st.entries name v, targets := st.targets, pending := none },
          .ok (false, false)) := by
  have h3 := parseToken_flagEq env p name v isLast st stack n hp heq
  have hs : stripLeadingDashes ('-' :: '-' :: name) = name := by
    simp [stripLeadingDashes, hasPrefix]
  have h2 := parseToken_pending_value env p ('-' :: '-' :: name) v isLast
    { st with pending := some ('-' :: '-' :: name) } stack n rfl (by rw [hs]; exact hnb) hv
  refine ⟨parseToken_bare_not_last env p name st stack n hp hne heq, ?_, ?_⟩
  · rw [h2, hs]
    simp only [flagEq] at h3
    rw [h3]
    simp [hp]
  · simp only [flagEq] at h3
    rw [h3]
    simp [hp]

/-- The tokens `--copt -g` of the unit tests. -/
theorem flag_value_pair_eq_assignment_witness :
    parseToken (sampleEnv []) sampleParser "--copt".toList false ⟨emptyFlagValues, [], none⟩
        ["/sample/bazelrc".toList] 0 =
        ({ entries := emptyFlagValues, targets := [], pending := some "--copt".toList },
          .ok (false, false)) ∧
    parseToken (sampleEnv []) sampleParser "-g".toList true
        ⟨emptyFlagValues, [], some "--copt".toList⟩ ["/sample/bazelrc".toList] 0 =
        parseToken (sampleEnv []) sampleParser "--copt=-g".toList true
          ⟨emptyFlagValues, [], none⟩ ["/sample/bazelrc".toList] 0 ∧
    parseToken (sampleEnv []) sampleParser "--copt=-g".toList true
        ⟨emptyFlagValues, [], none⟩ ["/sample/bazelrc".toList] 0 =
        ({ entries := appendValue emptyFlagValues "copt".toList "-g".toList, targets := [],
           pending := none }, .ok (false, false)) :=
  flag_value_pair_eq_assignment (sampleEnv []) sampleParser "copt".toList "-g".toList true
    ⟨emptyFlagValues, [], none⟩ ["/sample/bazelrc".toList] 0 rfl (by decide) (by decide)
    (by decide) (by decide)

/-- C5 (as amended): when the schema maps the abbreviation `c` to a flag name that it does
not mark boolean, and `v` is any token other than the continuation marker, the line
`cmd -c v` and the line `cmd --name=v` give the same result of `Parsefile`: success, with
`v` as the only value of `name`. When the name is `no` followed by a name that the schema
marks boolean (a known boolean flag, though not marked so itself), this is so for `v` being
`true` or `false`. -/
theorem abbreviated_value_flag_eq_assignment (env : Env) (p : BazelRcParser) (fuel : Nat)
    (line1 line2 cmd name v path : Str) (c : Char)
    (hfuel : 3 ≤ fuel)
    (hnl1 : '\n' ∉ line1) (hne1 : line1 ≠ []) (hcomment1 : hasPrefix line1 ['#'] = false)
    (hnl2 : '\n' ∉ line2) (hne2 : line2 ≠ []) (hcomment2 : hasPrefix line2 ['#'] = false)
    (htok1 : env.shlexSplit line1 = .ok [cmd, ['-', c], v])
    (htok2 : env.shlexSplit line2 = .ok [cmd, '-' :: '-' :: (name ++ '=' :: v)])
    (himp : cmd ≠ importToken) (htry : cmd ≠ tryImportToken)
    (hab : p.knownFlagData.FlagAbbreviations [c] = some name)
    (hnb : lookupBool p.knownFlagData.BooleanFlags name = false)
    (hcase : isKnownBooleanFlag p name = false ∨ v = trueStr ∨ v = falseStr)
    (hc : c ≠ '-') (heq : '=' ∉ name) (hv : v ≠ continuationMarker) :
    Parsefile env p fuel (.ok line1) path = Parsefile env p fuel (.ok line2) path ∧
    ∃ out, Parsefile env p fuel (.ok line1) path = some (out, none) ∧
      out.values cmd name = some [v] := by
  obtain ⟨k, rfl⟩ := Nat.exists_eq_add_of_le' hfuel
  have hs : stripLeadingDashes ('-' :: '-' :: name) = name := by
    simp [stripLeadingDashes, hasPrefix]
  have hrun1 : parseLineWithoutCommandPrefix env p [path] (k + 1) [['-', c], v]
      ⟨⟨emptyFlagValues, [], none⟩, 0, []⟩ =
      some (⟨⟨appendValue emptyFlagValues name v, [], none⟩, 0, []⟩, none) := by
    have ht1 := parseToken_abbrev_pending env p c name false ⟨emptyFlagValues, [], none⟩
      [path] ((0 : Nat) : Int) rfl hc hab hnb
    have ht2 := parseToken_pending_consumed env p ('-' :: '-' :: name) v true
      ⟨emptyFlagValues, [], some ('-' :: '-' :: name)⟩ [path] ((0 : Nat) : Int) rfl
      (fun h => hv h.2) (by rw [hs]; exact hcase)
    rw [hs] at ht2
    simp only [parseLineWithoutCommandPrefix]
    rw [lineLoop_cons_plain _ _ _ _ _ _ _ _ ht1, lineLoop_cons_plain _ _ _ _ _ _ _ _ ht2]
    simp [lineLoop]
  have hrun2 : parseLineWithoutCommandPrefix env p [path] (k + 1) [flagEq name v]
      ⟨⟨emptyFlagValues, [], none⟩, 0, []⟩ =
      some (⟨⟨appendValue emptyFlagValues name v, [], none⟩, 0, []⟩, none) := by
    simp only [parseLineWithoutCommandPrefix]
    rw [lineLoop_cons_plain _ _ _ _ _ _ _ _ (parseToken_flagEq env p name v _ _ _ _ rfl heq)]
    simp [lineLoop]
  have h1 := parsefile_one_line env p k line1 path cmd _ _ _ none hnl1 hcomment1 hne1 htok1
    himp htry hrun1 rfl
  have h2 := parsefile_one_line env p k line2 path cmd _ [] _ none hnl2 hcomment2 hne2 htok2
    himp htry hrun2 rfl
  refine ⟨h1.trans h2.symm, _, h1, ?_⟩
  simp [BazelrcContents.values, BazelrcContents.set, appendValue, emptyFlagValues]

/-- The lines `build -j 200` and `build --jobs=200`. -/
theorem abbreviated_value_flag_eq_assignment_witness :
    Parsefile (sampleEnv []) sampleParser 3 (.ok "build -j 200".toList)
        "/sample/bazelrc".toList =
      Parsefile (sampleEnv []) sampleParser 3 (.ok "build --jobs=200".toList)
        "/sample/bazelrc".toList ∧
    ∃ out, Parsefile (sampleEnv []) sampleParser 3 (.ok "build -j 200".toList)
        "/sample/bazelrc".toList = some (out, none) ∧
      out.values "build".toList "jobs".toList = some ["200".toList] :=
  abbreviated_value_flag_eq_assignment (sampleEnv []) sampleParser 3 "build -j 200".toList
    "build --jobs=200".toList "build".toList "jobs".toList "200".toList
    "/sample/bazelrc".toList 'j' (by decide) (by decide) (by decide) (by decide) (by decide)
    (by decide) (by decide) (by rfl) (by rfl) (by decide) (by decide) (by rfl) (by decide)
    (Or.inl (by decide)) (by decide) (by decide) (by decide)

/-- Counterexamples to C5 as stated. When the value token is the continuation marker: on the
line `build -j \` the marker ends the line and `jobs` gets no value, while the line
`build --jobs=\` stores the backslash under `jobs`. And when the abbreviation stands for a
name that the schema does not mark boolean but that is `no` followed by a name it marks
boolean: with `foo` boolean and `x` standing for `nofoo`, the line `build -x v` stores
`false` under `foo` and nothing under `nofoo`, while the line `build --nofoo=v` stores `v`
under `nofoo` and nothing under `foo`. -/
theorem abbreviated_value_flag_differs :
    observe (Parsefile (sampleEnv []) sampleParser 3 (.ok "build -j \\\\".toList)
        "/sample/bazelrc".toList) "build".toList "jobs".toList = some (none, none) ∧
    observe (Parsefile (sampleEnv []) sampleParser 3 (.ok "build --jobs=\\\\".toList)
        "/sample/bazelrc".toList) "build".toList "jobs".toList =
      some (some [continuationMarker], none) ∧
    (sampleEnv []).shlexSplit "build -j \\\\".toList =
      .ok ["build".toList, "-j".toList, continuationMarker] ∧
    negatedNameFlags.FlagAbbreviations ['x'] = some "nofoo".toList ∧
    lookupBool negatedNameFlags.BooleanFlags "nofoo".toList = false ∧
    observe (Parsefile (sampleEnv []) (NewBazelRcParser "/ws".toList negatedNameFlags) 3
        (.ok "build -x v".toList) "/sample/bazelrc".toList) "build".toList "nofoo".toList =
      some (none, none) ∧
    observe (Parsefile (sampleEnv []) (NewBazelRcParser "/ws".toList negatedNameFlags) 3
        (.ok "build -x v".toList) "/sample/bazelrc".toList) "build".toList "foo".toList =
      some (some [falseStr], none) ∧
    observe (Parsefile (sampleEnv []) (NewBazelRcParser "/ws".toList negatedNameFlags) 3
        (.ok "build --nofoo=v".toList) "/sample/bazelrc".toList) "build".toList
        "nofoo".toList = some (some ["v".toList], none) ∧
    observe (Parsefile (sampleEnv []) (NewBazelRcParser "/ws".toList negatedNameFlags) 3
        (.ok "build --nofoo=v".toList) "/sample/bazelrc".toList) "build".toList
        "foo".toList = some (none, none) := by
  refine ⟨by decide, by decide, by rfl, by decide, by decide, by decide, by decide, by decide,
    by decide⟩

/-- C6 (as amended): when the schema maps the abbreviation `c` to a boolean flag `name`,
the line `cmd -c-` gives the same result as `cmd --noname` (the value `false` under
`name`), and, provided `name` does not itself begin with `no`, the line `cmd -c` gives the
same result as `cmd --name` (the value `true` under `name`). A flag name is not empty and
holds no `=`, and an abbreviation is not the dash. -/
theorem abbreviated_boolean_flag_eq_long_form (env : Env) (p : BazelRcParser) (fuel : Nat)
    (line1 line2 cmd name path : Str) (c : Char)
    (hfuel : 3 ≤ fuel)
    (hnl1 : '\n' ∉ line1) (hne1 : line1 ≠ []) (hcomment1 : hasPrefix line1 ['#'] = false)
    (hnl2 : '\n' ∉ line2) (hne2 : line2 ≠ []) (hcomment2 : hasPrefix line2 ['#'] = false)
    (himp : cmd ≠ importToken) (htry : cmd ≠ tryImportToken)
    (hab : p.knownFlagData.FlagAbbreviations [c] = some name)
    (hb : lookupBool p.knownFlagData.BooleanFlags name = true) (hc : c ≠ '-')
    (heq : '=' ∉ name) :
    (env.shlexSplit line1 = .ok [cmd, ['-', c]] →
      env.shlexSplit line2 = .ok [cmd, '-' :: '-' :: name] →
      name ≠ [] → hasPrefix name ['n', 'o'] = false →
      Parsefile env p fuel (.ok line1) path = Parsefile env p fuel (.ok line2) path ∧
      ∃ out, Parsefile env p fuel (.ok line1) path = some (out, none) ∧
        out.values cmd name = some [trueStr]) ∧
    (env.shlexSplit line1 = .ok [cmd, ['-', c, '-']] →
      env.shlexSplit line2 = .ok [cmd, '-' :: '-' :: 'n' :: 'o' :: name] →
      Parsefile env p fuel (.ok line1) path = Parsefile env p fuel (.ok line2) path ∧
      ∃ out, Parsefile env p fuel (.ok line1) path = some (out, none) ∧
        out.values cmd name = some [falseStr]) := by
  obtain ⟨k, rfl⟩ := Nat.exists_eq_add_of_le' hfuel
  constructor
  · intro htok1 htok2 hname hno
    have hrun1 : parseLineWithoutCommandPrefix env p [path] (k + 1) [['-', c]]
        ⟨⟨emptyFlagValues, [], none⟩, 0, []⟩ =
        some (⟨⟨appendValue emptyFlagValues name trueStr, [], none⟩, 0, []⟩, none) := by
      have ht := parseToken_abbrev_true env p c name true ⟨emptyFlagValues, [], none⟩
        [path] ((0 : Nat) : Int) rfl hc hab hb
      simp only [parseLineWithoutCommandPrefix]
      rw [lineLoop_cons_plain _ _ _ _ _ _ _ _ ht]
      simp [lineLoop]
    have hrun2 : parseLineWithoutCommandPrefix env p [path] (k + 1) ['-' :: '-' :: name]
        ⟨⟨emptyFlagValues, [], none⟩, 0, []⟩ =
        some (⟨⟨appendValue emptyFlagValues name trueStr, [], none⟩, 0, []⟩, none) := by
      have ht := parseToken_bare_last env p name ⟨emptyFlagValues, [], none⟩
        [path] ((0 : Nat) : Int) rfl hname heq
      rw [handleBooleanFlag_plain p name _ _ _ hno hb] at ht
      simp only [parseLineWithoutCommandPrefix]
      rw [lineLoop_cons_plain _ _ _ _ _ _ _ _ ht]
      simp [lineLoop]
    have h1 := parsefile_one_line env p k line1 path cmd _ [] _ none hnl1 hcomment1 hne1 htok1
      himp htry hrun1 rfl
    have h2 := parsefile_one_line env p k line2 path cmd _ [] _ none hnl2 hcomment2 hne2 htok2
      himp htry hrun2 rfl
    refine ⟨h1.trans h2.symm, _, h1, ?_⟩
    simp [BazelrcContents.values, BazelrcContents.set, appendValue, emptyFlagValues]
  · intro htok1 htok2
    have hrun1 : parseLineWithoutCommandPrefix env p [path] (k + 1) [['-', c, '-']]
        ⟨⟨emptyFlagValues, [], none⟩, 0, []⟩ =
        some (⟨⟨appendValue emptyFlagValues name falseStr, [], none⟩, 0, []⟩, none) := by
      have ht := parseToken_abbrev_false env p c name true ⟨emptyFlagValues, [], none⟩
        [path] ((0 : Nat) : Int) rfl hc hab hb
      simp only [parseLineWithoutCommandPrefix]
      rw [lineLoop_cons_plain _ _ _ _ _ _ _ _ ht]
      simp [lineLoop]
    have hrun2 : parseLineWithoutCommandPrefix env p [path] (k + 1)
        ['-' :: '-' :: 'n' :: 'o' :: name]
        ⟨⟨emptyFlagValues, [], none⟩, 0, []⟩ =
        some (⟨⟨appendValue emptyFlagValues name falseStr, [], none⟩, 0, []⟩, none) := by
      have ht := parseToken_bare_last env p ('n' :: 'o' :: name) ⟨emptyFlagValues, [], none⟩
        [path] ((0 : Nat) : Int) rfl (by simp) (by simp [heq])
      rw [handleBooleanFlag_negated p name _ _ _ hb] at ht
      simp only [parseLineWithoutCommandPrefix]
      rw [lineLoop_cons_plain _ _ _ _ _ _ _ _ ht]
      simp [lineLoop]
    have h1 := parsefile_one_line env p k line1 path cmd _ [] _ none hnl1 hcomment1 hne1 htok1
      himp htry hrun1 rfl
    have h2 := parsefile_one_line env p k line2 path cmd _ [] _ none hnl2 hcomment2 hne2 htok2
      himp htry hrun2 rfl
    refine ⟨h1.trans h2.symm, _, h1, ?_⟩
    simp [BazelrcContents.values, BazelrcContents.set, appendValue, emptyFlagValues]

/-- The lines `build -b`, `build --bool_flag`, `build -b-` and `build --nobool_flag`. -/
theorem abbreviated_boolean_flag_eq_long_form_witness :
    (Parsefile (sampleEnv []) sampleParser 3 (.ok "build -b".toList) "/sample/bazelrc".toList =
        Parsefile (sampleEnv []) sampleParser 3 (.ok "build --bool_flag".toList)
          "/sample/bazelrc".toList ∧
      ∃ out, Parsefile (sampleEnv []) sampleParser 3 (.ok "build -b".toList)
          "/sample/bazelrc".toList = some (out, none) ∧
        out.values "build".toList "bool_flag".toList = some [trueStr]) ∧
    (Parsefile (sampleEnv []) sampleParser 3 (.ok "build -b-".toList) "/sample/bazelrc".toList =
        Parsefile (sampleEnv []) sampleParser 3 (.ok "build --nobool_flag".toList)
          "/sample/bazelrc".toList ∧
      ∃ out, Parsefile (sampleEnv []) sampleParser 3 (.ok "build -b-".toList)
          "/sample/bazelrc".toList = some (out, none) ∧
        out.values "build".toList "bool_flag".toList = some [falseStr]) :=
  ⟨(abbreviated_boolean_flag_eq_long_form (sampleEnv []) sampleParser 3 "build -b".toList
      "build --bool_flag".toList "build".toList "bool_flag".toList "/sample/bazelrc".toList 'b'
      (by decide) (by decide) (by decide) (by decide) (by decide) (by decide) (by decide)
      (by decide) (by decide) (by rfl) (by decide) (by decide) (by decide)).1
      (by rfl) (by rfl) (by decide) (by decide),
   (abbreviated_boolean_flag_eq_long_form (sampleEnv []) sampleParser 3 "build -b-".toList
      "build --nobool_flag".toList "build".toList "bool_flag".toList "/sample/bazelrc".toList 'b'
      (by decide) (by decide) (by decide) (by decide) (by decide) (by decide) (by decide)
      (by decide) (by decide) (by rfl) (by decide) (by decide) (by decide)).2
      (by rfl) (by rfl)⟩

/-- Counterexample to C6 as stated, for a boolean flag whose own name begins with `no`: with
`n` abbreviating the boolean flag `nodep_deps`, the line `query -n` stores `true` under
`nodep_deps`, while the line `query --nodep_deps` is read as the negation of a flag
`dep_deps` and fails. -/
theorem abbreviated_boolean_flag_named_with_no_prefix_differs :
    nodepFlags.FlagAbbreviations ['n'] = some "nodep_deps".toList ∧
    lookupBool nodepFlags.BooleanFlags "nodep_deps".toList = true ∧
    observe (Parsefile (sampleEnv []) (NewBazelRcParser [] nodepFlags) 3
        (.ok "query -n".toList) "/sample/bazelrc".toList)
      "query".toList "nodep_deps".toList = some (some [trueStr], none) ∧
    observe (Parsefile (sampleEnv []) (NewBazelRcParser [] nodepFlags) 3
        (.ok "query --nodep_deps".toList) "/sample/bazelrc".toList)
      "query".toList "nodep_deps".toList =
      some (none, some (.error
        "failed to process /sample/bazelrc on line 1, value-requiring flag dep_deps didn't have value".toList)) := by
  refine ⟨by rfl, by decide, by decide, by decide⟩

/-- C7 (as amended): a line with tokens `cmd t1 ... tn \` (the marker last, no `ti` being the
separator `--`) followed by a last line with tokens `u1 ... um`, `m ≥ 1`, gives the same
contents as the single line `cmd t1 ... tn u1 ... um`, and fails exactly when that line
fails. A flag `flag` still pending at the marker is left pending by it, and then meets `u`,
the first token of the next line, as it would on the single line: `u` is stored as its
value when the flag is not a known boolean flag or `u` is `true` or `false`; otherwise the
flag is resolved by `handleBooleanFlag` and `u` is classified with no flag pending. -/
theorem continuation_joins_lines (env : Env) (p : BazelRcParser) (fuel : Nat)
    (line1 line2 line3 cmd path : Str) (ts us : List Str)
    (st : TokenState) (flag u : Str) (isLast : Bool) (stack : List Str) (n : Int)
    (hfuel : 4 ≤ fuel)
    (hnl1 : '\n' ∉ line1) (hne1 : line1 ≠ []) (hcomment1 : hasPrefix line1 ['#'] = false)
    (hnl2 : '\n' ∉ line2)
    (hnl3 : '\n' ∉ line3) (hne3 : line3 ≠ []) (hcomment3 : hasPrefix line3 ['#'] = false)
    (htok1 : env.shlexSplit line1 = .ok (cmd :: (ts ++ [continuationMarker])))
    (htok2 : env.shlexSplit line2 = .ok us)
    (htok3 : env.shlexSplit line3 = .ok (cmd :: (ts ++ us)))
    (hus : us ≠ []) (hsep : ∀ t ∈ ts, t ≠ ['-', '-'])
    (himp : cmd ≠ importToken) (htry : cmd ≠ tryImportToken)
    (hpend : st.pending = some flag) (hu : ¬ (isLast = true ∧ u = continuationMarker)) :
    (∃ out e1 e2,
      Parsefile env p fuel (.ok (line1 ++ '\n' :: line2)) path = some (out, e1) ∧
      Parsefile env p fuel (.ok line3) path = some (out, e2) ∧ (e1 = none ↔ e2 = none)) ∧
    parseToken env p continuationMarker true st stack n = (st, .ok (true, false)) ∧
    ((isKnownBooleanFlag p (stripLeadingDashes flag) = false ∨ u = trueStr ∨ u = falseStr) →
      parseToken env p u isLast st stack n =
        ({ st with entries := appendValue st.entries (stripLeadingDashes flag) u,
                   pending := none }, .ok (false, false))) ∧
    (isKnownBooleanFlag p (stripLeadingDashes flag) = true → u ≠ trueStr → u ≠ falseStr →
      parseToken env p u isLast st stack n =
        match handleBooleanFlag p flag st.entries stack n with
        | (entries, some err) => ({ st with entries := entries }, .error err)
        | (entries, none) =>
          parseTokenNoPending env p u isLast { st with entries := entries, pending := none }
            stack n) := by
  refine ⟨?_, parseToken_marker env p st stack n,
    parseToken_pending_consumed env p flag u isLast st stack n hpend hu,
    parseToken_pending_boolean env p flag u isLast st stack n hpend hu⟩
  obtain ⟨k, rfl⟩ := Nat.exists_eq_add_of_le' hfuel
  have two := parsefile_of_first_line_args env p (k + 2) (line1 ++ '\n' :: line2) line1 path
    cmd [line2] (ts ++ [continuationMarker])
    (by rw [splitLines_append_newline _ _ hnl1, splitLines_of_not_mem _ hnl2])
    hcomment1 hne1 htok1 (by simp) himp htry
  have one := parsefile_of_first_line_args env p (k + 2) line3 line3 path cmd [] (ts ++ us)
    (splitLines_of_not_mem _ hnl3) hcomment3 hne3 htok3 (by simp [hus]) himp htry
  obtain ⟨w, w', e, e', h1, h2, h3, h4, h5, h6⟩ :=
    parseLine_continuation env p path line2 k ts us ⟨emptyFlagValues, [], none⟩ htok2 hus hsep
  rw [h1] at two
  rw [h2] at one
  cases e with
  | some err =>
    cases e' with
    | none => simp at h6
    | some err' =>
      refine ⟨_, some err, some err', two, ?_, by simp⟩
      rw [one, h3]
  | none =>
    have he' : e' = none := h6.1 rfl
    subst he'
    simp only [h4 rfl, h5, fileLoop_nil] at two one
    refine ⟨_, none, none, two, ?_, Iff.rfl⟩
    rw [one, h3]

/-- The unit test with a value on the continuation line: `build --foo hello --bar \\` followed by `baz`. -/
theorem continuation_joins_lines_witness :
    (∃ out e1 e2,
      Parsefile (sampleEnv []) sampleParser 4
        (.ok ("build --foo hello --bar \\\\".toList ++ '\n' :: "baz".toList))
        "/sample/bazelrc".toList = some (out, e1) ∧
      Parsefile (sampleEnv []) sampleParser 4 (.ok "build --foo hello --bar baz".toList)
        "/sample/bazelrc".toList = some (out, e2) ∧ (e1 = none ↔ e2 = none)) ∧
    parseToken (sampleEnv []) sampleParser continuationMarker true
        ⟨emptyFlagValues, [], some "--bar".toList⟩ ["/sample/bazelrc".toList] 0 =
      (⟨emptyFlagValues, [], some "--bar".toList⟩, .ok (true, false)) ∧
    parseToken (sampleEnv []) sampleParser "baz".toList true
        ⟨emptyFlagValues, [], some "--bar".toList⟩ ["/sample/bazelrc".toList] 1 =
      (⟨appendValue emptyFlagValues (stripLeadingDashes "--bar".toList) "baz".toList, [],
        none⟩, .ok (false, false)) :=
  have h := continuation_joins_lines (sampleEnv []) sampleParser 4
    "build --foo hello --bar \\\\".toList "baz".toList "build --foo hello --bar baz".toList
    "build".toList "/sample/bazelrc".toList ["--foo".toList, "hello".toList, "--bar".toList]
    ["baz".toList] ⟨emptyFlagValues, [], some "--bar".toList⟩ "--bar".toList "baz".toList true
    ["/sample/bazelrc".toList] 1
    (by decide) (by decide) (by decide) (by decide) (by decide) (by decide) (by decide)
    (by decide) (by rfl) (by rfl) (by rfl) (by decide) (by decide) (by decide) (by decide)
    rfl (by decide)
  ⟨h.1, h.2.1, h.2.2.1 (Or.inl (by decide))⟩

/-- Counterexamples to C7 as stated. A separator `--` before the marker ends the first
line, so the next line `test --foo=1` is parsed on its own and stores `1` under `foo` of
`test`, which the joined line does not. And with the boolean flag `bool_flag` pending at the
marker, a next line `false` is stored as the flag's value instead of the flag being
resolved as `true`. -/
theorem continuation_after_separator_differs :
    observe (Parsefile (sampleEnv []) sampleParser 4
        (.ok "build -- x \\\\\ntest --foo=1".toList) "/sample/bazelrc".toList)
      "test".toList "foo".toList = some (some ["1".toList], none) ∧
    observe (Parsefile (sampleEnv []) sampleParser 4
        (.ok "build -- x test --foo=1".toList) "/sample/bazelrc".toList)
      "test".toList "foo".toList = some (none, none) ∧
    observe (Parsefile (sampleEnv []) sampleParser 4
        (.ok "build --bool_flag \\\\\nfalse".toList) "/sample/bazelrc".toList)
      "build".toList "bool_flag".toList = some (some [falseStr], none) := by
  refine ⟨by decide, by decide, by decide⟩

/-- C8 (as amended): take a file of lines `L1`, then an `import` or `try-import` line whose
target opens with text `contentP`, then lines `L2`, and suppose that the lines `L1` from
empty contents give contents `c1`, the imported file from `c1` gives `c2`, and the lines `L2`
from `c2` give `c3`, each run succeeding, the first two with no flag left awaiting a value
and with a last line that does not end in a continuation marker. Then `Parsefile` succeeds
on the file with contents `c3` (the values of `L1`, then those of the import, then those of
`L2`), and it succeeds with the same contents `c3` on the file in which the import line is
replaced by the lines of the imported file. -/
theorem import_merges_like_inlined_lines (env : Env) (p : BazelRcParser)
    (R impLine d pathToken contentP contentA contentB : Str) (L1 L2 : List Str)
    (c1 c2 c3 : BazelrcContents) (pend3 : Option Str) (f fuel : Nat)
    (hA : splitLines contentA = L1 ++ impLine :: L2)
    (hB : splitLines contentB = L1 ++ (splitLines contentP ++ L2))
    (hcomment : hasPrefix impLine ['#'] = false) (hne : impLine ≠ [])
    (htok : env.shlexSplit impLine = .ok [d, pathToken])
    (hd : d = importToken ∨ d = tryImportToken)
    (hcyc : replaceAll pathToken workspacePlaceholder p.workspaceDirectory ≠ R)
    (hopen : env.osOpen (replaceAll pathToken workspacePlaceholder p.workspaceDirectory) =
      .ok (.ok contentP))
    (h1 : fileLoop env p f [R] L1 0 ⟨newBazelrcContents, none⟩ = some (⟨c1, none⟩, none))
    (hP : fileLoop env p f [R, replaceAll pathToken workspacePlaceholder p.workspaceDirectory]
      (splitLines contentP) 0 ⟨c1, none⟩ = some (⟨c2, none⟩, none))
    (h2 : fileLoop env p f [R] L2 (L1.length + 1) ⟨c2, none⟩ = some (⟨c3, pend3⟩, none))
    (ho1 : endsOpen env L1 = false) (hoP : endsOpen env (splitLines contentP) = false)
    (hfuel : 3 * f + 2 ≤ fuel) :
    Parsefile env p fuel (.ok contentA) R = some (c3, none) ∧
    Parsefile env p fuel (.ok contentB) R = some (c3, none) := by
  obtain ⟨F, rfl⟩ : ∃ F, fuel = F + 1 := ⟨fuel - 1, by omega⟩
  have hf1 : 1 ≤ f := by
    cases f with
    | zero => simp [fileLoop] at h1
    | succ k => omega
  have hsubR : ∀ x ∈ [R], x ∈ [R] := fun _ h => h
  constructor
  · -- the file with the import line
    simp only [Parsefile, parseFileInternal_succ, hA]
    obtain ⟨j1, m1, hj1, e1⟩ := fileLoop_append env p f F [R] [R] L1 (impLine :: L2) 0 0 _ _
      hsubR (by omega) ho1 h1
    rw [e1]
    obtain ⟨G, hG⟩ : ∃ G, F - j1 = G + 1 := ⟨F - j1 - 1, by omega⟩
    have himport : parseFileInternal env p G c1 (.ok contentP)
        ([R] ++ [replaceAll pathToken workspacePlaceholder p.workspaceDirectory]) =
        some (c2, none) := by
      have h0 : parseFileInternal env p (f + 1) c1 (.ok contentP)
          [R, replaceAll pathToken workspacePlaceholder p.workspaceDirectory] =
          some (c2, none) := by
        rw [parseFileInternal_succ]
        simp only [hP]
      exact (transports_all env p (f + 1)).2 _ _ c1 _ c2 (fun _ h => h) h0 G (by omega)
    have hrest := fileLoop_success_stable env p f G [R] [R] L2 (L1.length + 1) (m1 + 1) _ _
      hsubR (by omega) h2
    have hcontains : ¬ ([R].contains
        (replaceAll pathToken workspacePlaceholder p.workspaceDirectory) = true) := by
      simpa using hcyc
    have hcmd : (d == importToken || d == tryImportToken) = true := by
      rcases hd with h | h <;> simp [h]
    have hc' : ¬ (hasPrefix impLine ['#'] || impLine == []) = true := by
      simp [hcomment, hne]
    rw [hG, fileLoop_succ_cons, if_neg hc', (tokenizeLine_eq_ok env impLine _ _ _).2 htok]
    simp only [if_pos hcmd, if_neg hcontains, hopen, himport, hrest]
  · -- the file with the lines of the imported file in place of the import line
    simp only [Parsefile, parseFileInternal_succ, hB]
    obtain ⟨j1, m1, hj1, e1⟩ := fileLoop_append env p f F [R] [R] L1
      (splitLines contentP ++ L2) 0 0 _ _ hsubR (by omega) ho1 h1
    rw [e1]
    obtain ⟨jP, mP, hjP, eP⟩ := fileLoop_append env p f (F - j1)
      [R, replaceAll pathToken workspacePlaceholder p.workspaceDirectory] [R]
      (splitLines contentP) L2 0 m1 _ _ (fun x hx => by simp at hx; simp [hx]) (by omega)
      hoP hP
    rw [eP]
    have hrest := fileLoop_success_stable env p f (F - j1 - jP) [R] [R] L2 (L1.length + 1) mP
      _ _ hsubR (by omega) h2
    simp only [hrest]

/-- The unit test with an import between two lines of flags. -/
theorem import_merges_like_inlined_lines_witness :
    Parsefile (sampleEnv [("/imp".toList, "build --foo=true".toList)]) sampleParser 11
        (.ok "build --foo=false\nimport /imp\nbuild --bar=true".toList)
        "/sample/bazelrc".toList =
      some (((newBazelrcContents.set "build".toList
          (appendValue emptyFlagValues "foo".toList "false".toList)).set "build".toList
          (appendValue (appendValue emptyFlagValues "foo".toList "false".toList)
            "foo".toList "true".toList)).set "build".toList
          (appendValue (appendValue (appendValue emptyFlagValues "foo".toList "false".toList)
            "foo".toList "true".toList) "bar".toList "true".toList), none) ∧
    Parsefile (sampleEnv [("/imp".toList, "build --foo=true".toList)]) sampleParser 11
        (.ok "build --foo=false\nbuild --foo=true\nbuild --bar=true".toList)
        "/sample/bazelrc".toList =
      some (((newBazelrcContents.set "build".toList
          (appendValue emptyFlagValues "foo".toList "false".toList)).set "build".toList
          (appendValue (appendValue emptyFlagValues "foo".toList "false".toList)
            "foo".toList "true".toList)).set "build".toList
          (appendValue (appendValue (appendValue emptyFlagValues "foo".toList "false".toList)
            "foo".toList "true".toList) "bar".toList "true".toList), none) :=
  import_merges_like_inlined_lines (sampleEnv [("/imp".toList, "build --foo=true".toList)])
    sampleParser "/sample/bazelrc".toList "import /imp".toList "import".toList "/imp".toList
    "build --foo=true".toList
    "build --foo=false\nimport /imp\nbuild --bar=true".toList
    "build --foo=false\nbuild --foo=true\nbuild --bar=true".toList
    ["build --foo=false".toList] ["build --bar=true".toList]
    (newBazelrcContents.set "build".toList
      (appendValue emptyFlagValues "foo".toList "false".toList))
    ((newBazelrcContents.set "build".toList
      (appendValue emptyFlagValues "foo".toList "false".toList)).set "build".toList
      (appendValue (appendValue emptyFlagValues "foo".toList "false".toList)
        "foo".toList "true".toList))
    (((newBazelrcContents.set "build".toList
      (appendValue emptyFlagValues "foo".toList "false".toList)).set "build".toList
      (appendValue (appendValue emptyFlagValues "foo".toList "false".toList)
        "foo".toList "true".toList)).set "build".toList
      (appendValue (appendValue (appendValue emptyFlagValues "foo".toList "false".toList)
        "foo".toList "true".toList) "bar".toList "true".toList))
    none 3 11
    (by decide) (by decide) (by decide) (by decide) (by rfl) (Or.inl (by decide)) (by decide)
    (by rfl) (by rfl) (by rfl) (by rfl) (by rfl) (by rfl) (by decide)

/-- Counterexample to C8 as stated: the imported file `/imp` ends with a continuation
marker, which is no error at the end of a file. Imported, its line stays on its own and the
next line of the importing file stores `2` under `b` of `test`; put in place of the import
line, its marker joins that next line to it and `test` gets no entry. -/
theorem import_of_open_continuation_differs :
    observe (Parsefile (sampleEnv [("/imp".toList, "build --a=1 \\\\".toList)]) sampleParser 6
        (.ok "import /imp\ntest --b=2".toList) "/sample/bazelrc".toList)
      "test".toList "b".toList = some (some ["2".toList], none) ∧
    observe (Parsefile (sampleEnv [("/imp".toList, "build --a=1 \\\\".toList)]) sampleParser 6
        (.ok "build --a=1 \\\\\ntest --b=2".toList) "/sample/bazelrc".toList)
      "test".toList "b".toList = some (none, none) ∧
    observe (Parsefile (sampleEnv [("/imp".toList, "build --a=1 \\\\".toList)]) sampleParser 6
        (.ok "build --a=1 \\\\".toList) "/imp".toList)
      "build".toList "a".toList = some (some ["1".toList], none) := by
  refine ⟨by decide, by decide, by decide⟩

/-- C9 (as amended): whenever a chain of imports leads from the root file `R` through the
files `chain` to an `import` or `try-import` line, at index `k` of its file, that resolves
to a path already on the call stack `R :: chain`, `Parsefile` fails with an import-cycle
error that names the repeated path and the 1-based number `k + 1` of the line of that
directive. When `chain` holds at least one file the message goes on to list the whole chain
in order: `failed to process <target> on line <k+1>, bazelrc file contains import cycle -
File <R> imports file <A1> which imports file ... which imports file <target>`; when the
root file imports itself (`chain` empty) no chain is listed. -/
theorem import_cycle_error_lists_chain (env : Env) (p : BazelRcParser)
    (R content target : Str) (chain : List Str) (out' : BazelrcContents) (k : Nat)
    (hchain : ImportChain env p [R] newBazelrcContents content chain target out' k)
    (hnodup : (R :: chain).Nodup) (htarget : target ∈ R :: chain) :
    ∃ F, ∀ fuel, F ≤ fuel →
      Parsefile env p fuel (.ok content) R =
        some (out', some (.error ("failed to process ".toList ++ target ++
          " on line ".toList ++ fmtInt ((k : Int) + 1) ++ ", ".toList ++
          importCycleErrorMessage ++
          (if chain = [] then []
           else " - File ".toList ++ R ++ " imports file ".toList ++
            (" which imports file ".toList).intercalate (chain ++ [target]))))) := by
  obtain ⟨F, hF⟩ := importChain_fails env p target chain k [R] newBazelrcContents content
    out' (by simp) hchain (by simpa using hnodup) (by simpa using htarget)
  refine ⟨F, fun fuel hfuel => ?_⟩
  rw [Parsefile, hF fuel hfuel, makeError_chain R target chain k _]

/-- The unit test with a cycle of three files: the root imports `/c1`, which imports `/c2`,
which imports `/c3`, whose second line imports `/c1`: the error names line 2. -/
theorem import_cycle_error_lists_chain_witness :
    (∃ F, ∀ fuel, F ≤ fuel →
      Parsefile (sampleEnv [("/c1".toList, "import /c2".toList),
          ("/c2".toList, "import /c3".toList),
          ("/c3".toList, "build --a=1\nimport /c1".toList)])
        sampleParser fuel (.ok "import /c1".toList) "/sample/bazelrc".toList =
        some (newBazelrcContents.set "build".toList
            (appendValue emptyFlagValues "a".toList "1".toList),
          some (.error ("failed to process ".toList ++ "/c1".toList ++
          " on line ".toList ++ fmtInt (((1 : Nat) : Int) + 1) ++ ", ".toList ++
          importCycleErrorMessage ++
          (if ["/c1".toList, "/c2".toList, "/c3".toList] = [] then []
           else " - File ".toList ++ "/sample/bazelrc".toList ++ " imports file ".toList ++
            (" which imports file ".toList).intercalate
              (["/c1".toList, "/c2".toList, "/c3".toList] ++ ["/c1".toList])))))) ∧
    fmtInt (((1 : Nat) : Int) + 1) = "2".toList :=
  ⟨import_cycle_error_lists_chain
    (sampleEnv [("/c1".toList, "import /c2".toList),
      ("/c2".toList, "import /c3".toList),
      ("/c3".toList, "build --a=1\nimport /c1".toList)])
    sampleParser "/sample/bazelrc".toList "import /c1".toList "/c1".toList
    ["/c1".toList, "/c2".toList, "/c3".toList]
    (newBazelrcContents.set "build".toList
      (appendValue emptyFlagValues "a".toList "1".toList)) 1
    ⟨newBazelrcContents, "import /c2".toList, 0,
      ⟨[], "import /c1".toList, [], "import".toList, "/c1".toList, 1, none, by decide,
        by decide, by rfl, by decide, by decide, by rfl, Or.inl (by decide), by decide,
        by decide⟩,
      by rfl,
      newBazelrcContents, "import /c3".toList, 0,
      ⟨[], "import /c2".toList, [], "import".toList, "/c2".toList, 1, none, by decide,
        by decide, by rfl, by decide, by decide, by rfl, Or.inl (by decide), by decide,
        by decide⟩,
      by rfl,
      newBazelrcContents, "build --a=1\nimport /c1".toList, 0,
      ⟨[], "import /c3".toList, [], "import".toList, "/c3".toList, 1, none, by decide,
        by decide, by rfl, by decide, by decide, by rfl, Or.inl (by decide), by decide,
        by decide⟩,
      by rfl,
      ⟨["build --a=1".toList], "import /c1".toList, [], "import".toList, "/c1".toList, 3,
        none, by decide, by decide, by rfl, by decide, by decide, by rfl,
        Or.inl (by decide), by decide, by decide⟩⟩
    (by decide) (by decide), by decide⟩

/-- Counterexample to C9 as stated: when the root file imports itself the call stack at the
repeated path holds two entries only, and the message of the import-cycle error names the
file and the line but lists no chain. -/
theorem root_self_import_lists_no_chain :
    (Parsefile (sampleEnv []) sampleParser 3 (.ok "import /sample/bazelrc".toList)
        "/sample/bazelrc".toList).map (fun r => r.2) =
      some (some (.error
        "failed to process /sample/bazelrc on line 1, bazelrc file contains import cycle".toList)) ∧
    (Parsefile (sampleEnv [("/c1".toList, "import /c1".toList)]) sampleParser 5
        (.ok "import /c1".toList) "/sample/bazelrc".toList).map (fun r => r.2) =
      some (some (.error
        "failed to process /c1 on line 1, bazelrc file contains import cycle - File /sample/bazelrc imports file /c1 which imports file /c1".toList)) := by
  refine ⟨by decide, by decide⟩

/-- C10 (as amended): take a line that is an `import` or `try-import` directive whose
resolved path is not on the import call stack. If the path cannot be opened, `import` makes
the parse fail with "unable to open file: ..." while `try-import` goes on with the next line,
the contents and the pending flag unchanged. If the path opens and its parse fails, the
parse fails for both directives alike: a panic is passed on; an error whose message
contains "bazelrc file contains import cycle" is returned unchanged; every other error is
wrapped as "unable to parse import file due to error: ...". The contents are then those the
nested parse left. -/
theorem import_failure_handling (env : Env) (p : BazelRcParser) (fuel : Nat)
    (S : List Str) (line : Str) (rest : List Str) (n : Nat) (vars : FileVars)
    (d pathToken e msg : Str) (file : Except Str Str) (out : BazelrcContents)
    (hc : hasPrefix line ['#'] = false) (hne : line ≠ [])
    (htok : env.shlexSplit line = .ok [d, pathToken])
    (hd : d = importToken ∨ d = tryImportToken)
    (hcyc : S.contains (replaceAll pathToken workspacePlaceholder p.workspaceDirectory) =
      false) :
    (env.osOpen (replaceAll pathToken workspacePlaceholder p.workspaceDirectory) = .error e →
      d = importToken →
      fileLoop env p (fuel + 1) S (line :: rest) n vars =
        some (vars, some (makeError
          (S ++ [replaceAll pathToken workspacePlaceholder p.workspaceDirectory]) n
          ("unable to open file: ".toList ++ e) false))) ∧
    (env.osOpen (replaceAll pathToken workspacePlaceholder p.workspaceDirectory) = .error e →
      d = tryImportToken →
      fileLoop env p (fuel + 1) S (line :: rest) n vars =
        fileLoop env p fuel S rest (n + 1) vars) ∧
    (env.osOpen (replaceAll pathToken workspacePlaceholder p.workspaceDirectory) = .ok file →
      parseFileInternal env p fuel vars.out file
        (S ++ [replaceAll pathToken workspacePlaceholder p.workspaceDirectory]) =
        some (out, some .panic) →
      fileLoop env p (fuel + 1) S (line :: rest) n vars =
        some ({ vars with out := out }, some .panic)) ∧
    (env.osOpen (replaceAll pathToken workspacePlaceholder p.workspaceDirectory) = .ok file →
      parseFileInternal env p fuel vars.out file
        (S ++ [replaceAll pathToken workspacePlaceholder p.workspaceDirectory]) =
        some (out, some (.error msg)) →
      fileLoop env p (fuel + 1) S (line :: rest) n vars =
        some ({ vars with out := out },
          some (if strContains msg importCycleErrorMessage then .error msg
            else makeError
              (S ++ [replaceAll pathToken workspacePlaceholder p.workspaceDirectory]) n
              ("unable to parse import file due to error: ".toList ++ msg) true))) := by
  have hcmd : (d == importToken || d == tryImportToken) = true := by
    rcases hd with h | h <;> simp [h]
  have hc' : ¬ (hasPrefix line ['#'] || line == []) = true := by simp [hc, hne]
  have hcyc' : ¬ (S.contains
      (replaceAll pathToken workspacePlaceholder p.workspaceDirectory) = true) := by
    rw [hcyc]
    decide
  have key := fileLoop_succ_cons env p fuel S line rest n vars
  rw [if_neg hc', (tokenizeLine_eq_ok env line _ _ _).2 htok] at key
  simp only [if_pos hcmd, if_neg hcyc'] at key
  refine ⟨?_, ?_, ?_, ?_⟩
  · intro hopen himp
    rw [key, hopen]
    simp [himp]
  · intro hopen htry
    have : ¬ ((d == importToken) = true) := by
      rw [htry]
      decide
    rw [key, hopen]
    simp only [if_neg this]
  · intro hopen hparse
    rw [key, hopen]
    simp only [hparse]
  · intro hopen hparse
    rw [key, hopen]
    simp only [hparse]
    split <;> rfl

/-- An `import` and a `try-import` of a missing file, and a `try-import` of a file whose parse fails. -/
theorem import_failure_handling_witness :
    (fileLoop (sampleEnv [("/bad".toList, "build --jobs".toList)]) sampleParser 4
        ["/sample/bazelrc".toList] ["import /missing".toList] 0 ⟨newBazelrcContents, none⟩ =
      some (⟨newBazelrcContents, none⟩, some (makeError
        (["/sample/bazelrc".toList] ++
          [replaceAll "/missing".toList workspacePlaceholder sampleParser.workspaceDirectory])
        (0 : Nat)
        ("unable to open file: ".toList ++
          "open /missing: no such file or directory".toList) false))) ∧
    (fileLoop (sampleEnv [("/bad".toList, "build --jobs".toList)]) sampleParser 4
        ["/sample/bazelrc".toList] ["try-import /missing".toList] 0
        ⟨newBazelrcContents, none⟩ =
      fileLoop (sampleEnv [("/bad".toList, "build --jobs".toList)]) sampleParser 3
        ["/sample/bazelrc".toList] [] (0 + 1) ⟨newBazelrcContents, none⟩) ∧
    (fileLoop (sampleEnv [("/bad".toList, "build --jobs".toList)]) sampleParser 4
        ["/sample/bazelrc".toList] ["try-import /bad".toList] 0 ⟨newBazelrcContents, none⟩ =
      some ({ (⟨newBazelrcContents, none⟩ : FileVars) with
          out := newBazelrcContents.set "build".toList emptyFlagValues },
        some (if strContains
            "failed to process /bad on line 1, value-requiring flag jobs didn't have value".toList
            importCycleErrorMessage then
          .error
            "failed to process /bad on line 1, value-requiring flag jobs didn't have value".toList
          else makeError
            (["/sample/bazelrc".toList] ++
              [replaceAll "/bad".toList workspacePlaceholder sampleParser.workspaceDirectory])
            (0 : Nat)
            ("unable to parse import file due to error: ".toList ++
              "failed to process /bad on line 1, value-requiring flag jobs didn't have value".toList)
            true))) :=
  ⟨(import_failure_handling (sampleEnv [("/bad".toList, "build --jobs".toList)]) sampleParser 3
      ["/sample/bazelrc".toList] "import /missing".toList [] 0 ⟨newBazelrcContents, none⟩
      "import".toList "/missing".toList "open /missing: no such file or directory".toList []
      (.ok []) newBazelrcContents (by decide) (by decide) (by rfl) (Or.inl (by decide))
      (by decide)).1 (by rfl) (by decide),
   (import_failure_handling (sampleEnv [("/bad".toList, "build --jobs".toList)]) sampleParser 3
      ["/sample/bazelrc".toList] "try-import /missing".toList [] 0 ⟨newBazelrcContents, none⟩
      "try-import".toList "/missing".toList "open /missing: no such file or directory".toList []
      (.ok []) newBazelrcContents (by decide) (by decide) (by rfl) (Or.inr (by decide))
      (by decide)).2.1 (by rfl) (by decide),
   (import_failure_handling (sampleEnv [("/bad".toList, "build --jobs".toList)]) sampleParser 3
      ["/sample/bazelrc".toList] "try-import /bad".toList [] 0 ⟨newBazelrcContents, none⟩
      "try-import".toList "/bad".toList []
      "failed to process /bad on line 1, value-requiring flag jobs didn't have value".toList
      (.ok "build --jobs".toList) (newBazelrcContents.set "build".toList emptyFlagValues)
      (by decide) (by decide) (by rfl) (Or.inr (by decide)) (by decide)).2.2.2 (by rfl)
      (by rfl)⟩

/-- Counterexamples to C10 as stated. A `try-import` of a path that cannot be opened but is
already on the import call stack (here the label of the root file) is an import-cycle error,
not a line that is passed over. And when the imported file opens and its parse fails with an
import-cycle error, that error is returned as it is, not wrapped as "unable to parse import
file due to error: ...". -/
theorem try_import_failures_not_as_stated :
    (sampleEnv []).osOpen "/sample/bazelrc".toList =
      .error "open /sample/bazelrc: no such file or directory".toList ∧
    (Parsefile (sampleEnv []) sampleParser 3 (.ok "try-import /sample/bazelrc".toList)
        "/sample/bazelrc".toList).map (fun r => r.2) =
      some (some (.error
        "failed to process /sample/bazelrc on line 1, bazelrc file contains import cycle".toList)) ∧
    (Parsefile (sampleEnv [("/a".toList, "import /b".toList), ("/b".toList, "import /a".toList)])
        sampleParser 7 (.ok "try-import /a".toList) "/sample/bazelrc".toList).map
        (fun r => r.2) =
      some (some (.error
        "failed to process /a on line 1, bazelrc file contains import cycle - File /sample/bazelrc imports file /a which imports file /b which imports file /a".toList)) := by
  refine ⟨by rfl, by decide, by decide⟩

/-- C11 (as amended): an `import` or `try-import` line with a number of further tokens other
than one, read by the file loop as a directive (not as the continuation of a line that ends
in the marker). Whatever opening a file would give, the file loop stops at that line with
the error that `makeError` builds from "expected exactly 1 argument after <directive>, but
got <n>", the contents and the pending flag unchanged: no file is opened. The message reads
"failed to process <file> on line <k>, expected exactly 1 argument after <directive>, but
got <n>", where `<file>` is the file being parsed and `<k>` the 1-based number of the line,
followed by the chain of imports, " - File <root> imports file <A1> which imports file ...
which imports file <file>", exactly when that file is two imports or more away from the
root file. For such a line of the root file, reached after lines that parse successfully and do
not end in a continuation marker, `Parsefile` fails with exactly this message. -/
theorem import_arity_error (env : Env) (p : BazelRcParser) (fuel : Nat) (S : List Str)
    (line : Str) (rest : List Str) (n : Nat) (vars : FileVars) (d : Str) (args : List Str)
    (hc : hasPrefix line ['#'] = false) (hne : line ≠ [])
    (htok : env.shlexSplit line = .ok (d :: args))
    (hd : d = importToken ∨ d = tryImportToken) (hargs : args.length ≠ 1) :
    (∀ osOpen : Str → Except Str (Except Str Str),
      fileLoop ⟨env.shlexSplit, osOpen, env.quote⟩ p (fuel + 1) S (line :: rest) n vars =
        some (vars, some (makeError S n
          ("expected exactly 1 argument after ".toList ++ d ++ ", but got ".toList ++
            fmtInt args.length) false))) ∧
    (∀ file, S.getLast? = some file →
      makeError S n
          ("expected exactly 1 argument after ".toList ++ d ++ ", but got ".toList ++
            fmtInt args.length) false =
        .error ("failed to process ".toList ++ file ++ " on line ".toList ++
          fmtInt ((n : Int) + 1) ++ ", expected exactly 1 argument after ".toList ++ d ++
          ", but got ".toList ++ fmtInt args.length ++
          (if 2 < S.length then
            " - File ".toList ++ S.headD [] ++ " imports file ".toList ++
              (" which imports file ".toList).intercalate S.tail
           else []))) ∧
    (∀ (content R : Str) (pre : List Str) (f : Nat) (out1 : BazelrcContents)
        (pend : Option Str),
      splitLines content = pre ++ line :: rest → endsOpen env pre = false →
      fileLoop env p f [R] pre 0 ⟨newBazelrcContents, none⟩ = some (⟨out1, pend⟩, none) →
      ∀ fuel1, f + 2 ≤ fuel1 →
        Parsefile env p fuel1 (.ok content) R =
          some (out1, some (.error ("failed to process ".toList ++ R ++ " on line ".toList ++
            fmtInt ((pre.length : Int) + 1) ++
            ", expected exactly 1 argument after ".toList ++ d ++ ", but got ".toList ++
            fmtInt args.length)))) := by
  refine ⟨fun osOpen => ?_, fun file hfile => ?_, ?_⟩
  · exact fileLoop_import_arity ⟨env.shlexSplit, osOpen, env.quote⟩ p fuel S line rest n vars
      d args hc hne htok hd hargs
  · rw [makeError_message_exact S file n _ hfile]
    simp [List.append_assoc]
  · intro content R pre f out1 pend hlines hopen hrun fuel1 hfuel
    obtain ⟨G, _, e⟩ := parsefile_reaches_line env p content R pre line rest f out1 pend
      hlines hopen hrun fuel1 hfuel
    rw [e, fileLoop_import_arity env p G [R] line rest pre.length _ d args hc hne htok hd
      hargs, makeError_root]
    simp [List.append_assoc]

/-- The file of the unit test "No arguments after import": the directive stands alone on
line 2; and the same line in a loop where every path would open. -/
theorem import_arity_error_witness :
    fileLoop ⟨(sampleEnv []).shlexSplit, fun _ => .ok (.ok []), (sampleEnv []).quote⟩
        sampleParser (0 + 1) ["/sample/bazelrc".toList] ("import".toList :: []) 1
        ⟨newBazelrcContents, none⟩ =
      some (⟨newBazelrcContents, none⟩, some (makeError ["/sample/bazelrc".toList] (1 : Nat)
        ("expected exactly 1 argument after ".toList ++ "import".toList ++
          ", but got ".toList ++ fmtInt ([] : List Str).length) false)) ∧
    Parsefile (sampleEnv []) sampleParser 5 (.ok "build --bool_flag\nimport".toList)
        "/sample/bazelrc".toList =
      some (newBazelrcContents.set "build".toList
          (appendValue emptyFlagValues "bool_flag".toList trueStr),
        some (.error
          "failed to process /sample/bazelrc on line 2, expected exactly 1 argument after import, but got 0".toList)) :=
  ⟨(import_arity_error (sampleEnv []) sampleParser 0 ["/sample/bazelrc".toList]
      "import".toList [] 1 ⟨newBazelrcContents, none⟩ "import".toList [] (by decide)
      (by decide) (by rfl) (Or.inl rfl) (by decide)).1 (fun _ => .ok (.ok [])),
   (import_arity_error (sampleEnv []) sampleParser 0 ["/sample/bazelrc".toList]
      "import".toList [] 1 ⟨newBazelrcContents, none⟩ "import".toList [] (by decide)
      (by decide) (by rfl) (Or.inl rfl) (by decide)).2.2
      "build --bool_flag\nimport".toList "/sample/bazelrc".toList ["build --bool_flag".toList]
      3 (newBazelrcContents.set "build".toList
          (appendValue emptyFlagValues "bool_flag".toList trueStr)) none
      (by decide) (by decide) (by rfl) 5 (by decide)⟩

/-- Counterexamples to C11 as stated. A line `import` that follows a line ending in the
continuation marker is read as the continuation of that line, its token being a target: the
parse succeeds. And when the line `import` stands in a file two imports away from the root,
the error of that file carries the chain of imports after the message; and when it stands
in an imported file, the error that `Parsefile` returns is the error of that file wrapped by
the importing file. -/
theorem import_after_marker_is_no_directive :
    observe (Parsefile (sampleEnv []) sampleParser 4 (.ok "build --a=1 \\\\\nimport".toList)
        "/sample/bazelrc".toList) "build".toList "a".toList =
      some (some ["1".toList], none) ∧
    observe (Parsefile (sampleEnv []) sampleParser 4
        (.ok "build --a=1 \\\\\nimport a b".toList) "/sample/bazelrc".toList)
        "build".toList "a".toList = some (some ["1".toList], none) ∧
    observe (parseFileInternal (sampleEnv []) sampleParser 3 newBazelrcContents
        (.ok "import".toList) ["/r".toList, "/a".toList, "/b".toList])
        "build".toList "a".toList =
      some (none, some (.error
        "failed to process /b on line 1, expected exactly 1 argument after import, but got 0 - File /r imports file /a which imports file /b".toList)) ∧
    observe (Parsefile (sampleEnv [("/a".toList, "import".toList)]) sampleParser 5
        (.ok "import /a".toList) "/r".toList) "build".toList "a".toList =
      some (none, some (.error
        "unable to parse import file due to error: failed to process /a on line 1, expected exactly 1 argument after import, but got 0".toList)) := by
  refine ⟨by decide, by decide, by decide, by decide⟩

/-- C12: a line that is not a comment and on which the tokenizer fails with the message `e`.
Read by the file loop, the line stops the loop with the error that `makeError` builds from
"unable to split line: " followed by `e`, for the file being parsed and the line's index
`n`, and the contents and the pending flag are as before the line. Read as the continuation
of a line that ends in the continuation marker, it stops the line driver with the same
error, and the state of the tokens is as the marker left it. The message reads "failed to
process <file> on line <n + 1>, unable to split line: <e>", followed by the chain of imports
when the file is two imports or more away from the root file. In the root file `Parsefile`
fails with exactly this message, with the contents that the lines before the failing line
gave: in both cases, when the lines before parse successfully. -/
theorem tokenizer_failure_fails_parse (env : Env) (p : BazelRcParser) (fuel : Nat)
    (S : List Str) (line : Str) (rest : List Str) (n : Nat) (vars : FileVars) (e : Str)
    (hc : hasPrefix line ['#'] = false) (hne : line ≠ [])
    (hsplit : env.shlexSplit line = .error e) :
    fileLoop env p (fuel + 1) S (line :: rest) n vars =
      some (vars, some (makeError S n ("unable to split line: ".toList ++ e) false)) ∧
    (∀ (recurse : List Str → LineVars → Option (LineVars × Option Failure))
        (tok : TokenState) (m : Nat), m + 1 = n →
      lineLoop env p S recurse [continuationMarker] ⟨tok, m, line :: rest⟩ =
        some (⟨tok, n, rest⟩,
          some (makeError S n ("unable to split line: ".toList ++ e) false))) ∧
    (∀ file, S.getLast? = some file →
      ∃ chain, makeError S n ("unable to split line: ".toList ++ e) false =
          .error ("failed to process ".toList ++ file ++ " on line ".toList ++
            fmtInt ((n : Int) + 1) ++ ", unable to split line: ".toList ++ e ++ chain) ∧
        (S.length ≤ 2 → chain = [])) ∧
    (∀ (content R : Str) (pre : List Str) (f : Nat) (out1 : BazelrcContents)
        (pend : Option Str),
      splitLines content = pre ++ line :: rest → endsOpen env pre = false →
      fileLoop env p f [R] pre 0 ⟨newBazelrcContents, none⟩ = some (⟨out1, pend⟩, none) →
      ∀ fuel1, f + 2 ≤ fuel1 →
        Parsefile env p fuel1 (.ok content) R =
          some (out1, some (.error ("failed to process ".toList ++ R ++ " on line ".toList ++
            fmtInt ((pre.length : Int) + 1) ++ ", unable to split line: ".toList ++ e)))) ∧
    (∀ (content R : Str) (pre : List Str) (first cmd : Str) (ts : List Str) (f : Nat)
        (out1 : BazelrcContents) (pend : Option Str) (st : TokenState),
      splitLines content = pre ++ first :: line :: rest → endsOpen env pre = false →
      fileLoop env p f [R] pre 0 ⟨newBazelrcContents, none⟩ = some (⟨out1, pend⟩, none) →
      hasPrefix first ['#'] = false → first ≠ [] →
      env.shlexSplit first = .ok (cmd :: (ts ++ [continuationMarker])) →
      cmd ≠ importToken → cmd ≠ tryImportToken → (∀ t ∈ ts, t ≠ ['-', '-']) →
      prefixRun env p [R] pre.length ts
        ⟨(out1.entries cmd).getD emptyFlagValues, [], pend⟩ = (st, none) →
      ∀ fuel1, f + 2 ≤ fuel1 →
        Parsefile env p fuel1 (.ok content) R =
          some (out1.set cmd st.entries,
            some (.error ("failed to process ".toList ++ R ++ " on line ".toList ++
              fmtInt ((pre.length : Int) + 2) ++ ", unable to split line: ".toList ++
              e)))) := by
  refine ⟨fileLoop_split_error env p fuel S line rest n vars e hc hne hsplit, ?_, ?_, ?_, ?_⟩
  · intro recurse tok m hm
    subst hm
    exact lineLoop_marker_split_error env p S recurse tok m line rest e hsplit
  · intro file hfile
    obtain ⟨chain, h1, h2⟩ := makeError_message S file n
      ("unable to split line: ".toList ++ e) hfile
    exact ⟨chain, by simpa [List.append_assoc] using h1, h2⟩
  · intro content R pre f out1 pend hlines hopen hrun fuel1 hfuel
    obtain ⟨G, _, h⟩ := parsefile_reaches_line env p content R pre line rest f out1 pend
      hlines hopen hrun fuel1 hfuel
    rw [h, fileLoop_split_error env p G [R] line rest pre.length _ e hc hne hsplit,
      makeError_root]
    simp [List.append_assoc]
  · intro content R pre first cmd ts f out1 pend st hlines hopen hrun hc1 hne1 htok hi ht hsep
      hts fuel1 hfuel
    obtain ⟨G, hG, h⟩ := parsefile_reaches_line env p content R pre first (line :: rest) f
      out1 pend hlines hopen hrun fuel1 hfuel
    obtain ⟨G1, rfl⟩ : ∃ G1, G = G1 + 1 := ⟨G - 1, by omega⟩
    rw [h, fileLoop_open_line env p G1 [R] first (line :: rest) pre.length _ cmd ts st hc1
      hne1 htok hi ht hsep hts,
      lineLoop_marker_split_error env p [R] _ st pre.length line rest e hsplit,
      makeError_root]
    have h2 : ((pre.length : Int) + 1 + 1) = (pre.length : Int) + 2 := by omega
    simp [List.append_assoc, h2]

/-- A line that ends in a lone backslash, on which the tokenizer fails: as the second line
of a file, and as the continuation of a first line that ends in the continuation marker. -/
theorem tokenizer_failure_fails_parse_witness :
    Parsefile (sampleEnv []) sampleParser 5 (.ok "build --a=1\ntest x\\".toList)
        "/sample/bazelrc".toList =
      some (newBazelrcContents.set "build".toList
          (appendValue emptyFlagValues "a".toList "1".toList),
        some (.error
          "failed to process /sample/bazelrc on line 2, unable to split line: EOF found after escape character".toList)) ∧
    Parsefile (sampleEnv []) sampleParser 5 (.ok "build --a=1 \\\\\ntest x\\".toList)
        "/sample/bazelrc".toList =
      some (newBazelrcContents.set "build".toList
          (appendValue emptyFlagValues "a".toList "1".toList),
        some (.error
          "failed to process /sample/bazelrc on line 2, unable to split line: EOF found after escape character".toList)) :=
  ⟨(tokenizer_failure_fails_parse (sampleEnv []) sampleParser 0 ["/sample/bazelrc".toList]
      "test x\\".toList [] 1 ⟨newBazelrcContents, none⟩
      "EOF found after escape character".toList (by decide) (by decide) (by rfl)).2.2.2.1
      "build --a=1\ntest x\\".toList "/sample/bazelrc".toList ["build --a=1".toList] 3
      (newBazelrcContents.set "build".toList
        (appendValue emptyFlagValues "a".toList "1".toList)) none
      (by decide) (by decide) (by rfl) 5 (by decide),
   (tokenizer_failure_fails_parse (sampleEnv []) sampleParser 0 ["/sample/bazelrc".toList]
      "test x\\".toList [] 1 ⟨newBazelrcContents, none⟩
      "EOF found after escape character".toList (by decide) (by decide) (by rfl)).2.2.2.2
      "build --a=1 \\\\\ntest x\\".toList "/sample/bazelrc".toList [] "build --a=1 \\\\".toList
      "build".toList ["--a=1".toList] 1 newBazelrcContents none
      ⟨appendValue emptyFlagValues "a".toList "1".toList, [], none⟩
      (by decide) (by decide) (by rfl) (by decide) (by decide) (by rfl) (by decide)
      (by decide) (by decide) (by rfl) 5 (by decide)⟩

/-- C13, amended: a physical line that is empty or begins with `#` and that the file loop
reads as the start of a line (it is not the continuation of a line that ends in the
continuation marker) is passed over: whatever the tokenizer would make of it, the loop goes
on with the next line, and the contents and the pending flag are as before. So in a root
file whose lines before it parse successfully and do not end in a continuation marker,
`Parsefile` succeeds with the contents that the lines after it give, when these parse
successfully. -/
theorem comment_line_skipped (env : Env) (p : BazelRcParser) (fuel : Nat) (S : List Str)
    (line : Str) (rest : List Str) (n : Nat) (vars : FileVars)
    (hskip : hasPrefix line ['#'] = true ∨ line = []) :
    fileLoop env p (fuel + 1) S (line :: rest) n vars =
      fileLoop env p fuel S rest (n + 1) vars ∧
    (∀ (content R : Str) (pre : List Str) (f g : Nat) (out1 : BazelrcContents)
        (pend : Option Str) (v : FileVars),
      splitLines content = pre ++ line :: rest → endsOpen env pre = false →
      fileLoop env p f [R] pre 0 ⟨newBazelrcContents, none⟩ = some (⟨out1, pend⟩, none) →
      fileLoop env p g [R] rest (pre.length + 1) ⟨out1, pend⟩ = some (v, none) →
      ∀ fuel1, f + g + 2 ≤ fuel1 →
        Parsefile env p fuel1 (.ok content) R = some (v.out, none)) := by
  have hc : (hasPrefix line ['#'] || line == []) = true := by
    rcases hskip with h | h <;> simp [h]
  have step : ∀ k T m w, fileLoop env p (k + 1) T (line :: rest) m w =
      fileLoop env p k T rest (m + 1) w := by
    intro k T m w
    rw [fileLoop_succ_cons, if_pos hc]
  refine ⟨step fuel S n vars, ?_⟩
  intro content R pre f g out1 pend v hlines hopen hpre hrest fuel1 hfuel
  obtain ⟨G, hG, h⟩ := parsefile_reaches_line env p content R pre line rest f out1 pend
    hlines hopen hpre fuel1 (by omega)
  rw [h, step, fileLoop_success_stable env p g G [R] [R] rest _ _ _ v (fun _ hx => hx)
    (by omega) hrest]

/-- The file of the unit test "Ignores commented lines", and a file whose first line is a
comment on which the tokenizer would fail. -/
theorem comment_line_skipped_witness :
    Parsefile (sampleEnv []) sampleParser 6
        (.ok "#build --ignored=value\nbuild --foo=bar".toList) "/sample/bazelrc".toList =
      some (newBazelrcContents.set "build".toList
        (appendValue emptyFlagValues "foo".toList "bar".toList), none) ∧
    (sampleEnv []).shlexSplit "#oops\\".toList =
      .error "EOF found after escape character".toList ∧
    Parsefile (sampleEnv []) sampleParser 6 (.ok "#oops\\\nbuild --foo=bar".toList)
        "/sample/bazelrc".toList =
      some (newBazelrcContents.set "build".toList
        (appendValue emptyFlagValues "foo".toList "bar".toList), none) :=
  ⟨(comment_line_skipped (sampleEnv []) sampleParser 0 ["/sample/bazelrc".toList]
      "#build --ignored=value".toList ["build --foo=bar".toList] 0 ⟨newBazelrcContents, none⟩
      (Or.inl (by decide))).2 "#build --ignored=value\nbuild --foo=bar".toList
      "/sample/bazelrc".toList [] 1 3 newBazelrcContents none
      ⟨newBazelrcContents.set "build".toList
        (appendValue emptyFlagValues "foo".toList "bar".toList), none⟩
      (by decide) (by decide) (by rfl) (by rfl) 6 (by decide),
   by rfl,
   (comment_line_skipped (sampleEnv []) sampleParser 0 ["/sample/bazelrc".toList]
      "#oops\\".toList ["build --foo=bar".toList] 0 ⟨newBazelrcContents, none⟩
      (Or.inl (by decide))).2 "#oops\\\nbuild --foo=bar".toList
      "/sample/bazelrc".toList [] 1 3 newBazelrcContents none
      ⟨newBazelrcContents.set "build".toList
        (appendValue emptyFlagValues "foo".toList "bar".toList), none⟩
      (by decide) (by decide) (by rfl) (by rfl) 6 (by decide)⟩

/-- Counterexample to C13 as stated: an empty line that follows a line ending in the
continuation marker is not passed over. The line driver reads it as the continuation of
that line and hands it to the tokenizer, and the logical line ends with it: `test --b=2` on
the third line is parsed as a line of its own and `b` is recorded under `test`. Without the
empty line, `test --b=2` is the continuation of the first line, and `b` is recorded under
`build`. -/
theorem empty_line_after_marker_is_read :
    observe (Parsefile (sampleEnv []) sampleParser 6
        (.ok "build --a=1 \\\\\n\ntest --b=2".toList) "/sample/bazelrc".toList)
        "test".toList "b".toList = some (some ["2".toList], none) ∧
    observe (Parsefile (sampleEnv []) sampleParser 6
        (.ok "build --a=1 \\\\\n\ntest --b=2".toList) "/sample/bazelrc".toList)
        "build".toList "b".toList = some (none, none) ∧
    observe (Parsefile (sampleEnv []) sampleParser 6
        (.ok "build --a=1 \\\\\ntest --b=2".toList) "/sample/bazelrc".toList)
        "test".toList "b".toList = some (none, none) ∧
    observe (Parsefile (sampleEnv []) sampleParser 6
        (.ok "build --a=1 \\\\\ntest --b=2".toList) "/sample/bazelrc".toList)
        "build".toList "b".toList = some (some ["2".toList], none) := by
  refine ⟨by decide, by decide, by decide, by decide⟩

/-- C14: `BazelFlagValues.FlagValue` returns the last element of the list stored under the
name (a list that is not empty has one) and nothing when the name is not a key;
`BazelrcContents.FlagValue` returns nothing when the sub-command has no entry and otherwise
what `FlagValue` returns on the map of that sub-command. So after the line
`cmd --a=v1 ... --a=vn` with `n ≥ 1`, which parses successfully, the value looked up for
`a` under `cmd` is `vn`. -/
theorem flag_value_returns_last (env : Env) (p : BazelRcParser) (fuel : Nat)
    (line cmd a path : Str) (vs : List Str)
    (hfuel : 3 ≤ fuel) (hnl : '\n' ∉ line) (hne : line ≠ [])
    (hcomment : hasPrefix line ['#'] = false)
    (htok : env.shlexSplit line = .ok (cmd :: vs.map (flagEq a))) (hvs : vs ≠ [])
    (himp : cmd ≠ importToken) (htry : cmd ≠ tryImportToken) (heq : '=' ∉ a) :
    (∀ (m : BazelFlagValues) (name : Str) (values : List Str) (h : values ≠ []),
      m name = some values →
      BazelFlagValues.FlagValue m name = .ok (some (values.getLast h))) ∧
    (∀ (m : BazelFlagValues) (name : Str), m name = none →
      BazelFlagValues.FlagValue m name = .ok none) ∧
    (∀ (c : BazelrcContents) (command name : Str), c.entries command = none →
      c.FlagValue command name = .ok none) ∧
    (∀ (c : BazelrcContents) (command name : Str) (m : BazelFlagValues),
      c.entries command = some m →
      c.FlagValue command name = BazelFlagValues.FlagValue m name) ∧
    ∃ c, Parsefile env p fuel (.ok line) path = some (c, none) ∧
      c.values cmd a = some vs ∧ c.FlagValue cmd a = .ok (some (vs.getLast hvs)) := by
  refine ⟨fun m name values h hm => flagValue_of_some m name values hm h, ?_, ?_, ?_, ?_⟩
  · intro m name hm
    simp only [BazelFlagValues.FlagValue, hm]
  · intro c command name hc
    simp only [BazelrcContents.FlagValue, hc]
  · intro c command name m hc
    simp only [BazelrcContents.FlagValue, hc]
  · obtain ⟨k, rfl⟩ := Nat.exists_eq_add_of_le' hfuel
    have hrun := lineLoop_flagEq_list env p [path]
      (parseLineWithoutCommandPrefix env p [path] k) a heq vs
      ⟨⟨emptyFlagValues, [], none⟩, 0, []⟩ rfl
    obtain ⟨x, xs, rfl⟩ := List.exists_cons_of_ne_nil hvs
    have hvalues : (newBazelrcContents.set cmd
        ((x :: xs).foldl (fun m v => appendValue m a v) emptyFlagValues)).values cmd a =
        some (x :: xs) := by
      simp only [BazelrcContents.values, BazelrcContents.set, List.foldl_cons]
      simp [foldl_appendValue_same, emptyFlagValues]
    exact ⟨_, parsefile_one_line env p k line path cmd _ _ _ none hnl hcomment hne htok himp
      htry hrun rfl, hvalues, contents_flagValue_of_values _ cmd a (x :: xs) hvalues hvs⟩

/-- The line `cmd --a=1 --a=2`: the value looked up for `a` is `2`. -/
theorem flag_value_returns_last_witness :
    ∃ c, Parsefile (sampleEnv []) sampleParser 3 (.ok "cmd --a=1 --a=2".toList)
        "/sample/bazelrc".toList = some (c, none) ∧
      c.values "cmd".toList "a".toList = some ["1".toList, "2".toList] ∧
      c.FlagValue "cmd".toList "a".toList = .ok (some "2".toList) :=
  (flag_value_returns_last (sampleEnv []) sampleParser 3 "cmd --a=1 --a=2".toList
    "cmd".toList "a".toList "/sample/bazelrc".toList ["1".toList, "2".toList]
    (by decide) (by decide) (by decide) (by decide) (by rfl) (by decide) (by decide)
    (by decide) (by decide)).2.2.2.2

/-- C15, amended: a command line `pre ++ ["--"] ++ post` whose tokens `pre` hold no `--` and,
classified in turn, leave no flag that takes the `--` as its value (no flag is pending after
them, or the pending flag is a known boolean flag). When the call succeeds,
`ExecutableArgs` is `post`; `Targets` holds tokens of `pre` only, in their order, and not
`--`; and the tokens after the `--` add nothing: with any other tokens `post1` in their
place the call succeeds with the same targets and flags and with `post1` as
`ExecutableArgs`. And when a command line holds no `--` at all and the call succeeds,
`ExecutableArgs` is empty and `Targets` is the whole target accumulator. -/
theorem executable_args_follow_separator (env : Env) (fd : FlagData)
    (pre post post1 : List Str) (r : CommandLineArgsAfterCommand)
    (hsep : ∀ t ∈ pre, t ≠ ['-', '-'])
    (hpend : ∀ flag,
      (prefixRun env (NewBazelRcParser [] fd) [] (-1) pre
        ⟨emptyFlagValues, [], none⟩).1.pending = some flag →
      isKnownBooleanFlag (NewBazelRcParser [] fd) (stripLeadingDashes flag) = true)
    (hok : ParseCommandLineArgsAfterCommand env fd (pre ++ ['-', '-'] :: post) = .ok r) :
    r.ExecutableArgs = post ∧ r.Targets.Sublist pre ∧ ['-', '-'] ∉ r.Targets ∧
    ParseCommandLineArgsAfterCommand env fd (pre ++ ['-', '-'] :: post1) =
      .ok ⟨r.Targets, r.BazelFlags, post1⟩ ∧
    (∀ (tokens : List Str) (r1 : CommandLineArgsAfterCommand),
      (∀ t ∈ tokens, t ≠ ['-', '-']) →
      ParseCommandLineArgsAfterCommand env fd tokens = .ok r1 →
      r1.ExecutableArgs = [] ∧
      r1.Targets = (parseTokenizedArgsOnSingleLineAfterCommand env (NewBazelRcParser [] fd)
        [] (-1) tokens ⟨emptyFlagValues, [], none⟩).1.targets) := by
  obtain ⟨res, hres, htargets⟩ := parseCommandLine_at_separator env fd pre hsep hpend
  obtain ⟨added, ht, hsub, _⟩ := prefixRun_targets env (NewBazelRcParser [] fd) [] (-1) pre
    ⟨emptyFlagValues, [], none⟩
  simp only [List.nil_append] at ht
  have h := hres post
  rw [hok] at h
  cases res with
  | error f => simp at h
  | ok x =>
    simp only [Except.ok.injEq] at h
    have hx := htargets x rfl
    subst h
    simp only
    refine ⟨trivial, ?_, ?_, hres post1, ?_⟩
    · rw [hx, ht]
      exact hsub
    · rw [hx, ht]
      exact fun h => hsep _ (hsub.subset h) rfl
    · intro tokens r1 hno hok1
      obtain ⟨added1, k1, k2⟩ := parseTokenizedArgs_targets_mem env (NewBazelRcParser [] fd)
        [] (-1) tokens ⟨emptyFlagValues, [], none⟩
      unfold ParseCommandLineArgsAfterCommand at hok1
      dsimp only at hok1
      generalize parseTokenizedArgsOnSingleLineAfterCommand env (NewBazelRcParser [] fd)
        [] (-1) tokens ⟨emptyFlagValues, [], none⟩ = run at hok1 k1 ⊢
      obtain ⟨st, res1⟩ := run
      simp only [List.nil_append] at k1 hok1 ⊢
      have hnot : ['-', '-'] ∉ st.targets := by
        rw [k1]
        exact fun h => hno _ (k2 _ h) rfl
      have hsplit := splitAtSeparator_of_not_mem _ hnot
      cases res1 with
      | error f => cases f <;> simp at hok1
      | ok c =>
        cases c with
        | true => simp at hok1
        | false =>
          cases hp : st.pending with
          | some flag => simp [hp] at hok1
          | none =>
            simp only [Bool.false_eq_true, if_false, hp, Except.ok.injEq] at hok1
            subst hok1
            simp [hsplit]

/-- The command line of the unit test "OneTargetWithBazelFlagsAndNonBazelFlags", shortened:
a flag with its value, a target, the separator and three tokens after it. -/
theorem executable_args_follow_separator_witness :
    ["--flag_for_target".toList, "--jobs=8".toList, "positional".toList] =
      ["--flag_for_target".toList, "--jobs=8".toList, "positional".toList] ∧
    List.Sublist ["@remote//some:target".toList]
      ["--jobs=8".toList, "--bool_flag".toList, "@remote//some:target".toList] ∧
    ['-', '-'] ∉ ["@remote//some:target".toList] ∧
    ParseCommandLineArgsAfterCommand (sampleEnv []) sampleFlags
        (["--jobs=8".toList, "--bool_flag".toList, "@remote//some:target".toList] ++
          ['-', '-'] :: ["x".toList]) =
      .ok ⟨["@remote//some:target".toList],
        appendValue (appendValue emptyFlagValues "jobs".toList "8".toList)
          "bool_flag".toList trueStr, ["x".toList]⟩ :=
  let h := executable_args_follow_separator (sampleEnv []) sampleFlags
    ["--jobs=8".toList, "--bool_flag".toList, "@remote//some:target".toList]
    ["--flag_for_target".toList, "--jobs=8".toList, "positional".toList] ["x".toList]
    ⟨["@remote//some:target".toList],
      appendValue (appendValue emptyFlagValues "jobs".toList "8".toList)
        "bool_flag".toList trueStr,
      ["--flag_for_target".toList, "--jobs=8".toList, "positional".toList]⟩
    (by decide) (by decide) (by rfl)
  ⟨h.1, h.2.1, h.2.2.1, h.2.2.2.1⟩

/-- Counterexample to C15 as stated: after `--jobs`, a flag that takes a value, the token
`--` is that value and not the separator. The call succeeds, `ExecutableArgs` is empty
although `x` comes after the first `--`, and `x` is a target. -/
theorem separator_taken_as_flag_value :
    observeArgs (ParseCommandLineArgsAfterCommand (sampleEnv []) sampleFlags
      ["--jobs".toList, ['-', '-'], "x".toList]) "jobs".toList =
      .ok (["x".toList], some [['-', '-']], []) := by
  rfl

/-- C16: what `ParseCommandLineArgsAfterCommand` does when the last token is a flag that is
left without its value, after tokens `pre` that hold no `--`, are classified without error
and leave no flag pending. For a bare `--name` whose looked-up name is not registered as
boolean, `handleBooleanFlag` builds its error with `makeError` on the empty import call
stack of the command line, which takes the last element of that stack: the call aborts and
returns neither a failure value nor a result. For a bare `-c` that abbreviates a flag not
registered as boolean, the call returns the failure "internal error: ended parsing Bazel
command line while expecting value for flag ...". -/
theorem trailing_flag_without_value (env : Env) (fd : FlagData) (pre : List Str)
    (st : TokenState) (hsep : ∀ t ∈ pre, t ≠ ['-', '-'])
    (hrun : prefixRun env (NewBazelRcParser [] fd) [] (-1) pre
      ⟨emptyFlagValues, [], none⟩ = (st, none))
    (hp : st.pending = none) :
    (∀ name : Str, name ≠ [] → '=' ∉ name →
      lookupBool fd.BooleanFlags (booleanFlagName ('-' :: '-' :: name)) = false →
      ParseCommandLineArgsAfterCommand env fd (pre ++ ['-' :: '-' :: name]) =
        .error .panic) ∧
    (∀ (c : Char) (full : Str), c ≠ '-' → fd.FlagAbbreviations [c] = some full →
      lookupBool fd.BooleanFlags full = false →
      ParseCommandLineArgsAfterCommand env fd (pre ++ [['-', c]]) =
        .error (.error
          ("internal error: ended parsing Bazel command line while expecting value for flag ".toList
            ++ env.quote ('-' :: '-' :: full)))) := by
  constructor
  · intro name hne heq hnb
    rw [ParseCommandLineArgsAfterCommand,
      parseTokenizedArgs_append env _ [] (-1) pre ['-' :: '-' :: name] (by simp) hsep]
    simp only [hrun, parseTokenizedArgs_singleton,
      parseToken_bare_last env (NewBazelRcParser [] fd) name st [] (-1) hp hne heq,
      handleBooleanFlag_of_not_boolean (NewBazelRcParser [] fd) ('-' :: '-' :: name) st.entries
        [] (-1) hnb, makeError_nil]
  · intro c full hc hab hnb
    rw [ParseCommandLineArgsAfterCommand,
      parseTokenizedArgs_append env _ [] (-1) pre [['-', c]] (by simp) hsep]
    simp only [hrun, parseTokenizedArgs_singleton,
      parseToken_abbrev_pending env (NewBazelRcParser [] fd) c full true st [] (-1) hp hc hab
        hnb, Bool.false_eq_true, if_false]

/-- With the schema of the unit tests, where `jobs` takes a value and `-j` abbreviates it:
the command line `--jobs` aborts, the command line `-j` returns a failure. -/
theorem trailing_flag_without_value_witness :
    ParseCommandLineArgsAfterCommand (sampleEnv []) sampleFlags ([] ++ ["--jobs".toList]) =
      .error .panic ∧
    ParseCommandLineArgsAfterCommand (sampleEnv []) sampleFlags ([] ++ [['-', 'j']]) =
      .error (.error
        ("internal error: ended parsing Bazel command line while expecting value for flag ".toList
          ++ (sampleEnv []).quote ('-' :: '-' :: "jobs".toList))) :=
  ⟨(trailing_flag_without_value (sampleEnv []) sampleFlags [] ⟨emptyFlagValues, [], none⟩
      (by decide) (by rfl) (by rfl)).1 "jobs".toList (by decide) (by decide) (by decide),
   (trailing_flag_without_value (sampleEnv []) sampleFlags [] ⟨emptyFlagValues, [], none⟩
      (by decide) (by rfl) (by rfl)).2 'j' "jobs".toList (by decide) (by rfl) (by decide)⟩

/-- C17, amended: a command line whose last token is the continuation marker and in which no
`--` before the marker is classified as the separator (there is none, or each is taken as
the value of a pending flag). `ParseCommandLineArgsAfterCommand` returns no result for it;
and when the tokens before the marker are classified without failure, it returns the
failure "didn't understand continuation \ at end of command". A command line that holds no
`--` before the marker is such a command line. -/
theorem trailing_marker_is_rejected (env : Env) (fd : FlagData) (pre : List Str)
    (hsep : meetsNoSeparator env (NewBazelRcParser [] fd) [] (-1) pre
      ⟨emptyFlagValues, [], none⟩ = true) :
    (∃ f, ParseCommandLineArgsAfterCommand env fd (pre ++ [continuationMarker]) = .error f) ∧
    (∀ st, prefixRun env (NewBazelRcParser [] fd) [] (-1) pre
        ⟨emptyFlagValues, [], none⟩ = (st, none) →
      ParseCommandLineArgsAfterCommand env fd (pre ++ [continuationMarker]) =
        .error (.error "didn't understand continuation \\ at end of command".toList)) ∧
    (∀ tokens : List Str, (∀ t ∈ tokens, t ≠ ['-', '-']) →
      meetsNoSeparator env (NewBazelRcParser [] fd) [] (-1) tokens
        ⟨emptyFlagValues, [], none⟩ = true) := by
  have key : ParseCommandLineArgsAfterCommand env fd (pre ++ [continuationMarker]) =
      match prefixRun env (NewBazelRcParser [] fd) [] (-1) pre
          ⟨emptyFlagValues, [], none⟩ with
      | (_, some .panic) => .error .panic
      | (_, some (.error msg)) =>
        .error (.error ("failed to parse bazel command line: ".toList ++ msg))
      | (_, none) =>
        .error (.error "didn't understand continuation \\ at end of command".toList) := by
    rw [ParseCommandLineArgsAfterCommand,
      parseTokenizedArgs_append_run env _ [] (-1) pre [continuationMarker] (by simp) _ hsep]
    rcases prefixRun env (NewBazelRcParser [] fd) [] (-1) pre
        ⟨emptyFlagValues, [], none⟩ with ⟨st, _ | err⟩
    · simp only [parseTokenizedArgs_singleton, parseToken_marker, if_true]
    · cases err <;> rfl
  refine ⟨?_, ?_, fun tokens h => meetsNoSeparator_of_not_mem env _ [] (-1) tokens _ h⟩
  · rw [key]
    rcases prefixRun env (NewBazelRcParser [] fd) [] (-1) pre
        ⟨emptyFlagValues, [], none⟩ with ⟨st, _ | err⟩
    · exact ⟨_, rfl⟩
    · cases err <;> exact ⟨_, rfl⟩
  · intro st hrun
    rw [key, hrun]

/-- A target followed by the marker, as in `bazel build //x \`; and a `--` that is the value
of `--jobs`, followed by the marker. -/
theorem trailing_marker_is_rejected_witness :
    ParseCommandLineArgsAfterCommand (sampleEnv []) sampleFlags
        (["//x".toList] ++ [continuationMarker]) =
      .error (.error "didn't understand continuation \\ at end of command".toList) ∧
    ParseCommandLineArgsAfterCommand (sampleEnv []) sampleFlags
        (["--jobs".toList, ['-', '-']] ++ [continuationMarker]) =
      .error (.error "didn't understand continuation \\ at end of command".toList) :=
  ⟨(trailing_marker_is_rejected (sampleEnv []) sampleFlags ["//x".toList] (by decide)).2.1
      ⟨emptyFlagValues, ["//x".toList], none⟩ (by rfl),
   (trailing_marker_is_rejected (sampleEnv []) sampleFlags ["--jobs".toList, ['-', '-']]
      (by decide)).2.1
      ⟨appendValue emptyFlagValues "jobs".toList ['-', '-'], [], none⟩ (by rfl)⟩

/-- Counterexample to C17 as stated: after the separator `--` every token is an argument of
the executable, the marker too. For the command line `--` `\` the call returns a result,
whose `ExecutableArgs` hold the marker. -/
theorem marker_after_separator_is_an_argument :
    observeArgs (ParseCommandLineArgsAfterCommand (sampleEnv []) sampleFlags
      [['-', '-'], continuationMarker]) "jobs".toList =
      .ok ([], none, [continuationMarker]) := by
  rfl

/-- C18: a continuation marker that is the last token of the last line of a file. The line
driver, arriving at the marker with no line left, stops without error and leaves the state
of the tokens as it is. So for a root file whose last line has the tokens `cmd t1 ... tn \`,
where the lines before it parse successfully and do not end in a continuation marker and
`t1 ... tn` are classified without error, `Parsefile` succeeds, and every value recorded
before the line is kept: each value list of the contents before the line is a prefix of the
list under the same sub-command and flag. When none of `t1 ... tn` is `--`, the values
recorded from `t1 ... tn` are kept as well: under `cmd` each flag holds the list that
`t1 ... tn` leave for it, and under every other sub-command what it held before the line;
these contents are those before the line with the entry of `cmd` set. -/
theorem trailing_continuation_at_end_of_file (env : Env) (p : BazelRcParser)
    (content R : Str) (pre : List Str) (line cmd : Str) (ts : List Str) (f : Nat)
    (out1 : BazelrcContents) (pend : Option Str) (st : TokenState)
    (hlines : splitLines content = pre ++ [line]) (hopen : endsOpen env pre = false)
    (hrun : fileLoop env p f [R] pre 0 ⟨newBazelrcContents, none⟩ = some (⟨out1, pend⟩, none))
    (hc : hasPrefix line ['#'] = false) (hne : line ≠ [])
    (htok : env.shlexSplit line = .ok (cmd :: (ts ++ [continuationMarker])))
    (hi : cmd ≠ importToken) (ht : cmd ≠ tryImportToken)
    (hts : prefixRun env p [R] pre.length ts
      ⟨(out1.entries cmd).getD emptyFlagValues, [], pend⟩ = (st, none))
    (fuel : Nat) (hfuel : f + 2 ≤ fuel) :
    (∀ (S : List Str) (recurse : List Str → LineVars → Option (LineVars × Option Failure))
        (tok : TokenState) (n : Nat),
      lineLoop env p S recurse [continuationMarker] ⟨tok, n, []⟩ =
        some (⟨tok, n + 1, []⟩, none)) ∧
    ∃ c, Parsefile env p fuel (.ok content) R = some (c, none) ∧
      (∀ (cmd1 k : Str) (vs : List Str), out1.values cmd1 k = some vs →
        ∃ extra, c.values cmd1 k = some (vs ++ extra)) ∧
      ((∀ t ∈ ts, t ≠ ['-', '-']) →
        c = out1.set cmd st.entries ∧
        (∀ k, c.values cmd k = st.entries k) ∧
        (∀ cmd1 k, cmd1 ≠ cmd → c.values cmd1 k = out1.values cmd1 k)) := by
  refine ⟨fun S recurse tok n => lineLoop_marker_eof env p S recurse tok n, ?_⟩
  obtain ⟨G, hG, h⟩ := parsefile_reaches_line env p content R pre line [] f out1 pend
    hlines hopen hrun fuel hfuel
  obtain ⟨G1, rfl⟩ : ∃ G1, G = G1 + 1 := ⟨G - 1, by omega⟩
  obtain ⟨w, h1, h2, h3⟩ := lineLoop_last_line_open env p [R]
    (parseLineWithoutCommandPrefix env p [R] G1) ts _ st pre.length hts
  have hloop : fileLoop env p (G1 + 1 + 1) [R] [line] pre.length ⟨out1, pend⟩ =
      some (⟨out1.set cmd w.tok.entries, w.tok.pending⟩, none) := by
    rw [fileLoop_command_args env p (G1 + 1) [R] line [] pre.length _ cmd
      (ts ++ [continuationMarker]) hc hne htok (by simp) hi ht, parseLine_succ, h1]
    simp only [h2, fileLoop_nil]
  have happ := (parse_appended_all env p (G1 + 1 + 1)).1 [R] [line] pre.length
    ⟨out1, pend⟩ _ none hloop
  refine ⟨out1.set cmd w.tok.entries, ?_,
    fun cmd1 k vs hk => contentsAppended_values happ cmd1 k vs hk, fun hsep => ?_⟩
  · rw [h, hloop]
  · rw [h3 hsep]
    refine ⟨rfl, fun k => ?_, fun cmd1 k hne1 => ?_⟩
    · simp [BazelrcContents.values, BazelrcContents.set]
    · simp [BazelrcContents.values, BazelrcContents.set, hne1]

/-- The file of the unit test "continuation line without following line": `foo` holds
`hello` under `build`. -/
theorem trailing_continuation_at_end_of_file_witness :
    ∃ c, Parsefile (sampleEnv []) sampleParser 3 (.ok "build --foo hello \\\\".toList)
        "/sample/bazelrc".toList = some (c, none) ∧
      c.values "build".toList "foo".toList = some ["hello".toList] := by
  obtain ⟨c, h, _, hc⟩ := (trailing_continuation_at_end_of_file (sampleEnv []) sampleParser
    "build --foo hello \\\\".toList "/sample/bazelrc".toList []
    "build --foo hello \\\\".toList
    "build".toList ["--foo".toList, "hello".toList] 1 newBazelrcContents none
    ⟨appendValue emptyFlagValues "foo".toList "hello".toList, [], none⟩
    (by decide) (by decide) (by rfl) (by decide) (by decide) (by rfl) (by decide) (by decide)
    (by rfl) 3 (by decide)).2
  exact ⟨c, h, by rw [(hc (by decide)).2.1]; rfl⟩

/-- C20: the path of an `import` or `try-import` line. With `path` the text that
`replaceAll` makes of the path token, the file loop looks for `path` on the call stack,
opens `path`, parses what it opened on the call stack extended by `path`, and names `path`
in its errors: the path token plays no other part. A path token that does not hold
`%workspace%` is used unchanged. A path token `a ++ "%workspace%" ++ b`, where no
`%workspace%` begins in `a`, becomes `a`, then the workspace directory, then `b` with its
own occurrences replaced in the same way. -/
theorem import_path_is_substituted (env : Env) (p : BazelRcParser) (fuel : Nat)
    (S : List Str) (line : Str) (rest : List Str) (n : Nat) (vars : FileVars)
    (d pathToken path : Str)
    (hc : hasPrefix line ['#'] = false) (hne : line ≠ [])
    (htok : env.shlexSplit line = .ok [d, pathToken])
    (hd : d = importToken ∨ d = tryImportToken)
    (hpath : replaceAll pathToken workspacePlaceholder p.workspaceDirectory = path) :
    fileLoop env p (fuel + 1) S (line :: rest) n vars =
      (if S.contains path then
        some (vars, some (makeError (S ++ [path]) n importCycleErrorMessage false))
      else
        match env.osOpen path with
        | .error err =>
          if d == importToken then
            some (vars, some (makeError (S ++ [path]) n
              ("unable to open file: ".toList ++ err) false))
          else fileLoop env p fuel S rest (n + 1) vars
        | .ok file =>
          match parseFileInternal env p fuel vars.out file (S ++ [path]) with
          | none => none
          | some (out, some (.error msg)) =>
            if strContains msg importCycleErrorMessage then
              some ({ vars with out := out }, some (.error msg))
            else
              some ({ vars with out := out },
                some (makeError (S ++ [path]) n
                  ("unable to parse import file due to error: ".toList ++ msg) true))
          | some (out, some .panic) => some ({ vars with out := out }, some .panic)
          | some (out, none) => fileLoop env p fuel S rest (n + 1) { vars with out := out }) ∧
    (strContains pathToken workspacePlaceholder = false → path = pathToken) ∧
    (∀ a b : Str, pathToken = a ++ workspacePlaceholder ++ b →
      strContains (a ++ workspacePlaceholder.dropLast) workspacePlaceholder = false →
      path = a ++ p.workspaceDirectory ++
        replaceAll b workspacePlaceholder p.workspaceDirectory) := by
  have hcmd : (d == importToken || d == tryImportToken) = true := by
    rcases hd with h | h <;> simp [h]
  have hc1 : ¬ (hasPrefix line ['#'] || line == []) = true := by simp [hc, hne]
  subst hpath
  refine ⟨?_, fun h => replaceAll_of_not_contains _ _ _ h, fun a b hab h => ?_⟩
  · rw [fileLoop_succ_cons, if_neg hc1, (tokenizeLine_eq_ok env line _ _ _).2 htok]
    simp only [if_pos hcmd]
  · rw [hab]
    exact replaceAll_first_occurrence _ _ a b (by decide) h

/-- The file of the unit test "workspace import", with workspace directory `/ws`, and a path
token without the placeholder. -/
theorem import_path_is_substituted_witness :
    fileLoop (sampleEnv [("/ws/workspace-bazelrc".toList, "test --workspace=true".toList)])
        sampleParser (3 + 1) ["/sample/bazelrc".toList]
        ["import %workspace%/workspace-bazelrc".toList] 0 ⟨newBazelrcContents, none⟩ =
      some (⟨newBazelrcContents.set "test".toList
        (appendValue emptyFlagValues "workspace".toList "true".toList), none⟩, none) ∧
    "/ws/workspace-bazelrc".toList = [] ++ sampleParser.workspaceDirectory ++
      replaceAll "/workspace-bazelrc".toList workspacePlaceholder
        sampleParser.workspaceDirectory ∧
    "/ws/workspace-bazelrc".toList = "/ws/workspace-bazelrc".toList :=
  ⟨(import_path_is_substituted
      (sampleEnv [("/ws/workspace-bazelrc".toList, "test --workspace=true".toList)])
      sampleParser 3 ["/sample/bazelrc".toList] "import %workspace%/workspace-bazelrc".toList
      [] 0 ⟨newBazelrcContents, none⟩ "import".toList "%workspace%/workspace-bazelrc".toList
      "/ws/workspace-bazelrc".toList (by decide) (by decide) (by rfl) (Or.inl (by decide))
      (by decide)).1,
   (import_path_is_substituted
      (sampleEnv [("/ws/workspace-bazelrc".toList, "test --workspace=true".toList)])
      sampleParser 3 ["/sample/bazelrc".toList] "import %workspace%/workspace-bazelrc".toList
      [] 0 ⟨newBazelrcContents, none⟩ "import".toList "%workspace%/workspace-bazelrc".toList
      "/ws/workspace-bazelrc".toList (by decide) (by decide) (by rfl) (Or.inl (by decide))
      (by decide)).2.2 [] "/workspace-bazelrc".toList (by decide) (by decide),
   (import_path_is_substituted
      (sampleEnv [("/ws/workspace-bazelrc".toList, "test --workspace=true".toList)])
      sampleParser 3 ["/sample/bazelrc".toList] "import /ws/workspace-bazelrc".toList
      [] 0 ⟨newBazelrcContents, none⟩ "import".toList "/ws/workspace-bazelrc".toList
      "/ws/workspace-bazelrc".toList (by decide) (by decide) (by rfl) (Or.inl (by decide))
      (by decide)).2.1 (by decide)⟩

/-- C21, amended: a flag `--name`, whose name is a known boolean flag, followed by a token `t`
that is not a continuation marker in last position. `--name` becomes the pending flag. If
`t` is `true` or `false`, `t` is recorded under `name` and nothing is pending. Otherwise,
when the name that `handleBooleanFlag` looks up (the name without its `no` prefix if it
has one, else the name itself) is registered as boolean, `parseToken` on `t` gives the very
state and result that it gives from the state in which the flag is recorded ("false" for a
name with the `no` prefix, "true" otherwise) and no flag is pending: `t` is classified once,
as with no flag pending, and is not stored as the value of the flag. -/
theorem pending_boolean_flag_then_token (env : Env) (p : BazelRcParser) (name t : Str)
    (isLast : Bool) (st : TokenState) (stack : List Str) (n : Int)
    (hp : st.pending = none) (hne : name ≠ []) (heq : '=' ∉ name)
    (hk : isKnownBooleanFlag p name = true)
    (hv : ¬ (isLast = true ∧ t = continuationMarker)) :
    parseToken env p ('-' :: '-' :: name) false st stack n =
        ({ st with pending := some ('-' :: '-' :: name) }, .ok (false, false)) ∧
    (t = trueStr ∨ t = falseStr →
      parseToken env p t isLast { st with pending := some ('-' :: '-' :: name) } stack n =
        ({ entries := appendValue st.entries name t, targets := st.targets, pending := none },
          .ok (false, false))) ∧
    (t ≠ trueStr → t ≠ falseStr →
      lookupBool p.knownFlagData.BooleanFlags (booleanFlagName ('-' :: '-' :: name)) = true →
      parseToken env p t isLast { st with pending := some ('-' :: '-' :: name) } stack n =
        parseToken env p t isLast
          { entries := appendValue st.entries (booleanFlagName ('-' :: '-' :: name))
              (booleanAssumedValue ('-' :: '-' :: name)),
            targets := st.targets, pending := none } stack n) ∧
    (hasPrefix name ['n', 'o'] = true →
      booleanFlagName ('-' :: '-' :: name) = name.drop 2 ∧
        booleanAssumedValue ('-' :: '-' :: name) = falseStr) ∧
    (hasPrefix name ['n', 'o'] = false →
      booleanFlagName ('-' :: '-' :: name) = name ∧
        booleanAssumedValue ('-' :: '-' :: name) = trueStr) := by
  have hs : stripLeadingDashes ('-' :: '-' :: name) = name := by
    simp [stripLeadingDashes, hasPrefix]
  have hpre : hasPrefix ('-' :: '-' :: name) ['-', '-', 'n', 'o'] = hasPrefix name ['n', 'o'] := by
    simp [hasPrefix, List.isPrefixOf]
  refine ⟨parseToken_bare_not_last env p name st stack n hp hne heq, ?_, ?_, ?_, ?_⟩
  · intro ht
    have h := parseToken_pending_consumed env p ('-' :: '-' :: name) t isLast
      { st with pending := some ('-' :: '-' :: name) } stack n rfl hv (Or.inr ht)
    rw [h, hs]
  · intro ht hf hb
    have h1 : (isLast && t == continuationMarker) = false := by
      cases isLast <;> simp_all
    rw [parseToken_pending_boolean env p ('-' :: '-' :: name) t isLast
      { st with pending := some ('-' :: '-' :: name) } stack n rfl hv (by rw [hs]; exact hk)
      ht hf, handleBooleanFlag_of_boolean p _ _ stack n hb]
    simp [parseToken, h1]
  · intro h
    simp [booleanFlagName, booleanAssumedValue, hpre, h]
  · intro h
    simp [booleanFlagName, booleanAssumedValue, hpre, h, hs]

/-- The tokens `--bool_flag -o` of the unit test "no value set followed by single dash flag
line", and `--bool_flag false` of the unit test "mixed abbreviated and non-abbreviated
(boolean)". -/
theorem pending_boolean_flag_then_token_witness :
    parseToken (sampleEnv []) sampleParser "false".toList true
        { (⟨emptyFlagValues, [], none⟩ : TokenState) with
          pending := some ('-' :: '-' :: "bool_flag".toList) } ["/sample/bazelrc".toList] 0 =
      ({ entries := appendValue emptyFlagValues "bool_flag".toList "false".toList,
         targets := [], pending := none }, .ok (false, false)) ∧
    parseToken (sampleEnv []) sampleParser "-o".toList true
        { (⟨emptyFlagValues, [], none⟩ : TokenState) with
          pending := some ('-' :: '-' :: "bool_flag".toList) } ["/sample/bazelrc".toList] 0 =
      parseToken (sampleEnv []) sampleParser "-o".toList true
        { entries := appendValue emptyFlagValues
            (booleanFlagName ('-' :: '-' :: "bool_flag".toList))
            (booleanAssumedValue ('-' :: '-' :: "bool_flag".toList)),
          targets := [], pending := none } ["/sample/bazelrc".toList] 0 :=
  ⟨(pending_boolean_flag_then_token (sampleEnv []) sampleParser "bool_flag".toList
      "false".toList true ⟨emptyFlagValues, [], none⟩ ["/sample/bazelrc".toList] 0 rfl
      (by decide) (by decide) (by decide) (by decide)).2.1 (Or.inr (by decide)),
   (pending_boolean_flag_then_token (sampleEnv []) sampleParser "bool_flag".toList
      "-o".toList true ⟨emptyFlagValues, [], none⟩ ["/sample/bazelrc".toList] 0 rfl
      (by decide) (by decide) (by decide) (by decide)).2.2.1 (by decide) (by decide)
      (by decide)⟩

/-- Counterexamples to C21 as stated. A continuation marker in last position that follows
`--bool_flag` neither becomes its value nor makes it resolved: the flag stays pending, and
at the end of the file it is recorded nowhere. And for the boolean flag `nodep_deps`, whose
own name begins with `no`, the token after `--nodep_deps` makes `handleBooleanFlag` look
`dep_deps` up, and the call fails. -/
theorem pending_boolean_flag_not_always_resolved :
    (parseToken (sampleEnv []) sampleParser continuationMarker true
      ⟨emptyFlagValues, [], some "--bool_flag".toList⟩ ["/sample/bazelrc".toList] 0).2 =
      .ok (true, false) ∧
    (parseToken (sampleEnv []) sampleParser continuationMarker true
      ⟨emptyFlagValues, [], some "--bool_flag".toList⟩ ["/sample/bazelrc".toList] 0).1.pending =
      some "--bool_flag".toList ∧
    observe (Parsefile (sampleEnv []) sampleParser 3 (.ok "build --bool_flag \\\\".toList)
      "/sample/bazelrc".toList) "build".toList "bool_flag".toList = some (none, none) ∧
    isKnownBooleanFlag (NewBazelRcParser "/ws".toList nodepFlags) "nodep_deps".toList = true ∧
    (parseToken (sampleEnv []) (NewBazelRcParser "/ws".toList nodepFlags) "x".toList true
      ⟨emptyFlagValues, [], some "--nodep_deps".toList⟩ ["/sample/bazelrc".toList] 0).2 =
      .error (.error
        "failed to process /sample/bazelrc on line 1, value-requiring flag dep_deps didn't have value".toList) := by
  refine ⟨by rfl, by decide, by decide, by decide, by rfl⟩

/-- C22: `handleBooleanFlag` on a flag token. The name it looks up is the text after `--no`
when the token begins with `--no`, and else the token without its leading dashes. The call
succeeds exactly when that name is registered as boolean. It then appends one value under
that name, "false" for a token that begins with `--no` and "true" otherwise: the list of
that name gains this one value at its end, and every other name keeps what it had. When the
name is not registered as boolean the map is unchanged; on a call stack that is not empty
the call returns an error whose message contains "value-requiring flag <name> didn't have
value", and on the empty call stack, which the command line passes, building that error
aborts. -/
theorem boolean_resolution_iff_registered (p : BazelRcParser) (flag : Str)
    (m : BazelFlagValues) (stack : List Str) (n : Int) :
    ((handleBooleanFlag p flag m stack n).2 = none ↔
      lookupBool p.knownFlagData.BooleanFlags (booleanFlagName flag) = true) ∧
    (lookupBool p.knownFlagData.BooleanFlags (booleanFlagName flag) = true →
      handleBooleanFlag p flag m stack n =
        (appendValue m (booleanFlagName flag) (booleanAssumedValue flag), none) ∧
      appendValue m (booleanFlagName flag) (booleanAssumedValue flag) (booleanFlagName flag) =
        some ((m (booleanFlagName flag)).getD [] ++ [booleanAssumedValue flag]) ∧
      ∀ other, other ≠ booleanFlagName flag →
        appendValue m (booleanFlagName flag) (booleanAssumedValue flag) other = m other) ∧
    (lookupBool p.knownFlagData.BooleanFlags (booleanFlagName flag) = false → stack ≠ [] →
      ∃ msg, handleBooleanFlag p flag m stack n = (m, some (.error msg)) ∧
        strContains msg ("value-requiring flag ".toList ++ booleanFlagName flag ++
          " didn't have value".toList) = true) ∧
    (lookupBool p.knownFlagData.BooleanFlags (booleanFlagName flag) = false → stack = [] →
      handleBooleanFlag p flag m stack n = (m, some .panic)) ∧
    booleanFlagName flag =
      (if hasPrefix flag ['-', '-', 'n', 'o'] then flag.drop 4 else stripLeadingDashes flag) ∧
    booleanAssumedValue flag =
      (if hasPrefix flag ['-', '-', 'n', 'o'] then falseStr else trueStr) := by
  refine ⟨?_, ?_, ?_, ?_, rfl, rfl⟩
  · cases hb : lookupBool p.knownFlagData.BooleanFlags (booleanFlagName flag) with
    | true => simp [handleBooleanFlag_of_boolean p flag m stack n hb]
    | false => simp [handleBooleanFlag_of_not_boolean p flag m stack n hb]
  · intro hb
    refine ⟨handleBooleanFlag_of_boolean p flag m stack n hb, by simp [appendValue], ?_⟩
    intro other hne
    simp [appendValue, hne]
  · intro hb hstack
    rw [handleBooleanFlag_of_not_boolean p flag m stack n hb]
    obtain ⟨msg, h1, h2⟩ := makeError_contains stack n
      ("value-requiring flag ".toList ++ booleanFlagName flag ++ " didn't have value".toList)
      hstack
    exact ⟨msg, by rw [h1], h2⟩
  · intro hb hstack
    rw [handleBooleanFlag_of_not_boolean p flag m stack n hb, hstack, makeError_nil]

/-- The flag `--jobs` of the unit test "no value set requires value", which is not boolean:
in a file, and on the command line; and the flag `--nobool_flag`. -/
theorem boolean_resolution_iff_registered_witness :
    (∃ msg, handleBooleanFlag sampleParser "--jobs".toList emptyFlagValues
          ["/sample/bazelrc".toList] 0 = (emptyFlagValues, some (.error msg)) ∧
        strContains msg ("value-requiring flag ".toList ++ booleanFlagName "--jobs".toList ++
          " didn't have value".toList) = true) ∧
    handleBooleanFlag (NewBazelRcParser [] sampleFlags) "--jobs".toList emptyFlagValues
        [] (-1) = (emptyFlagValues, some .panic) ∧
    handleBooleanFlag sampleParser "--nobool_flag".toList emptyFlagValues
        ["/sample/bazelrc".toList] 0 =
      (appendValue emptyFlagValues (booleanFlagName "--nobool_flag".toList)
        (booleanAssumedValue "--nobool_flag".toList), none) :=
  ⟨(boolean_resolution_iff_registered sampleParser "--jobs".toList emptyFlagValues
      ["/sample/bazelrc".toList] 0).2.2.1 (by decide) (by decide),
   (boolean_resolution_iff_registered (NewBazelRcParser [] sampleFlags) "--jobs".toList
      emptyFlagValues [] (-1)).2.2.2.1 (by decide) rfl,
   ((boolean_resolution_iff_registered sampleParser "--nobool_flag".toList emptyFlagValues
      ["/sample/bazelrc".toList] 0).2.1 (by decide)).1⟩

/-- C23: with no flag pending, a token that begins with one dash only. It is accepted exactly
when its second character is a key of the abbreviation table and the token is `-c` or `-c-`
for a flag registered as boolean, or `-c` for another flag. `-c` of a boolean flag records
"true" under the full name and `-c-` records "false"; `-c` of another flag makes the full
name with two leading dashes the pending flag and records nothing. Every other token that
begins with one dash only fails, and the state is then unchanged. -/
theorem single_dash_token_classification (env : Env) (p : BazelRcParser) (t : Str)
    (isLast : Bool) (st : TokenState) (stack : List Str) (n : Int) (hp : st.pending = none)
    (h1 : hasPrefix t ['-'] = true) (h2 : hasPrefix t ['-', '-'] = false) :
    (acceptedAbbreviation p t = true ↔
      ∃ st1 signals, parseToken env p t isLast st stack n = (st1, .ok signals)) ∧
    (∀ (c : Char) (full : Str), t = ['-', c] →
      p.knownFlagData.FlagAbbreviations [c] = some full →
      lookupBool p.knownFlagData.BooleanFlags full = true →
      parseToken env p t isLast st stack n =
        ({ st with entries := appendValue st.entries full trueStr }, .ok (false, false))) ∧
    (∀ (c : Char) (full : Str), t = ['-', c, '-'] →
      p.knownFlagData.FlagAbbreviations [c] = some full →
      lookupBool p.knownFlagData.BooleanFlags full = true →
      parseToken env p t isLast st stack n =
        ({ st with entries := appendValue st.entries full falseStr }, .ok (false, false))) ∧
    (∀ (c : Char) (full : Str), t = ['-', c] →
      p.knownFlagData.FlagAbbreviations [c] = some full →
      lookupBool p.knownFlagData.BooleanFlags full = false →
      parseToken env p t isLast st stack n =
        ({ st with pending := some ('-' :: '-' :: full) }, .ok (false, false))) ∧
    (acceptedAbbreviation p t = false →
      ∃ msg, parseToken env p t isLast st stack n = (st, .error (.error msg))) := by
  have hdash : ∀ (c : Char) (r : Str), t = '-' :: c :: r → c ≠ '-' := by
    intro c r ht hc
    rw [ht, hc] at h2
    simp [hasPrefix, List.isPrefixOf] at h2
  have hA : ∀ (c : Char) (full : Str), t = ['-', c] →
      p.knownFlagData.FlagAbbreviations [c] = some full →
      lookupBool p.knownFlagData.BooleanFlags full = true →
      parseToken env p t isLast st stack n =
        ({ st with entries := appendValue st.entries full trueStr }, .ok (false, false)) := by
    intro c full ht hab hb
    rw [ht]
    exact parseToken_abbrev_true env p c full isLast st stack n hp (hdash c [] ht) hab hb
  have hB : ∀ (c : Char) (full : Str), t = ['-', c, '-'] →
      p.knownFlagData.FlagAbbreviations [c] = some full →
      lookupBool p.knownFlagData.BooleanFlags full = true →
      parseToken env p t isLast st stack n =
        ({ st with entries := appendValue st.entries full falseStr }, .ok (false, false)) := by
    intro c full ht hab hb
    rw [ht]
    exact parseToken_abbrev_false env p c full isLast st stack n hp (hdash c ['-'] ht) hab hb
  have hC : ∀ (c : Char) (full : Str), t = ['-', c] →
      p.knownFlagData.FlagAbbreviations [c] = some full →
      lookupBool p.knownFlagData.BooleanFlags full = false →
      parseToken env p t isLast st stack n =
        ({ st with pending := some ('-' :: '-' :: full) }, .ok (false, false)) := by
    intro c full ht hab hb
    rw [ht]
    exact parseToken_abbrev_pending env p c full isLast st stack n hp (hdash c [] ht) hab hb
  have hD : acceptedAbbreviation p t = false →
      ∃ msg, parseToken env p t isLast st stack n = (st, .error (.error msg)) := by
    intro hacc
    obtain ⟨msg, hmsg⟩ := parseAsAbbreviatedFlag_rejects env p t h1 hacc
    exact ⟨msg, by rw [parseToken_single_dash env p t isLast st stack n hp h1 h2, hmsg]⟩
  refine ⟨⟨?_, ?_⟩, hA, hB, hC, hD⟩
  · intro hacc
    rcases acceptedAbbreviation_cases p t hacc with ⟨c, full, ht, hab⟩ | ⟨c, full, ht, hab, hb⟩
    · cases hb : lookupBool p.knownFlagData.BooleanFlags full with
      | true => exact ⟨_, _, hA c full ht hab hb⟩
      | false => exact ⟨_, _, hC c full ht hab hb⟩
    · exact ⟨_, _, hB c full ht hab hb⟩
  · rintro ⟨st1, signals, hok⟩
    cases hacc : acceptedAbbreviation p t with
    | true => rfl
    | false =>
      obtain ⟨msg, hmsg⟩ := hD hacc
      rw [hmsg] at hok
      simp at hok

/-- With the schema of the unit tests, the tokens `-b`, `-b-`, `-j`, which are accepted, and
`-z`, `-bo`, `-j200`, `-j=200`, which fail. -/
theorem single_dash_token_classification_witness :
    parseToken (sampleEnv []) sampleParser "-b".toList true ⟨emptyFlagValues, [], none⟩
        ["/sample/bazelrc".toList] 0 =
      ({ (⟨emptyFlagValues, [], none⟩ : TokenState) with
          entries := appendValue emptyFlagValues "bool_flag".toList trueStr },
        .ok (false, false)) ∧
    parseToken (sampleEnv []) sampleParser "-b-".toList true ⟨emptyFlagValues, [], none⟩
        ["/sample/bazelrc".toList] 0 =
      ({ (⟨emptyFlagValues, [], none⟩ : TokenState) with
          entries := appendValue emptyFlagValues "bool_flag".toList falseStr },
        .ok (false, false)) ∧
    parseToken (sampleEnv []) sampleParser "-j".toList true ⟨emptyFlagValues, [], none⟩
        ["/sample/bazelrc".toList] 0 =
      ({ (⟨emptyFlagValues, [], none⟩ : TokenState) with
          pending := some ('-' :: '-' :: "jobs".toList) }, .ok (false, false)) ∧
    (∃ msg, parseToken (sampleEnv []) sampleParser "-z".toList true
        ⟨emptyFlagValues, [], none⟩ ["/sample/bazelrc".toList] 0 =
      (⟨emptyFlagValues, [], none⟩, .error (.error msg))) ∧
    (∃ msg, parseToken (sampleEnv []) sampleParser "-bo".toList true
        ⟨emptyFlagValues, [], none⟩ ["/sample/bazelrc".toList] 0 =
      (⟨emptyFlagValues, [], none⟩, .error (.error msg))) ∧
    (∃ msg, parseToken (sampleEnv []) sampleParser "-j200".toList true
        ⟨emptyFlagValues, [], none⟩ ["/sample/bazelrc".toList] 0 =
      (⟨emptyFlagValues, [], none⟩, .error (.error msg))) ∧
    (∃ msg, parseToken (sampleEnv []) sampleParser "-j=200".toList true
        ⟨emptyFlagValues, [], none⟩ ["/sample/bazelrc".toList] 0 =
      (⟨emptyFlagValues, [], none⟩, .error (.error msg))) :=
  ⟨(single_dash_token_classification (sampleEnv []) sampleParser "-b".toList true
      ⟨emptyFlagValues, [], none⟩ ["/sample/bazelrc".toList] 0 rfl (by decide)
      (by decide)).2.1 'b' "bool_flag".toList rfl (by rfl) (by decide),
   (single_dash_token_classification (sampleEnv []) sampleParser "-b-".toList true
      ⟨emptyFlagValues, [], none⟩ ["/sample/bazelrc".toList] 0 rfl (by decide)
      (by decide)).2.2.1 'b' "bool_flag".toList rfl (by rfl) (by decide),
   (single_dash_token_classification (sampleEnv []) sampleParser "-j".toList true
      ⟨emptyFlagValues, [], none⟩ ["/sample/bazelrc".toList] 0 rfl (by decide)
      (by decide)).2.2.2.1 'j' "jobs".toList rfl (by rfl) (by decide),
   (single_dash_token_classification (sampleEnv []) sampleParser "-z".toList true
      ⟨emptyFlagValues, [], none⟩ ["/sample/bazelrc".toList] 0 rfl (by decide)
      (by decide)).2.2.2.2 (by decide),
   (single_dash_token_classification (sampleEnv []) sampleParser "-bo".toList true
      ⟨emptyFlagValues, [], none⟩ ["/sample/bazelrc".toList] 0 rfl (by decide)
      (by decide)).2.2.2.2 (by decide),
   (single_dash_token_classification (sampleEnv []) sampleParser "-j200".toList true
      ⟨emptyFlagValues, [], none⟩ ["/sample/bazelrc".toList] 0 rfl (by decide)
      (by decide)).2.2.2.2 (by decide),
   (single_dash_token_classification (sampleEnv []) sampleParser "-j=200".toList true
      ⟨emptyFlagValues, [], none⟩ ["/sample/bazelrc".toList] 0 rfl (by decide)
      (by decide)).2.2.2.2 (by decide)⟩

/-- C24: what the file parser does with a flag that is still awaiting its value at the end
of a line. A line `cmd1 -c`, where `c` abbreviates a flag that is not boolean, leaves that
flag pending when the line ends; the variable that holds the pending flag is not reset
between lines, so on the next line `cmd2 t`, which is not a continuation line, the token `t`
is taken as the value of that flag and recorded under `cmd2`, whatever `t` looks like. The
second line does not start with no flag pending. -/
theorem pending_flag_leaks_to_next_line (env : Env) (p : BazelRcParser)
    (R content line1 line2 cmd1 cmd2 full t : Str) (c : Char) (fuel : Nat)
    (hlines : splitLines content = [line1, line2])
    (hc1 : hasPrefix line1 ['#'] = false) (hne1 : line1 ≠ [])
    (htok1 : env.shlexSplit line1 = .ok [cmd1, ['-', c]])
    (hi1 : cmd1 ≠ importToken) (ht1 : cmd1 ≠ tryImportToken)
    (hc2 : hasPrefix line2 ['#'] = false) (hne2 : line2 ≠ [])
    (htok2 : env.shlexSplit line2 = .ok [cmd2, t])
    (hi2 : cmd2 ≠ importToken) (ht2 : cmd2 ≠ tryImportToken)
    (hc : c ≠ '-') (hab : p.knownFlagData.FlagAbbreviations [c] = some full)
    (hnb : isKnownBooleanFlag p full = false) (ht : t ≠ continuationMarker)
    (hfuel : 4 ≤ fuel) :
    Parsefile env p fuel (.ok content) R =
      some ((newBazelrcContents.set cmd1 emptyFlagValues).set cmd2
        (appendValue (((newBazelrcContents.set cmd1 emptyFlagValues).entries cmd2).getD
          emptyFlagValues) full t), none) := by
  obtain ⟨k, rfl⟩ : ∃ k, fuel = k + 4 := ⟨fuel - 4, by omega⟩
  have hb : lookupBool p.knownFlagData.BooleanFlags full = false :=
    lookupBool_of_not_known p full hnb
  have hs : stripLeadingDashes ('-' :: '-' :: full) = full := by
    simp [stripLeadingDashes, hasPrefix]
  rw [parsefile_of_first_line env p (k + 2) content line1 R cmd1 ['-', c] [line2] [] hlines hc1
    hne1 htok1 hi1 ht1, parseLine_succ,
    lineLoop_cons_plain env p [R] _ ['-', c] [] _ _
      (parseToken_abbrev_pending env p c full _ _ [R] _ rfl hc hab hb)]
  simp only [lineLoop]
  rw [fileLoop_command env p (k + 1) [R] line2 [] (0 + 1) _ cmd2 t [] hc2 hne2 htok2 hi2 ht2,
    parseLine_succ,
    lineLoop_cons_plain env p [R] _ t [] _ _
      (parseToken_pending_value env p ('-' :: '-' :: full) t _ _ [R] _ rfl
        (by rw [hs]; exact hnb) (fun h => ht h.2))]
  simp only [lineLoop, fileLoop_nil, hs]

/-- The file with the lines `build -j` and `test --bar=1`, with the schema of the unit tests,
where `-j` abbreviates `jobs`: `--bar=1` is recorded as a value of `jobs` under `test`. -/
theorem pending_flag_leaks_to_next_line_witness :
    Parsefile (sampleEnv []) sampleParser 4 (.ok "build -j\ntest --bar=1".toList)
        "/sample/bazelrc".toList =
      some ((newBazelrcContents.set "build".toList emptyFlagValues).set "test".toList
        (appendValue (((newBazelrcContents.set "build".toList emptyFlagValues).entries
          "test".toList).getD emptyFlagValues) "jobs".toList "--bar=1".toList), none) :=
  pending_flag_leaks_to_next_line (sampleEnv []) sampleParser "/sample/bazelrc".toList
    "build -j\ntest --bar=1".toList "build -j".toList "test --bar=1".toList "build".toList
    "test".toList "jobs".toList "--bar=1".toList 'j' 4 (by decide) (by decide) (by decide)
    (by rfl) (by decide) (by decide) (by decide) (by decide) (by rfl) (by decide) (by decide)
    (by decide) (by rfl) (by decide) (by decide) (by decide)

/-- C30: the targets of a successful call of `ParseCommandLineArgsAfterCommand`. No element
of `Targets` begins with a dash, and `Targets` holds tokens of the input, in the order of
the input. -/
theorem targets_are_not_flags (env : Env) (fd : FlagData) (tokens : List Str)
    (r : CommandLineArgsAfterCommand)
    (hok : ParseCommandLineArgsAfterCommand env fd tokens = .ok r) :
    (∀ t ∈ r.Targets, hasPrefix t ['-'] = false) ∧ r.Targets.Sublist tokens := by
  unfold ParseCommandLineArgsAfterCommand at hok
  dsimp only at hok
  rcases hrun : parseTokenizedArgsOnSingleLineAfterCommand env (NewBazelRcParser [] fd) []
      (-1) tokens ⟨emptyFlagValues, [], none⟩ with ⟨st, res⟩
  rw [hrun] at hok
  cases res with
  | error f => cases f <;> simp at hok
  | ok cont =>
    obtain ⟨a, b, h1, h2, h3, h4⟩ := parseTokenizedArgs_targets_shape env _ [] (-1) tokens _ st
      cont hrun
    simp only [List.nil_append] at h1
    have hnot : ['-', '-'] ∉ a := fun hmem => absurd (h3 _ hmem) (by decide)
    have hsplit : (splitAtSeparator st.targets).1 = a := by
      rcases h4 with rfl | ⟨post, rfl⟩
      · rw [h1, List.append_nil, splitAtSeparator_of_not_mem a hnot]
      · rw [h1, splitAtSeparator_append a post hnot]
    cases cont with
    | true => simp at hok
    | false =>
      cases hp : st.pending with
      | some flag => simp [hp] at hok
      | none =>
        simp only [Bool.false_eq_true, if_false, hp, Except.ok.injEq] at hok
        subst hok
        simp only [hsplit]
        exact ⟨h3, h2⟩

/-- The command line of the unit test "OneTargetWithBazelFlagsAndNonBazelFlags", shortened:
the tokens before the separator and those after it look like flags, the target does not. -/
theorem targets_are_not_flags_witness :
    (∀ t ∈ ["@remote//some:target".toList], hasPrefix t ['-'] = false) ∧
    List.Sublist ["@remote//some:target".toList]
      ["--jobs=8".toList, "@remote//some:target".toList, "--bool_flag".toList, ['-', '-'],
        "--flag_for_target".toList, "positional".toList] :=
  targets_are_not_flags (sampleEnv []) sampleFlags
    ["--jobs=8".toList, "@remote//some:target".toList, "--bool_flag".toList, ['-', '-'],
      "--flag_for_target".toList, "positional".toList]
    ⟨["@remote//some:target".toList],
      appendValue (appendValue emptyFlagValues "jobs".toList "8".toList)
        "bool_flag".toList trueStr,
      ["--flag_for_target".toList, "positional".toList]⟩ (by rfl)

/-- C26: the accumulator only grows. After `parseToken`, whether it succeeds or fails, every
flag key present before is still present and its previous value list is a prefix of its new
list; the same holds, for every sub-command and flag key, between the contents a call of
`parseFileInternal` (the root call of `Parsefile` and every nested call for an import) starts
from and the contents it leaves, and between the contents at any point of the loop over the
lines of a file and the contents at the exit of the loop, with or without an error. -/
theorem accumulator_only_grows (env : Env) (p : BazelRcParser) :
    (∀ (t : Str) (isLast : Bool) (st : TokenState) (stack : List Str) (n : Int) (k : Str)
      (vs : List Str), st.entries k = some vs →
      ∃ extra, (parseToken env p t isLast st stack n).1.entries k = some (vs ++ extra)) ∧
    (∀ (fuel : Nat) (stack : List Str) (out : BazelrcContents) (file : Except Str Str)
      (c : BazelrcContents) (e : Option Failure) (cmd k : Str) (vs : List Str),
      parseFileInternal env p fuel out file stack = some (c, e) →
      out.values cmd k = some vs → ∃ extra, c.values cmd k = some (vs ++ extra)) ∧
    (∀ (fuel : Nat) (stack lines : List Str) (n : Nat) (v w : FileVars) (e : Option Failure)
      (cmd k : Str) (vs : List Str), fileLoop env p fuel stack lines n v = some (w, e) →
      v.out.values cmd k = some vs → ∃ extra, w.out.values cmd k = some (vs ++ extra)) :=
  ⟨fun t isLast st stack n k vs hk =>
      appended_prefix (parseToken_appended env p t isLast st stack n) k vs hk,
    fun fuel stack out file c e cmd k vs h hk =>
      contentsAppended_values ((parse_appended_all env p fuel).2 stack out file c e h) cmd k vs
        hk,
    fun fuel stack lines n v w e cmd k vs h hk =>
      contentsAppended_values ((parse_appended_all env p fuel).1 stack lines n v w e h) cmd k
        vs hk⟩

/-- The token `--jobs=2` met with `jobs` holding `1`, and the file `build --a=1` followed by
a line that fails, parsed from contents in which `a` of `build` holds `0`. -/
theorem accumulator_only_grows_witness :
    (∃ extra, (parseToken (sampleEnv []) sampleParser "--jobs=2".toList true
      ⟨appendValue emptyFlagValues "jobs".toList "1".toList, [], none⟩ ["f".toList] 0).1.entries
        "jobs".toList = some (["1".toList] ++ extra)) ∧
    ∃ r, parseFileInternal (sampleEnv []) sampleParser 5
        (newBazelrcContents.set "build".toList
          (appendValue emptyFlagValues "a".toList "0".toList))
        (.ok "build --a=1\nbuild -z".toList) ["f".toList] = some r ∧
      ∃ extra, r.1.values "build".toList "a".toList = some (["0".toList] ++ extra) := by
  refine ⟨(accumulator_only_grows (sampleEnv []) sampleParser).1 _ _ _ _ _ _ _ (by rfl), ?_⟩
  obtain ⟨r, h⟩ := Option.isSome_iff_exists.mp
    (show (parseFileInternal (sampleEnv []) sampleParser 5
      (newBazelrcContents.set "build".toList
        (appendValue emptyFlagValues "a".toList "0".toList))
      (.ok "build --a=1\nbuild -z".toList) ["f".toList]).isSome = true from by rfl)
  exact ⟨r, h, (accumulator_only_grows (sampleEnv []) sampleParser).2.1 _ _ _ _ r.1 r.2 _ _ _ h
    (by rfl)⟩

/-- C27: every flag key that exists holds a non-empty value list. In the contents `Parsefile`
returns, with or without an error, and in the `BazelFlags` of a result of
`ParseCommandLineArgsAfterCommand`, each key maps to a non-empty list, so `FlagValue` returns
a value there and never fails on the last element; the entry of a sub-command may hold no
flag key, as that of `build` after the line `build //x`. -/
theorem flag_keys_hold_values (env : Env) :
    (∀ (p : BazelRcParser) (fuel : Nat) (file : Except Str Str) (R : Str)
      (c : BazelrcContents) (e : Option Failure), Parsefile env p fuel file R = some (c, e) →
      (∀ (cmd : Str) (m : BazelFlagValues) (k : Str) (vs : List Str),
        c.entries cmd = some m → m k = some vs → vs ≠ []) ∧
      ∀ (cmd k : Str), ∃ v, c.FlagValue cmd k = .ok v) ∧
    (∀ (fd : FlagData) (tokens : List Str) (r : CommandLineArgsAfterCommand),
      ParseCommandLineArgsAfterCommand env fd tokens = .ok r →
      (∀ (k : Str) (vs : List Str), r.BazelFlags k = some vs → vs ≠ []) ∧
      ∀ (k : Str), ∃ v, r.BazelFlags.FlagValue k = .ok v) ∧
    ∃ c m, Parsefile (sampleEnv []) sampleParser 3 (.ok "build //x".toList) "f".toList =
        some (c, none) ∧ c.entries "build".toList = some m ∧ ∀ k, m k = none := by
  refine ⟨?_, ?_, ⟨_, _, by rfl, by rfl, fun _ => rfl⟩⟩
  · intro p fuel file R c e h
    have hne := contentsAppended_nonempty
      ((parse_appended_all env p fuel).2 [R] newBazelrcContents file c e h)
      (fun cmd m k vs hm _ => by simp [newBazelrcContents] at hm)
    refine ⟨hne, ?_⟩
    intro cmd k
    unfold BazelrcContents.FlagValue
    cases hm : c.entries cmd with
    | none => exact ⟨none, rfl⟩
    | some m => exact flagValue_defined m k (fun vs hk => hne cmd m k vs hm hk)
  · intro fd tokens r hok
    have hne := appended_nonempty (parseCommandLine_flags env fd tokens r hok)
      (fun k vs hk => by simp [emptyFlagValues] at hk)
    exact ⟨hne, fun k => flagValue_defined _ k (hne k)⟩

/-- The file `build --a=1` followed by a line that fails, and the arguments `--a=1 x`. -/
theorem flag_keys_hold_values_witness :
    (∃ r, Parsefile (sampleEnv []) sampleParser 5 (.ok "build --a=1\nbuild -z".toList)
        "f".toList = some r ∧ ∃ v, r.1.FlagValue "build".toList "a".toList = .ok v) ∧
    ∃ r, ParseCommandLineArgsAfterCommand (sampleEnv []) sampleFlags
        ["--a=1".toList, "x".toList] = .ok r ∧
      ∃ v, r.BazelFlags.FlagValue "a".toList = .ok v := by
  constructor
  · obtain ⟨r, h⟩ := Option.isSome_iff_exists.mp
      (show (Parsefile (sampleEnv []) sampleParser 5 (.ok "build --a=1\nbuild -z".toList)
        "f".toList).isSome = true from by rfl)
    exact ⟨r, h, ((flag_keys_hold_values (sampleEnv [])).1 sampleParser _ _ _ r.1 r.2 h).2 _ _⟩
  · exact ⟨_, rfl, ((flag_keys_hold_values (sampleEnv [])).2.1 sampleFlags
      ["--a=1".toList, "x".toList] _ rfl).2 _⟩

/-- C28, as stated, fails: the file with the lines `build --a=1` and `build --jobs` fails on
its second line, and the contents `Parsefile` returns with the error hold the value `1` that
the first line recorded for `a` under `build`. -/
theorem failed_parse_returns_recorded_entries :
    observe (Parsefile (sampleEnv []) sampleParser 5 (.ok "build --a=1\nbuild --jobs".toList)
        "f".toList) "build".toList "a".toList =
      some (some ["1".toList], some (.error
        "failed to process f on line 2, value-requiring flag jobs didn't have value".toList)) := by
  decide

/-- C28, amended: when the parse of a file fails midway, `Parsefile` returns the error
together with the contents accumulated up to the failure. If the lines before a line parse
successfully to the contents `out1`, and the loop over the lines fails from that line on,
then `Parsefile` returns that error with the contents the loop left, in which every
sub-command of `out1` is present and every value list of `out1` is a prefix of the list
under the same sub-command and key. -/
theorem entries_before_failure_remain (env : Env) (p : BazelRcParser) (content R : Str)
    (pre : List Str) (line : Str) (rest : List Str) (f g : Nat) (out1 : BazelrcContents)
    (pend : Option Str) (w : FileVars) (err : Failure)
    (hlines : splitLines content = pre ++ line :: rest)
    (hopen : endsOpen env pre = false)
    (hrun : fileLoop env p f [R] pre 0 ⟨newBazelrcContents, none⟩ = some (⟨out1, pend⟩, none))
    (hfail : fileLoop env p g [R] (line :: rest) pre.length ⟨out1, pend⟩ =
      some (w, some err)) :
    (∀ fuel, f + g + 2 ≤ fuel →
      Parsefile env p fuel (.ok content) R = some (w.out, some err)) ∧
    (∀ cmd, out1.entries cmd ≠ none → w.out.entries cmd ≠ none) ∧
    ∀ cmd k vs, out1.values cmd k = some vs →
      ∃ extra, w.out.values cmd k = some (vs ++ extra) := by
  have happ := (parse_appended_all env p g).1 [R] (line :: rest) pre.length ⟨out1, pend⟩ w
    (some err) hfail
  refine ⟨?_, fun cmd => (happ cmd).1, fun cmd k vs hk => contentsAppended_values happ cmd k vs hk⟩
  intro fuel hfuel
  obtain ⟨G, hG, e⟩ := parsefile_reaches_line env p content R pre line rest f out1 pend hlines
    hopen hrun fuel (by omega)
  rw [e, fileLoop_more_fuel env p g (G + 1) (by omega) _ _ _ _ _ hfail]

/-- The file with the lines `build --a=1` and `build --jobs`, which fails on its second
line. -/
theorem entries_before_failure_remain_witness :
    Parsefile (sampleEnv []) sampleParser 8 (.ok "build --a=1\nbuild --jobs".toList)
        "f".toList =
      some ((newBazelrcContents.set "build".toList
          (appendValue emptyFlagValues "a".toList "1".toList)).set "build".toList
          (appendValue emptyFlagValues "a".toList "1".toList),
        some (.error
          "failed to process f on line 2, value-requiring flag jobs didn't have value".toList)) ∧
    ∃ extra, ((newBazelrcContents.set "build".toList
        (appendValue emptyFlagValues "a".toList "1".toList)).set "build".toList
        (appendValue emptyFlagValues "a".toList "1".toList)).values "build".toList
          "a".toList = some (["1".toList] ++ extra) :=
  ⟨(entries_before_failure_remain (sampleEnv []) sampleParser
      "build --a=1\nbuild --jobs".toList "f".toList ["build --a=1".toList]
      "build --jobs".toList [] 3 3
      (newBazelrcContents.set "build".toList
        (appendValue emptyFlagValues "a".toList "1".toList)) none
      ⟨(newBazelrcContents.set "build".toList
          (appendValue emptyFlagValues "a".toList "1".toList)).set "build".toList
          (appendValue emptyFlagValues "a".toList "1".toList), none⟩
      (.error
        "failed to process f on line 2, value-requiring flag jobs didn't have value".toList)
      (by decide) (by decide) (by rfl) (by rfl)).1 8 (by decide),
    (entries_before_failure_remain (sampleEnv []) sampleParser
      "build --a=1\nbuild --jobs".toList "f".toList ["build --a=1".toList]
      "build --jobs".toList [] 3 3
      (newBazelrcContents.set "build".toList
        (appendValue emptyFlagValues "a".toList "1".toList)) none
      ⟨(newBazelrcContents.set "build".toList
          (appendValue emptyFlagValues "a".toList "1".toList)).set "build".toList
          (appendValue emptyFlagValues "a".toList "1".toList), none⟩
      (.error
        "failed to process f on line 2, value-requiring flag jobs didn't have value".toList)
      (by decide) (by decide) (by rfl) (by rfl)).2.2 "build".toList "a".toList
      ["1".toList] (by rfl)⟩

/-- C25: `Parsefile` terminates over a finite set of files. When every path that opens is
in the list `paths`, `Parsefile` returns one and the same result, contents with or without
an error, for every amount of fuel from `fuelBound` on: a share of fuel for the root file
and for each listed path other than the root label. Import recursion is bounded because an
`import` or `try-import` line whose resolved path is on the import call stack is rejected
with the cycle error at once, whatever the fuel, with no recursive call; and continuation
recursion is bounded because `parseLineWithoutCommandPrefix` returns as soon as the fuel
exceeds the number of lines after the current one, each step taking the next line. -/
theorem parsefile_terminates (env : Env) (p : BazelRcParser) (paths : List Str)
    (hfin : ∀ P f, env.osOpen P = .ok f → P ∈ paths) (file : Except Str Str) (R : Str) :
    (∃ r, ∀ fuel, fuelBound env paths file R ≤ fuel →
      Parsefile env p fuel file R = some r) ∧
    (∀ (fuel : Nat) (S : List Str) (line : Str) (rest : List Str) (n : Nat) (v : FileVars)
      (d pathToken : Str), hasPrefix line ['#'] = false → line ≠ [] →
      env.shlexSplit line = .ok [d, pathToken] → d = importToken ∨ d = tryImportToken →
      S.contains (replaceAll pathToken workspacePlaceholder p.workspaceDirectory) = true →
      fileLoop env p (fuel + 1) S (line :: rest) n v =
        some (v, some (makeError
          (S ++ [replaceAll pathToken workspacePlaceholder p.workspaceDirectory]) n
          importCycleErrorMessage false))) ∧
    (∀ (S : List Str) (fuel : Nat) (toks : List Str) (v : LineVars), v.rest.length < fuel →
      ∃ w e, parseLineWithoutCommandPrefix env p S fuel toks v = some (w, e) ∧
        w.rest.length ≤ v.rest.length) := by
  refine ⟨?_, ?_, fun S fuel toks v h => parseLine_total env p S fuel toks v h⟩
  · have hall := (parse_total_all env p paths (maxLines env paths file)
      (fun P f h => ⟨hfin P f h, maxLines_listed env paths file P f (hfin P f h) h⟩)
      (fuelBound env paths file R)).2 [R] newBazelrcContents file
      (maxLines_root env paths file) (by
        unfold fuelBound
        rw [Nat.succ_mul]
        omega)
    obtain ⟨r, hr⟩ := hall
    exact ⟨r, fun fuel hfuel =>
      parseFileInternal_more_fuel env p _ fuel hfuel [R] newBazelrcContents file r hr⟩
  · intro fuel S line rest n v d pathToken hc hne htok hd hcyc
    have hcmd : (d == importToken || d == tryImportToken) = true := by
      rcases hd with h | h <;> simp [h]
    have hc1 : ¬ (hasPrefix line ['#'] || line == []) = true := by simp [hc, hne]
    rw [fileLoop_succ_cons, if_neg hc1, (tokenizeLine_eq_ok env line _ _ _).2 htok]
    simp only [if_pos hcmd, if_pos hcyc]

/-- The root file imports `/a`, which imports `/b`, which imports `/a`: the call returns
for every amount of fuel from 9 on. -/
theorem parsefile_terminates_witness :
    ∃ r, ∀ fuel, 9 ≤ fuel →
      Parsefile (sampleEnv [("/a".toList, "import /b".toList),
        ("/b".toList, "import /a".toList)]) sampleParser fuel (.ok "import /a".toList)
        "/root".toList = some r := by
  obtain ⟨r, h⟩ := (parsefile_terminates
    (sampleEnv [("/a".toList, "import /b".toList), ("/b".toList, "import /a".toList)])
    sampleParser ["/a".toList, "/b".toList]
    (sampleEnv_opens_listed [("/a".toList, "import /b".toList),
      ("/b".toList, "import /a".toList)])
    (.ok "import /a".toList) "/root".toList).1
  exact ⟨r, fun fuel hfuel => h fuel (Nat.le_trans (by decide) hfuel)⟩

/-- C29: the import call stacks of the calls of `parseFileInternal` made during a call of
`Parsefile`. The instrumented `ParsefileTraced` returns what `Parsefile` returns, together
with the call stack of every call of `parseFileInternal` it makes; the first is the stack
made of the root label alone, and every recorded stack has at least one element, holds no
path twice and begins with the root label. Hence `makeError` finds a last element on every
stack it is given there (on a stack that is not empty it returns an error value), and
`Parsefile` never aborts. -/
theorem import_call_stacks_are_sound (env : Env) (p : BazelRcParser) (fuel : Nat)
    (file : Except Str Str) (R : Str) :
    (ParsefileTraced env p fuel file R).map Prod.fst = Parsefile env p fuel file R ∧
    (∀ (x : BazelrcContents × Option Failure) (calls : List (List Str)),
      ParsefileTraced env p fuel file R = some (x, calls) →
      (∃ later, calls = [R] :: later) ∧ ∀ T ∈ calls, T ≠ [] ∧ T.Nodup ∧ [R] <+: T) ∧
    (∀ (c : BazelrcContents) (e : Option Failure),
      Parsefile env p fuel file R = some (c, e) → e ≠ some .panic) ∧
    (∀ (S : List Str) (n : Int) (msg : Str) (handlingImport : Bool), S ≠ [] →
      ∃ m, makeError S n msg handlingImport = .error m) := by
  refine ⟨(traced_erase_all env p fuel).2 [R] newBazelrcContents file, ?_, ?_, ?_⟩
  · intro x calls h
    exact (traced_stacks_all env p fuel).2 [R] newBazelrcContents file x calls (by simp)
      (List.nodup_singleton R) h
  · intro c e h he
    rw [he] at h
    exact (parse_no_panic_all env p fuel).2 [R] newBazelrcContents file c (by simp) h
  · intro S n msg b hne
    have h := makeError_no_panic S n msg b hne
    cases hm : makeError S n msg b with
    | error m => exact ⟨m, rfl⟩
    | panic => exact absurd hm h

/-- The root file imports `/a`, which imports `/b`, which imports `/a`: three calls of
`parseFileInternal` are made, and the last import is rejected as a cycle. -/
theorem import_call_stacks_are_sound_witness :
    ∃ x calls, ParsefileTraced (sampleEnv [("/a".toList, "import /b".toList),
        ("/b".toList, "import /a".toList)]) sampleParser 9 (.ok "import /a".toList)
        "/root".toList = some (x, calls) ∧
      calls = [["/root".toList], ["/root".toList, "/a".toList],
        ["/root".toList, "/a".toList, "/b".toList]] ∧
      ∀ T ∈ calls, T ≠ [] ∧ T.Nodup ∧ ["/root".toList] <+: T := by
  obtain ⟨⟨x, calls⟩, h⟩ := Option.isSome_iff_exists.mp
    (show (ParsefileTraced (sampleEnv [("/a".toList, "import /b".toList),
        ("/b".toList, "import /a".toList)]) sampleParser 9 (.ok "import /a".toList)
        "/root".toList).isSome = true from by rfl)
  have hc : (ParsefileTraced (sampleEnv [("/a".toList, "import /b".toList),
        ("/b".toList, "import /a".toList)]) sampleParser 9 (.ok "import /a".toList)
        "/root".toList).map Prod.snd =
      some [["/root".toList], ["/root".toList, "/a".toList],
        ["/root".toList, "/a".toList, "/b".toList]] := by rfl
  rw [h] at hc
  simp only [Option.map_some', Option.some.injEq] at hc
  exact ⟨x, calls, h, hc, ((import_call_stacks_are_sound
    (sampleEnv [("/a".toList, "import /b".toList), ("/b".toList, "import /a".toList)])
    sampleParser 9 (.ok "import /a".toList) "/root".toList).2.1 x calls h).2⟩

/-- C31: the two drivers agree on a line without continuation. Take a token list, not empty,
on which `ParseCommandLineArgsAfterCommand` succeeds for the schema of the parser, and a
line, not a comment, whose tokens are a sub-command other than `import` and `try-import`
followed by those tokens. `Parsefile` on the file made of that line succeeds, and the entry
of the sub-command in its contents is the `BazelFlags` of the command-line result. -/
theorem drivers_agree_on_one_line (env : Env) (p : BazelRcParser) (R line cmd : Str)
    (tokens : List Str) (r : CommandLineArgsAfterCommand) (fuel : Nat)
    (hnl : '\n' ∉ line) (hc : hasPrefix line ['#'] = false) (hne : line ≠ [])
    (htok : env.shlexSplit line = .ok (cmd :: tokens))
    (hi : cmd ≠ importToken) (ht : cmd ≠ tryImportToken) (htokens : tokens ≠ [])
    (hok : ParseCommandLineArgsAfterCommand env p.knownFlagData tokens = .ok r)
    (hfuel : 3 ≤ fuel) :
    Parsefile env p fuel (.ok line) R =
        some (newBazelrcContents.set cmd r.BazelFlags, none) ∧
    (newBazelrcContents.set cmd r.BazelFlags).entries cmd = some r.BazelFlags := by
  refine ⟨?_, by simp [BazelrcContents.set]⟩
  obtain ⟨k, rfl⟩ : ∃ k, fuel = k + 3 := ⟨fuel - 3, by omega⟩
  obtain ⟨arg, args, rfl⟩ : ∃ arg args, tokens = arg :: args := by
    cases tokens with
    | nil => exact absurd rfl htokens
    | cons a as => exact ⟨a, as, rfl⟩
  unfold ParseCommandLineArgsAfterCommand at hok
  dsimp only at hok
  rcases hrun : parseTokenizedArgsOnSingleLineAfterCommand env
      (NewBazelRcParser [] p.knownFlagData) [] (-1) (arg :: args)
      ⟨emptyFlagValues, [], none⟩ with ⟨st, res⟩
  rw [hrun] at hok
  cases res with
  | error f => cases f <;> simp at hok
  | ok cont =>
    cases cont with
    | true => simp at hok
    | false =>
      cases hp : st.pending with
      | some flag => simp [hp] at hok
      | none =>
        simp only [Bool.false_eq_true, if_false, hp, Except.ok.injEq] at hok
        subst hok
        have hline := lineLoop_of_single_line env p (NewBazelRcParser [] p.knownFlagData) rfl
          [R] [] (-1) (parseLineWithoutCommandPrefix env p [R] k) (arg :: args)
          ⟨emptyFlagValues, [], none⟩ st 0 [] hrun
        exact parsefile_one_line env p k line R cmd arg args ⟨st, 0, []⟩ none hnl hc hne htok
          hi ht (by rw [parseLine_succ]; exact hline) rfl

/-- The line `build --a=1 x --bool_flag -j 4 -- y` and the arguments after `build`. -/
theorem drivers_agree_on_one_line_witness :
    Parsefile (sampleEnv []) sampleParser 3 (.ok "build --a=1 x --bool_flag -j 4 -- y".toList)
        "/sample/bazelrc".toList =
      some (newBazelrcContents.set "build".toList
        (appendValue (appendValue (appendValue emptyFlagValues "a".toList "1".toList)
          "bool_flag".toList "true".toList) "jobs".toList "4".toList), none) ∧
    (newBazelrcContents.set "build".toList
        (appendValue (appendValue (appendValue emptyFlagValues "a".toList "1".toList)
          "bool_flag".toList "true".toList) "jobs".toList "4".toList)).entries
        "build".toList =
      some (appendValue (appendValue (appendValue emptyFlagValues "a".toList "1".toList)
        "bool_flag".toList "true".toList) "jobs".toList "4".toList) :=
  drivers_agree_on_one_line (sampleEnv []) sampleParser "/sample/bazelrc".toList
    "build --a=1 x --bool_flag -j 4 -- y".toList "build".toList
    ["--a=1".toList, "x".toList, "--bool_flag".toList, "-j".toList, "4".toList,
      "--".toList, "y".toList]
    ⟨["x".toList],
      appendValue (appendValue (appendValue emptyFlagValues "a".toList "1".toList)
        "bool_flag".toList "true".toList) "jobs".toList "4".toList,
      ["y".toList]⟩
    3 (by decide) (by decide) (by decide) (by rfl) (by decide) (by decide) (by decide)
    (by rfl) (by decide)

end Bazelrc
